import Mathlib

/-!
# Linux personality registry of jails (`sys/compat/linux/linux_mib.c`)

A shallow embedding of the per-prison Linux information kept by
`linux_mib.c`: the release-string parser `linux_map_osrel`, the resolver
`linux_find_prison`, the allocator `linux_alloc_prison`, the jail OSD
methods `linux_prison_create`, `linux_prison_check`, `linux_prison_set` and
`linux_prison_get`, the registration `linux_osd_jail_register` and the
accessors of a thread (`linux_kernver`, `linux_set_osname`,
`linux_set_osrelease`, `linux_set_oss_version`) and the switch of the
debugging bits `linux_debug`; and, in the namespace `Libdisk`, of the rules of
`lib/libdisk/rules.c` (`Rule_000`, `Rule_001`, `Check_Chunk`, `CheckRules`).

Conventions of the embedding:

* a byte is a `Nat`; a `char` buffer is the list of its bytes; the C string
  held by a buffer is the run of bytes before its first NUL (`cstr`);
* a pointer into a string is the list of bytes from that position on, so two
  pointers into the same string are equal exactly when the lists are equally
  long;
* `int` values are `Int`s kept in the 32-bit range by `wrap32`; the width of
  `long` is a parameter `LONG_BIT` (32 on i386, 64 on amd64);
* a prison is named by a `Nat`, `prison0` being the root; the hierarchy is the
  parent link `pr_parent` and is walked with explicit fuel;
* the model is sequential: one thread runs at a time; the mutexes that this
  thread holds are tracked only by the instrumented resolver
  `linux_find_prison_mtx`.
-/

namespace LinuxMib

/-! ## Constants of headers that are not among the sources at hand -/

/-- Modelled from the spec: `ENOENT` of `sys/errno.h`, a header that is not under src/. -/
def ENOENT : Nat := 2

/-- Modelled from the spec: `EINVAL` of `sys/errno.h` (the spec's `FormatError`
and `InvalidMode`), a header that is not under src/. -/
def EINVAL : Nat := 22

/-- Modelled from the spec: `ENAMETOOLONG` of `sys/errno.h` (the spec's
`TooLong`), a header that is not under src/. -/
def ENAMETOOLONG : Nat := 63

/-- Modelled from the spec: `JAIL_SYS_NEW` of `sys/jail.h` (mode NEW), a header
that is not under src/. -/
def JAIL_SYS_NEW : Int := 1

/-- Modelled from the spec: `JAIL_SYS_INHERIT` of `sys/jail.h` (mode INHERIT), a
header that is not under src/. -/
def JAIL_SYS_INHERIT : Int := 2

/-! ## Bytes and C strings -/

/-- The bytes of a string literal (without a terminator). -/
def bytes (s : String) : List Nat := s.toList.map Char.toNat

/-- The C string held by a buffer: the bytes before the first NUL. -/
def cstr (buf : List Nat) : List Nat := buf.takeWhile (fun c => c != 0)

/-- Function `strlen` of libc, on a buffer. -/
def strlen (buf : List Nat) : Nat := (cstr buf).length

/-- Modelled from the spec: `isspace` of `sys/ctype.h`, which is not under src/:
a blank or one of the controls TAB .. CR. -/
def isspace (c : Nat) : Bool := c == 32 || (9 ≤ c && c ≤ 13)

/-- Modelled from the spec: `isdigit` of `sys/ctype.h`, which is not under src/. -/
def isdigit (c : Nat) : Bool := 48 ≤ c && c ≤ 57

/-- Modelled from the spec: `strlcpy` of libkern, which is not under src/:
`strlcpy(dst, src, siz)` writes at most `siz - 1` bytes of the C string `src`
and a terminating NUL at the start of `dst` and leaves the rest of `dst` as it
was. -/
def strlcpy (dst src : List Nat) (siz : Nat) : List Nat :=
  if siz = 0 then dst
  else
    let n := min (strlen src) (siz - 1)
    (cstr src).take n ++ [0] ++ dst.drop (n + 1)

/-- Conversion to `int`: the value modulo 2^32, in two's complement. -/
def wrap32 (x : Int) : Int := (x + 2147483648) % 4294967296 - 2147483648

/-! ## `strtol` in base 10 -/

/-- The digit loop of `strtol`: `acc` is the value so far and `any` tells
whether a digit was consumed (1), none was (0) or the value went out of range
(-1). It returns `acc`, `any` and the pointer to the first byte that is not
consumed. -/
def strtol_loop (cutoff cutlim : Nat) : List Nat → Nat → Int → Nat × Int × List Nat
  | [], acc, any => (acc, any, [])
  | c :: s, acc, any =>
    if isdigit c then
      if any < 0 ∨ acc > cutoff ∨ (acc = cutoff ∧ c - 48 > cutlim) then
        strtol_loop cutoff cutlim s acc (-1)
      else
        strtol_loop cutoff cutlim s (acc * 10 + (c - 48)) 1
    else (acc, any, c :: s)

/-- The white space in front of the number is skipped. -/
def skip_space : List Nat → List Nat
  | [] => []
  | c :: s => if isspace c then skip_space s else c :: s

/-- The optional sign in front of the digits: whether it is a minus, and the
pointer after it. -/
def strtol_sign : List Nat → Bool × List Nat
  | [] => (false, [])
  | c :: s => if c = 45 then (true, s) else if c = 43 then (false, s) else (false, c :: s)

/-- The bound `cutoff` of `strtol`: `-(unsigned long)LONG_MIN` for a negative
number and `LONG_MAX` otherwise, for a `long` of `LONG_BIT` bits. -/
def strtol_cutoff (LONG_BIT : Nat) (neg : Bool) : Nat :=
  if neg then 2 ^ (LONG_BIT - 1) else 2 ^ (LONG_BIT - 1) - 1

/-- The value `strtol` returns: `LONG_MIN` or `LONG_MAX` when the digits went
out of range, else the signed value of the digits. -/
def strtol_value (LONG_BIT : Nat) (neg : Bool) (acc : Nat) (any : Int) : Int :=
  if any < 0 then (if neg then -(2 ^ (LONG_BIT - 1) : Int) else 2 ^ (LONG_BIT - 1) - 1)
  else if neg then -(acc : Int) else (acc : Int)

/-- Modelled from the spec: `strtol(nptr, &endptr, 10)` of libkern, which is not
under src/. It skips white space, takes an optional sign, reads decimal digits
and clamps the value to the range of `long` (`LONG_BIT` bits); `endptr` is the
first byte after the digits, or `nptr` itself when there is no digit. The result
is the value and `endptr`. -/
def strtol (LONG_BIT : Nat) (nptr : List Nat) : Int × List Nat :=
  let sg := strtol_sign (skip_space nptr)
  let cutoff := strtol_cutoff LONG_BIT sg.1
  let r := strtol_loop (cutoff / 10) (cutoff % 10) sg.2 0 0
  (strtol_value LONG_BIT sg.1 r.1 r.2.1, if r.2.1 = 0 then nptr else r.2.2)

/-! ## The release parser -/

/-- Function `linux_map_osrel(osrelease, &osrel)`: `osrel` is the value of
`*osrel` before the call; the result is the error and the value of `*osrel`
after it. The three `int`s hold the `long`s of `strtol` modulo 2^32, and the
sum `v` is computed modulo 2^32. -/
def linux_map_osrel (LONG_BIT : Nat) (osrelease : List Nat) (osrel : Int) : Nat × Int :=
  let osrelease := cstr osrelease
  let r0 := strtol LONG_BIT osrelease
  let v0 := wrap32 r0.1
  let sep := r0.2
  if osrelease.length = sep.length ∨ sep.length ≤ 1 ∨ sep.head? ≠ some 46 then (EINVAL, osrel)
  else
    let osrelease := sep.tail
    let r1 := strtol LONG_BIT osrelease
    let v1 := wrap32 r1.1
    let sep := r1.2
    if osrelease.length = sep.length ∨ sep.length ≤ 1 ∨ sep.head? ≠ some 46 then (EINVAL, osrel)
    else
      let osrelease := sep.tail
      let r2 := strtol LONG_BIT osrelease
      let v2 := wrap32 r2.1
      let sep := r2.2
      if osrelease.length = sep.length ∨ sep.length ≠ 0 then (EINVAL, osrel)
      else
        let v := wrap32 (v0 * 1000000 + v1 * 1000 + v2)
        if v < 1000000 then (EINVAL, osrel)
        else (0, v)


/-! ## Prisons and their Linux information -/

/-- The record `struct linux_prison`; the two `char` arrays are byte lists. -/
structure linux_prison where
  pr_osname : List Nat
  pr_osrelease : List Nat
  pr_oss_version : Int
  pr_osrel : Int
deriving DecidableEq, Repr

/-- A `char` array of `n` bytes initialised from a string literal: the rest is 0. -/
def char_array (n : Nat) (s : List Nat) : List Nat := s ++ List.replicate (n - s.length) 0

/-- The static record `lprison0` as initialised; `LINUX_MAX_UTSNAME`, the
length of the arrays, comes from `linux.h`, which is not under src/, and is a
parameter. -/
def lprison0 (LINUX_MAX_UTSNAME : Nat) : linux_prison where
  pr_osname := char_array LINUX_MAX_UTSNAME (bytes "Linux")
  pr_osrelease := char_array LINUX_MAX_UTSNAME (bytes "2.6.16")
  pr_oss_version := 0x030600
  pr_osrel := 2006016

/-- The root prison `prison0`. -/
def prison0 : Nat := 0

/-- The state the module works on: the registered OSD slot number, the static
record `lprison0`, the parent link of every prison (`NULL` is `none`), the
value every prison holds in the OSD slot of this module (`NULL`, nothing, is
`none`) and the list `allprison`. -/
structure State where
  linux_osd_jail_slot : Nat
  lprison0 : linux_prison
  pr_parent : Nat → Option Nat
  osd : Nat → Option linux_prison
  allprison : List Nat

/-- Modelled from the spec: `osd_jail_get(pr, linux_osd_jail_slot)` of
`kern_osd.c`, which is not under src/: the record in the slot of `pr`, if any. -/
def osd_jail_get (st : State) (pr : Nat) : Option linux_prison := st.osd pr

/-- Modelled from the spec: `osd_jail_set(pr, linux_osd_jail_slot, value)` of
`kern_osd.c`, which is not under src/: it installs `value` in the slot of `pr`
and returns 0, or fails (resource exhaustion) and changes nothing; `error` is
the outcome it has. -/
def osd_jail_set (st : State) (pr : Nat) (value : linux_prison) (error : Nat) : Nat × State :=
  if error = 0 then (0, { st with osd := Function.update st.osd pr (some value) })
  else (error, st)

/-- Modelled from the spec: `osd_jail_del(pr, linux_osd_jail_slot)` of
`kern_osd.c`, which is not under src/: it discards the record in the slot of
`pr`, which is then empty. -/
def osd_jail_del (st : State) (pr : Nat) : State :=
  { st with osd := Function.update st.osd pr none }

/-- The loop of `linux_find_prison`, one unit of fuel per iteration; following
a `NULL` parent link gives no result. -/
def find_loop (st : State) : Nat → Nat → Option (Nat × linux_prison)
  | 0, _ => none
  | fuel + 1, pr =>
    match (if pr = prison0 then some st.lprison0 else osd_jail_get st pr) with
    | some lpr => some (pr, lpr)
    | none =>
      match st.pr_parent pr with
      | none => none
      | some ppr => find_loop st fuel ppr

/-- Function `linux_find_prison(spr, &pr)`: the prison `*prp` and the record
the returned pointer points to. -/
def linux_find_prison (fuel : Nat) (st : State) (spr : Nat) : Option (Nat × linux_prison) :=
  find_loop st fuel (if st.linux_osd_jail_slot = 0 then prison0 else spr)

/-- A write through a pointer to the record that `pr` itself owns: `lprison0`
for `prison0`, the record in the OSD slot otherwise. -/
def store_record (st : State) (pr : Nat) (lpr : linux_prison) : State :=
  if pr = prison0 then { st with lprison0 := lpr }
  else { st with osd := Function.update st.osd pr (some lpr) }

/-- Function `linux_alloc_prison(pr, &lpr)`: the error, the state afterwards
and the record `*lprp` points to (`NULL` is `none`). `osd_error` is the outcome
of `osd_jail_set`, should it be called. The new block is installed and then
filled by `bcopy` under the mutex of `pr`, which the model does in one step. -/
def linux_alloc_prison (fuel : Nat) (st : State) (pr : Nat) (osd_error : Nat) :
    Option (Nat × State × Option linux_prison) :=
  match linux_find_prison fuel st pr with
  | none => none
  | some (ppr, lpr) =>
    if ppr = pr then some (0, st, some lpr)
    else
      match linux_find_prison fuel st pr with
      | none => none
      | some (ppr, lpr) =>
        if ppr = pr then some (0, st, some lpr)
        else
          let r := osd_jail_set st pr lpr osd_error
          if r.1 = 0 then some (0, r.2, some lpr)
          else some (r.1, r.2, none)

/-- The options of a jail request, `struct vfsoptlist`, as far as this module
reads or writes them: `linux`, `linux.osname`, `linux.osrelease` and
`linux.oss_version`; an option that is not in the list is `none`. A string
option is its buffer (`len` is the length of the list); an `int` option has the
size of an `int`. -/
structure vfsoptlist where
  linux : Option Int
  osname : Option (List Nat)
  osrelease : Option (List Nat)
  oss_version : Option Int
deriving DecidableEq, Repr

/-- Function `linux_prison_create`. -/
def linux_prison_create (fuel : Nat) (st : State) (pr : Nat) (opts : vfsoptlist)
    (osd_error : Nat) : Option (Nat × State) :=
  if opts.linux = some JAIL_SYS_INHERIT then some (0, st)
  else
    match linux_alloc_prison fuel st pr osd_error with
    | none => none
    | some r => some (r.1, r.2.1)

/-- Function `linux_prison_check`; the message of `vfs_opterror` is not modelled. -/
def linux_prison_check (LINUX_MAX_UTSNAME LONG_BIT : Nat) (opts : vfsoptlist) : Nat :=
  if (match opts.linux with
      | none => false
      | some jsys => jsys != JAIL_SYS_NEW && jsys != JAIL_SYS_INHERIT) then EINVAL
  else
    let e1 : Nat :=
      match opts.osname with
      | none => 0
      | some osname =>
        if osname.length = 0 ∨ osname.getLast? ≠ some 0 then EINVAL
        else if osname.length > LINUX_MAX_UTSNAME then ENAMETOOLONG
        else 0
    if e1 ≠ 0 then e1
    else
      match opts.osrelease with
      | none => 0
      | some osrelease =>
        if osrelease.length = 0 ∨ osrelease.getLast? ≠ some 0 then EINVAL
        else if osrelease.length > LINUX_MAX_UTSNAME then ENAMETOOLONG
        else (linux_map_osrel LONG_BIT osrelease 0).1

/-- The field writes of `linux_prison_set` through `lpr`, the block after the
call of `linux_alloc_prison` in case `JAIL_SYS_NEW`: the error and the record
afterwards. `linux_map_osrel` writes `lpr->pr_osrel` itself. The function does
not use the lengths `len` of the string options: `linux_map_osrel` and
`strlcpy` read each buffer up to its first NUL, so the buffers are taken to
hold one; on a buffer without a NUL the code reads past its end, which is not
modelled (the list ends where the buffer does). -/
def linux_prison_set_fields (LINUX_MAX_UTSNAME LONG_BIT : Nat) (opts : vfsoptlist)
    (lpr : linux_prison) : Nat × linux_prison :=
  let r : Nat × linux_prison := match opts.osrelease with
    | none => (0, lpr)
    | some osrelease =>
      let m := linux_map_osrel LONG_BIT osrelease lpr.pr_osrel
      if m.1 ≠ 0 then (m.1, { lpr with pr_osrel := m.2 })
      else (0, { lpr with
                  pr_osrel := m.2
                  pr_osrelease := strlcpy lpr.pr_osrelease osrelease LINUX_MAX_UTSNAME })
  if r.1 ≠ 0 then r
  else
    let lpr := r.2
    let lpr := match opts.osname with
      | none => lpr
      | some osname => { lpr with pr_osname := strlcpy lpr.pr_osname osname LINUX_MAX_UTSNAME }
    let lpr := match opts.oss_version with
      | none => lpr
      | some oss_version => { lpr with pr_oss_version := oss_version }
    (0, lpr)

/-- The mode `jsys` that `linux_prison_set` switches on: the option `linux`, or
-1 without it, overridden by `JAIL_SYS_NEW` when a field is given. -/
def linux_prison_set_jsys (opts : vfsoptlist) : Int :=
  let jsys : Int := match opts.linux with
    | none => -1
    | some j => j
  let jsys := if opts.osname = none then jsys else JAIL_SYS_NEW
  let jsys := if opts.osrelease = none then jsys else JAIL_SYS_NEW
  let jsys := if opts.oss_version = none then jsys else JAIL_SYS_NEW
  jsys

/-- Function `linux_prison_set`: the error and the state afterwards. -/
def linux_prison_set (LINUX_MAX_UTSNAME LONG_BIT fuel : Nat) (st : State) (pr : Nat)
    (opts : vfsoptlist) (osd_error : Nat) : Option (Nat × State) :=
  let jsys := linux_prison_set_jsys opts
  if jsys = JAIL_SYS_INHERIT then some (0, osd_jail_del st pr)
  else if jsys = JAIL_SYS_NEW then
    match linux_alloc_prison fuel st pr osd_error with
    | none => none
    | some (error, st, lprp) =>
      if error ≠ 0 then some (error, st)
      else
        match lprp with
        | none => none
        | some lpr =>
          let r := linux_prison_set_fields LINUX_MAX_UTSNAME LONG_BIT opts lpr
          some (r.1, store_record st pr r.2)
  else some (0, st)

/-- Modelled from the spec: `vfs_setopt` of `vfs_mount.c`, which is not under
src/, on an `int` option: `ENOENT` when the option is not in the list, else the
value is written. -/
def vfs_setopt (opt : Option Int) (value : Int) : Nat × Option Int :=
  match opt with
  | none => (ENOENT, none)
  | some _ => (0, some value)

/-- Modelled from the spec: `vfs_setopts` of `vfs_mount.c`, which is not under
src/: `ENOENT` when the option is not in the list, `EINVAL` when its buffer is
too short for the string and its NUL, else the string is copied to the start of
the buffer. -/
def vfs_setopts (opt : Option (List Nat)) (value : List Nat) : Nat × Option (List Nat) :=
  match opt with
  | none => (ENOENT, none)
  | some buf =>
    if buf.length < strlen value + 1 then (EINVAL, some buf)
    else (0, some (cstr value ++ [0] ++ buf.drop (strlen value + 1)))

/-- Function `linux_prison_get`: the error and the options as filled in. -/
def linux_prison_get (fuel : Nat) (st : State) (pr : Nat) (opts : vfsoptlist) :
    Option (Nat × vfsoptlist) :=
  match linux_find_prison fuel st pr with
  | none => none
  | some (ppr, lpr) =>
    let i : Int := if ppr = pr then JAIL_SYS_NEW else JAIL_SYS_INHERIT
    let r := vfs_setopt opts.linux i
    let opts := { opts with linux := r.2 }
    if r.1 ≠ 0 ∧ r.1 ≠ ENOENT then some (r.1, opts)
    else if i ≠ 0 then
      let r := vfs_setopts opts.osname lpr.pr_osname
      let opts := { opts with osname := r.2 }
      if r.1 ≠ 0 ∧ r.1 ≠ ENOENT then some (r.1, opts)
      else
        let r := vfs_setopts opts.osrelease lpr.pr_osrelease
        let opts := { opts with osrelease := r.2 }
        if r.1 ≠ 0 ∧ r.1 ≠ ENOENT then some (r.1, opts)
        else
          let r := vfs_setopt opts.oss_version lpr.pr_oss_version
          let opts := { opts with oss_version := r.2 }
          if r.1 ≠ 0 ∧ r.1 ≠ ENOENT then some (r.1, opts)
          else some (0, opts)
    else
      let r := vfs_setopts opts.osname []
      let opts := { opts with osname := r.2 }
      if r.1 ≠ 0 ∧ r.1 ≠ ENOENT then some (r.1, opts)
      else
        let r := vfs_setopts opts.osrelease []
        let opts := { opts with osrelease := r.2 }
        if r.1 ≠ 0 ∧ r.1 ≠ ENOENT then some (r.1, opts)
        else
          let r := vfs_setopt opts.oss_version 0
          let opts := { opts with oss_version := r.2 }
          if r.1 ≠ 0 ∧ r.1 ≠ ENOENT then some (r.1, opts)
          else some (0, opts)

/-- Whether `pr` reaches `prison0` in at most `d` steps along the parent link. -/
def reaches_root (st : State) : Nat → Nat → Bool
  | 0, pr => pr == prison0
  | d + 1, pr =>
    pr == prison0 ||
      (match st.pr_parent pr with
       | none => false
       | some ppr => reaches_root st d ppr)

/-- A small hierarchy for examples: prison 1 is a child of `prison0`, prison 2
a child of prison 1, prison 3 a child of prison 2; the module is registered in
slot 1 and no prison has a record of its own. -/
def st_example : State where
  linux_osd_jail_slot := 1
  lprison0 := lprison0 65
  pr_parent := fun pr => if pr = 0 then none else some (pr - 1)
  osd := fun _ => none
  allprison := [1, 2, 3]


/-- The prison `k` steps up the parent link from `pr`, if the links exist. -/
def ancestor (st : State) : Nat → Nat → Option Nat
  | 0, pr => some pr
  | k + 1, pr =>
    match st.pr_parent pr with
    | none => none
    | some ppr => ancestor st k ppr

/-- The hierarchy of `st_example` in which prison 1 has a record of its own,
with name "Foo", release "3.10.0" and OSS version 5. -/
def st_owned : State where
  linux_osd_jail_slot := 1
  lprison0 := lprison0 65
  pr_parent := fun pr => if pr = 0 then none else some (pr - 1)
  osd := fun pr => if pr = 1 then
    some ⟨char_array 65 (bytes "Foo"), char_array 65 (bytes "3.10.0"), 5, 3010000⟩ else none
  allprison := [1, 2, 3]

/-- The record a prison itself owns: `lprison0` for `prison0`, the record in
its OSD slot, if any, otherwise. -/
def own_record (st : State) (pr : Nat) : Option linux_prison :=
  if pr = prison0 then some st.lprison0 else st.osd pr

/-- Function `linux_kernver(td)`; the thread is given by its prison
`td->td_ucred->cr_prison`. -/
def linux_kernver (fuel : Nat) (st : State) (cr_prison : Nat) : Option Int :=
  match linux_find_prison fuel st cr_prison with
  | none => none
  | some (_, lpr) => some lpr.pr_osrel

/-- Function `linux_set_osname(td, osname)`: the error and the state afterwards;
the thread is given by its prison `td->td_ucred->cr_prison`. -/
def linux_set_osname (LINUX_MAX_UTSNAME fuel : Nat) (st : State) (cr_prison : Nat)
    (osname : List Nat) : Option (Nat × State) :=
  match linux_find_prison fuel st cr_prison with
  | none => none
  | some (pr, lpr) =>
    some (0, store_record st pr
      { lpr with pr_osname := strlcpy lpr.pr_osname osname LINUX_MAX_UTSNAME })

/-- Function `linux_set_osrelease(td, osrelease)`: the error and the state
afterwards; `linux_map_osrel` writes `lpr->pr_osrel` itself. -/
def linux_set_osrelease (LINUX_MAX_UTSNAME LONG_BIT fuel : Nat) (st : State) (cr_prison : Nat)
    (osrelease : List Nat) : Option (Nat × State) :=
  match linux_find_prison fuel st cr_prison with
  | none => none
  | some (pr, lpr) =>
    let m := linux_map_osrel LONG_BIT osrelease lpr.pr_osrel
    if m.1 = 0 then
      some (m.1, store_record st pr { lpr with
        pr_osrel := m.2
        pr_osrelease := strlcpy lpr.pr_osrelease osrelease LINUX_MAX_UTSNAME })
    else some (m.1, store_record st pr { lpr with pr_osrel := m.2 })

/-- Function `linux_set_oss_version(td, oss_version)`: the error and the state
afterwards. -/
def linux_set_oss_version (fuel : Nat) (st : State) (cr_prison : Nat) (oss_version : Int) :
    Option (Nat × State) :=
  match linux_find_prison fuel st cr_prison with
  | none => none
  | some (pr, lpr) => some (0, store_record st pr { lpr with pr_oss_version := oss_version })

/-- The loop `TAILQ_FOREACH(pr, &allprison, pr_list)` of
`linux_osd_jail_register`: `linux_alloc_prison(pr, NULL)` for every prison of
the list, its error being dropped; `osd_error pr` is the outcome `osd_jail_set`
has for `pr`. -/
def register_sweep (fuel : Nat) (osd_error : Nat → Nat) : List Nat → State → Option State
  | [], st => some st
  | pr :: rest, st =>
    match linux_alloc_prison fuel st pr (osd_error pr) with
    | none => none
    | some r => register_sweep fuel osd_error rest r.2.1

/-- Function `linux_osd_jail_register`: `slot` is what `osd_jail_register`
returns (it is outside these sources). -/
def linux_osd_jail_register (fuel : Nat) (st : State) (slot : Nat) (osd_error : Nat → Nat) :
    Option State :=
  let st := { st with linux_osd_jail_slot := slot }
  if slot > 0 then register_sweep fuel osd_error st.allprison st
  else some st

/-- One call of an operation of the module that changes the state: the jail
methods create and set, the allocator, the registration and the three setters
of a thread, with any arguments and any outcome. -/
inductive Step (LINUX_MAX_UTSNAME LONG_BIT : Nat) : State → State → Prop
  | create (fuel : Nat) (st : State) (pr : Nat) (opts : vfsoptlist) (osd_error error : Nat)
      (st2 : State) :
      linux_prison_create fuel st pr opts osd_error = some (error, st2) →
      Step LINUX_MAX_UTSNAME LONG_BIT st st2
  | set (fuel : Nat) (st : State) (pr : Nat) (opts : vfsoptlist) (osd_error error : Nat)
      (st2 : State) :
      linux_prison_set LINUX_MAX_UTSNAME LONG_BIT fuel st pr opts osd_error = some (error, st2) →
      Step LINUX_MAX_UTSNAME LONG_BIT st st2
  | alloc (fuel : Nat) (st : State) (pr osd_error error : Nat) (st2 : State)
      (lprp : Option linux_prison) :
      linux_alloc_prison fuel st pr osd_error = some (error, st2, lprp) →
      Step LINUX_MAX_UTSNAME LONG_BIT st st2
  | register (fuel : Nat) (st : State) (slot : Nat) (osd_error : Nat → Nat) (st2 : State) :
      linux_osd_jail_register fuel st slot osd_error = some st2 →
      Step LINUX_MAX_UTSNAME LONG_BIT st st2
  | set_osname (fuel : Nat) (st : State) (cr_prison : Nat) (osname : List Nat) (error : Nat)
      (st2 : State) :
      linux_set_osname LINUX_MAX_UTSNAME fuel st cr_prison osname = some (error, st2) →
      Step LINUX_MAX_UTSNAME LONG_BIT st st2
  | set_osrelease (fuel : Nat) (st : State) (cr_prison : Nat) (osrelease : List Nat)
      (error : Nat) (st2 : State) :
      linux_set_osrelease LINUX_MAX_UTSNAME LONG_BIT fuel st cr_prison osrelease
        = some (error, st2) →
      Step LINUX_MAX_UTSNAME LONG_BIT st st2
  | set_oss_version (fuel : Nat) (st : State) (cr_prison : Nat) (oss_version : Int)
      (error : Nat) (st2 : State) :
      linux_set_oss_version fuel st cr_prison oss_version = some (error, st2) →
      Step LINUX_MAX_UTSNAME LONG_BIT st st2

/-- The states reached from `st0` by any number of calls. -/
inductive Reachable (LINUX_MAX_UTSNAME LONG_BIT : Nat) (st0 : State) : State → Prop
  | start : Reachable LINUX_MAX_UTSNAME LONG_BIT st0 st0
  | step (st st2 : State) : Reachable LINUX_MAX_UTSNAME LONG_BIT st0 st →
      Step LINUX_MAX_UTSNAME LONG_BIT st st2 → Reachable LINUX_MAX_UTSNAME LONG_BIT st0 st2

/-- The state at boot: the module is not registered, `lprison0` is as
initialised and no prison has a record; the hierarchy is that of `st_example`. -/
def st_boot : State where
  linux_osd_jail_slot := 0
  lprison0 := lprison0 65
  pr_parent := fun pr => if pr = 0 then none else some (pr - 1)
  osd := fun _ => none
  allprison := [1, 2, 3]

/-- The record of prison 1 in `st_owned`. -/
def foo_record : linux_prison :=
  ⟨char_array 65 (bytes "Foo"), char_array 65 (bytes "3.10.0"), 5, 3010000⟩

/-- The state `st_owned` after prison 2 was given a copy of the record of
prison 1. -/
def st_owned_copy : State :=
  { st_owned with osd := Function.update st_owned.osd 2 (some foo_record) }

/-! ## The mutexes of the prisons, tracked -/

/-- Modelled from the spec: `mtx_lock(&pr->pr_mtx)` of `sys/mutex.h`, which is
not under src/, for one thread: the mutex of `pr` joins the mutexes the thread
holds. -/
def mtx_lock (held : List Nat) (pr : Nat) : List Nat := pr :: held

/-- Modelled from the spec: `mtx_unlock(&pr->pr_mtx)` of `sys/mutex.h`, which
is not under src/, for one thread: the mutex of `pr` leaves the mutexes the
thread holds. -/
def mtx_unlock (held : List Nat) (pr : Nat) : List Nat := held.erase pr

/-- The loop of `linux_find_prison` with the mutexes tracked: `held` is the
list of prisons whose mutex the thread holds; the result is the prison, the
record, the mutexes held at return and the list of what was held after each
`mtx_lock` and `mtx_unlock`, in order. -/
def find_loop_mtx (st : State) :
    Nat → Nat → List Nat → Option (Nat × linux_prison × List Nat × List (List Nat))
  | 0, _, _ => none
  | fuel + 1, pr, held =>
    let held1 := mtx_lock held pr
    match (if pr = prison0 then some st.lprison0 else osd_jail_get st pr) with
    | some lpr => some (pr, lpr, held1, [held1])
    | none =>
      let held2 := mtx_unlock held1 pr
      match st.pr_parent pr with
      | none => none
      | some ppr =>
        match find_loop_mtx st fuel ppr held2 with
        | none => none
        | some r => some (r.1, r.2.1, r.2.2.1, held1 :: held2 :: r.2.2.2)

/-- Function `linux_find_prison` with the mutexes tracked. -/
def linux_find_prison_mtx (fuel : Nat) (st : State) (spr : Nat) (held : List Nat) :
    Option (Nat × linux_prison × List Nat × List (List Nat)) :=
  find_loop_mtx st fuel (if st.linux_osd_jail_slot = 0 then prison0 else spr) held

/-! ## The debug map -/

/-- Modelled from the spec: `NBBY` of `sys/param.h`, which is not under src/:
the number of bits in a byte. -/
def NBBY : Nat := 8

/-- Modelled from the spec: the macro `setbit(a, i)` of `sys/param.h`, which is
not under src/: `a[i / NBBY] |= 1 << (i % NBBY)` on an array of bytes. -/
def setbit (a : List Nat) (i : Nat) : List Nat :=
  a.set (i / NBBY) (a.getD (i / NBBY) 0 ||| 1 <<< (i % NBBY))

/-- Modelled from the spec: the macro `clrbit(a, i)` of `sys/param.h`, which is
not under src/: `a[i / NBBY] &= ~(1 << (i % NBBY))` on an array of bytes, the
complement being taken within the byte. -/
def clrbit (a : List Nat) (i : Nat) : List Nat :=
  a.set (i / NBBY) (a.getD (i / NBBY) 0 &&& (255 ^^^ 1 <<< (i % NBBY)))

/-- Modelled from the spec: the macro `isset(a, i)` of `sys/param.h`, which is
not under src/: bit `i` of an array of bytes. -/
def isset (a : List Nat) (i : Nat) : Bool := (a.getD (i / NBBY) 0).testBit (i % NBBY)

/-- Function `linux_debug(syscall, toggle, global)`: `map` is the array
`linux_debug_map`; the result is the error and the array afterwards.
`LINUX_SYS_MAXSYSCALL` comes from a header that is not under src/ and is a
parameter; the array has that many bytes. -/
def linux_debug (LINUX_SYS_MAXSYSCALL : Nat) (map : List Nat) (syscall toggle global : Int) :
    Nat × List Nat :=
  if global ≠ 0 then
    let c : Nat := if toggle ≠ 0 then 0 else 255
    (0, List.replicate map.length c)
  else if syscall < 0 ∨ syscall ≥ (LINUX_SYS_MAXSYSCALL : Int) then (EINVAL, map)
  else if toggle ≠ 0 then (0, clrbit map syscall.toNat)
  else (0, setbit map syscall.toNat)

/-- The value of a run of decimal digits, most significant digit first,
continuing from `acc`. -/
def decimal_from (acc : Nat) (ds : List Nat) : Nat :=
  ds.foldl (fun a c => a * 10 + (c - 48)) acc

/-- The value of a run of decimal digits. -/
def decimal (ds : List Nat) : Nat := decimal_from 0 ds

end LinuxMib

/-! # The rule checker of libdisk (`lib/libdisk/rules.c`)

A pointer to a `struct chunk` is `chunk.null` or a chunk with its fields, so
that the chunks reached through `part` (first child) and `next` (next sibling)
form a finite tree. The text in the buffer `msg` is the list of the messages
appended to it; every message is a text that is not empty, so that `*msg` is
NUL exactly when the list is empty. A message that would not fit the buffer
is outside the model. -/

namespace Libdisk

/-- Modelled from the spec: the type `chunk_e` of `libdisk.h`, which is not
under src/: the three types the rules name, and the others. -/
inductive chunk_e where
  | whole : chunk_e
  | unused : chunk_e
  | reserved : chunk_e
  | other (n : Nat) : chunk_e
deriving DecidableEq, Repr

/-- Modelled from the spec: a pointer to `struct chunk` of `libdisk.h`, which is
not under src/, with the fields the rules read: `type`, `name`, `offset`, `end`
(here `c_end`), `part` and `next`. -/
inductive chunk where
  | null : chunk
  | mk (type : chunk_e) (name : List Nat) (offset c_end : Int) (part next : chunk) : chunk
deriving DecidableEq, Repr

/-- One text appended to `msg` by `sprintf`, with its arguments: too many
children (`i`, `NDOSPART`); a chunk that does not start, or does not end, on a
track boundary (`name`, `offset`, `end`). -/
inductive message where
  | too_many (i max : Int) : message
  | bad_start (name : List Nat) (offset c_end : Int) : message
  | bad_end (name : List Nat) (offset c_end : Int) : message
deriving DecidableEq, Repr

/-- The loop of `Rule_000` from `c1` on: the count `i` of the chunks on the
`next` chain whose type is not `unused`. -/
def Rule_000_loop : chunk → Int → Int
  | chunk.null, i => i
  | chunk.mk type _ _ _ _ next, i =>
    Rule_000_loop next (if type ≠ chunk_e.unused then i + 1 else i)

/-- Function `Rule_000(d, c, msg)`: the text in `msg` afterwards; nothing when
`c` is `NULL`, which the function dereferences. `NDOSPART` comes from a header
that is not under src/ and is a parameter. -/
def Rule_000 (NDOSPART : Int) (c : chunk) (msg : List message) : Option (List message) :=
  match c with
  | chunk.null => none
  | chunk.mk type _ _ _ part _ =>
    if type ≠ chunk_e.whole then some msg
    else
      let i := Rule_000_loop part 0
      if i ≤ NDOSPART then some msg
      else some (msg ++ [message.too_many i NDOSPART])

/-- The loop of `Rule_001` from `c1` on. `Aligned(d, .)` is a function of
libdisk that is not under src/ and is a parameter. -/
def Rule_001_loop (Aligned : Int → Bool) : chunk → List message → List message
  | chunk.null, msg => msg
  | chunk.mk type name offset c_end _ next, msg =>
    if type = chunk_e.reserved then Rule_001_loop Aligned next msg
    else if type = chunk_e.unused then Rule_001_loop Aligned next msg
    else
      let msg := if !Aligned offset then msg ++ [message.bad_start name offset c_end] else msg
      let msg := if !Aligned (c_end + 1) then msg ++ [message.bad_end name offset c_end] else msg
      Rule_001_loop Aligned next msg

/-- Function `Rule_001(d, c, msg)`: the text in `msg` afterwards; nothing when
`c` is `NULL`, which the function dereferences. -/
def Rule_001 (Aligned : Int → Bool) (c : chunk) (msg : List message) : Option (List message) :=
  match c with
  | chunk.null => none
  | chunk.mk type _ _ _ part _ =>
    if type ≠ chunk_e.whole then some msg
    else some (Rule_001_loop Aligned part msg)

/-- Function `Check_Chunk(d, c, msg)`: the text in `msg` afterwards. -/
def Check_Chunk (NDOSPART : Int) (Aligned : Int → Bool) :
    chunk → List message → Option (List message)
  | chunk.null, _ => none
  | chunk.mk type name offset c_end part next, msg =>
    match Rule_000 NDOSPART (chunk.mk type name offset c_end part next) msg with
    | none => none
    | some msg =>
      match Rule_001 Aligned (chunk.mk type name offset c_end part next) msg with
      | none => none
      | some msg =>
        match (if part ≠ chunk.null then Check_Chunk NDOSPART Aligned part msg else some msg) with
        | none => none
        | some msg =>
          if next ≠ chunk.null then Check_Chunk NDOSPART Aligned next msg else some msg

/-- Function `CheckRules(d)`, `chunks` being `d->chunks`: `some none` when it
returns `NULL`, `some (some msg)` when it returns a copy of the text `msg`, and
nothing when a `NULL` chunk is dereferenced. The text is not bounded by
`BUFSIZ` here, and `strdup` is taken to succeed. -/
def CheckRules (NDOSPART : Int) (Aligned : Int → Bool) (chunks : chunk) :
    Option (Option (List message)) :=
  match Check_Chunk NDOSPART Aligned chunks [] with
  | none => none
  | some msg => if msg ≠ [] then some (some msg) else some none

/-- The chunks on the `next` chain that starts at a chunk. -/
def chain : chunk → List chunk
  | chunk.null => []
  | chunk.mk type name offset c_end part next =>
    chunk.mk type name offset c_end part next :: chain next

/-- The children of a chunk: the `next` chain of its `part`. -/
def children : chunk → List chunk
  | chunk.null => []
  | chunk.mk _ _ _ _ part _ => chain part

/-- The chunks reachable from a chunk through `part` and `next`, the chunk
first, then those below it, then those after it. -/
def reachable : chunk → List chunk
  | chunk.null => []
  | chunk.mk type name offset c_end part next =>
    chunk.mk type name offset c_end part next :: (reachable part ++ reachable next)

/-- The type of a chunk, if the pointer is not `NULL`. -/
def chunk.type? : chunk → Option chunk_e
  | chunk.null => none
  | chunk.mk type _ _ _ _ _ => some type

/-- Rule 0 and rule 1 for one child: whether it counts, and whether its two
bounds are aligned unless it is `reserved` or `unused`. -/
def child_aligned (Aligned : Int → Bool) : chunk → Bool
  | chunk.null => true
  | chunk.mk type _ offset c_end _ _ =>
    type = chunk_e.reserved || type = chunk_e.unused ||
      (Aligned offset && Aligned (c_end + 1))

/-- What the rules ask of one chunk: if its type is `whole`, at most
`NDOSPART` of its children have a type other than `unused` (rule 0), and every
child of a type other than `reserved` and `unused` has its offset and its end
plus one accepted by `Aligned` (rule 1). -/
def rules_ok (NDOSPART : Int) (Aligned : Int → Bool) (c : chunk) : Bool :=
  c.type? ≠ some chunk_e.whole ||
    (decide ((((children c).filter (fun c1 => c1.type? ≠ some chunk_e.unused)).length : Int)
        ≤ NDOSPART) &&
      (children c).all (child_aligned Aligned))

/-- A disk of 63 sectors a track: a `whole` chunk with two children, the first
starting at 63 and ending at 125, the second, `unused`, after it. -/
def disk_good : chunk :=
  chunk.mk chunk_e.whole [] 0 1000
    (chunk.mk (chunk_e.other 3) [97] 63 125
      chunk.null
      (chunk.mk chunk_e.unused [] 126 1000 chunk.null chunk.null))
    chunk.null

/-- The same disk with the first child ending at 130, off a track boundary. -/
def disk_bad : chunk :=
  chunk.mk chunk_e.whole [] 0 1000
    (chunk.mk (chunk_e.other 3) [97] 63 130
      chunk.null
      (chunk.mk chunk_e.unused [] 131 1000 chunk.null chunk.null))
    chunk.null

end Libdisk

namespace LinuxMib

/-! ## Lemmas on the digit loop and `strtol` -/

theorem le_decimal_from (ds : List Nat) (acc : Nat) : acc ≤ decimal_from acc ds := by
  induction ds generalizing acc with
  | nil => simp [decimal_from]
  | cons c ds ih =>
    have h := ih (acc * 10 + (c - 48))
    simp only [decimal_from, List.foldl_cons] at h ⊢
    omega

/-- On a run of digits that is followed by no digit and whose value is in
range, the digit loop returns the value and stops right after the run. -/
theorem strtol_loop_digits (cutoff cutlim : Nat) (hlim : cutlim < 10) (ds r : List Nat)
    (hds : ∀ c ∈ ds, isdigit c = true) (hr : ∀ c, r.head? = some c → isdigit c = false)
    (acc : Nat) (any : Int) (hany : 0 ≤ any)
    (hfit : decimal_from acc ds ≤ cutoff * 10 + cutlim) :
    strtol_loop cutoff cutlim (ds ++ r) acc any
      = (decimal_from acc ds, if ds = [] then any else 1, r) := by
  induction ds generalizing acc any with
  | nil =>
    cases r with
    | nil => simp [strtol_loop, decimal_from]
    | cons c s =>
      have hc := hr c rfl
      simp [strtol_loop, decimal_from, hc]
  | cons c ds ih =>
    have hc : isdigit c = true := hds c (List.mem_cons_self _ _)
    have hds2 : ∀ x ∈ ds, isdigit x = true := fun x hx => hds x (List.mem_cons_of_mem _ hx)
    have hfit2 : decimal_from (acc * 10 + (c - 48)) ds ≤ cutoff * 10 + cutlim := by
      simpa [decimal_from] using hfit
    have hmono := le_decimal_from ds (acc * 10 + (c - 48))
    have hno : ¬ (any < 0 ∨ acc > cutoff ∨ (acc = cutoff ∧ c - 48 > cutlim)) := by omega
    have hrec := ih hds2 (acc * 10 + (c - 48)) 1 (by norm_num) hfit2
    rw [List.cons_append, strtol_loop, if_pos hc, if_neg hno, hrec]
    simp [decimal_from]

/-- Whatever the value, the digit loop stops right after a run of digits that
is followed by no digit, and it has seen a digit when the run is not empty. -/
theorem strtol_loop_rest (cutoff cutlim : Nat) (ds r : List Nat)
    (hds : ∀ c ∈ ds, isdigit c = true) (hr : ∀ c, r.head? = some c → isdigit c = false)
    (acc : Nat) (any : Int) :
    (strtol_loop cutoff cutlim (ds ++ r) acc any).2.2 = r ∧
      ((ds ≠ [] ∨ any ≠ 0) → (strtol_loop cutoff cutlim (ds ++ r) acc any).2.1 ≠ 0) := by
  induction ds generalizing acc any with
  | nil =>
    cases r with
    | nil => simp [strtol_loop]
    | cons c s =>
      have hc := hr c rfl
      simp [strtol_loop, hc]
  | cons c ds ih =>
    have hc : isdigit c = true := hds c (List.mem_cons_self _ _)
    have hds2 : ∀ x ∈ ds, isdigit x = true := fun x hx => hds x (List.mem_cons_of_mem _ hx)
    simp only [List.cons_append, strtol_loop, hc, if_true]
    split
    · have h := ih hds2 acc (-1)
      exact ⟨h.1, fun _ => h.2 (Or.inr (by norm_num))⟩
    · have h := ih hds2 (acc * 10 + (c - 48)) 1
      exact ⟨h.1, fun _ => h.2 (Or.inr (by norm_num))⟩

/-- The digit loop consumes digits only: its input is a run of digits followed
by the pointer it returns. -/
theorem strtol_loop_split (cutoff cutlim : Nat) (s : List Nat) (acc : Nat) (any : Int) :
    ∃ ds, s = ds ++ (strtol_loop cutoff cutlim s acc any).2.2 ∧ ∀ c ∈ ds, isdigit c = true := by
  induction s generalizing acc any with
  | nil => exact ⟨[], by simp [strtol_loop]⟩
  | cons c s ih =>
    by_cases hc : isdigit c = true
    · simp only [strtol_loop, hc, if_true]
      split
      · obtain ⟨ds, h1, h2⟩ := ih acc (-1)
        refine ⟨c :: ds, ?_, ?_⟩
        · rw [List.cons_append, ← h1]
        · intro x hx
          rcases List.mem_cons.1 hx with rfl | hx
          · exact hc
          · exact h2 x hx
      · obtain ⟨ds, h1, h2⟩ := ih (acc * 10 + (c - 48)) 1
        refine ⟨c :: ds, ?_, ?_⟩
        · rw [List.cons_append, ← h1]
        · intro x hx
          rcases List.mem_cons.1 hx with rfl | hx
          · exact hc
          · exact h2 x hx
    · exact ⟨[], by simp [strtol_loop, hc]⟩

theorem skip_space_split (s : List Nat) :
    ∃ ws, s = ws ++ skip_space s ∧ ∀ c ∈ ws, isspace c = true := by
  induction s with
  | nil => exact ⟨[], by simp [skip_space]⟩
  | cons c s ih =>
    by_cases hc : isspace c = true
    · obtain ⟨ws, h1, h2⟩ := ih
      refine ⟨c :: ws, ?_, ?_⟩
      · simp only [skip_space, hc, if_true, List.cons_append]
        rw [← h1]
      · intro x hx
        rcases List.mem_cons.1 hx with rfl | hx
        · exact hc
        · exact h2 x hx
    · exact ⟨[], by simp [skip_space, hc]⟩

theorem strtol_sign_split (s : List Nat) :
    ∃ sg, s = sg ++ (strtol_sign s).2 ∧ ∀ c ∈ sg, c ≠ 46 := by
  cases s with
  | nil => exact ⟨[], by simp [strtol_sign]⟩
  | cons c t =>
    by_cases h1 : c = 45
    · exact ⟨[c], by simp [strtol_sign, h1]⟩
    · by_cases h2 : c = 43
      · exact ⟨[c], by simp [strtol_sign, h2]⟩
      · exact ⟨[], by simp [strtol_sign, h1, h2]⟩

/-- What `strtol` consumes holds no dot: the string is the consumed part, free
of dots, followed by the end pointer. -/
theorem strtol_split (LONG_BIT : Nat) (s : List Nat) :
    ∃ x, s = x ++ (strtol LONG_BIT s).2 ∧ ∀ c ∈ x, c ≠ 46 := by
  obtain ⟨ws, hws, hsp⟩ := skip_space_split s
  obtain ⟨sg, hsg, hsgdot⟩ := strtol_sign_split (skip_space s)
  obtain ⟨ds, hds, hdig⟩ := strtol_loop_split
    (strtol_cutoff LONG_BIT (strtol_sign (skip_space s)).1 / 10)
    (strtol_cutoff LONG_BIT (strtol_sign (skip_space s)).1 % 10)
    (strtol_sign (skip_space s)).2 0 0
  by_cases hany : (strtol_loop
      (strtol_cutoff LONG_BIT (strtol_sign (skip_space s)).1 / 10)
      (strtol_cutoff LONG_BIT (strtol_sign (skip_space s)).1 % 10)
      (strtol_sign (skip_space s)).2 0 0).2.1 = 0
  · exact ⟨[], by simp [strtol, hany]⟩
  · refine ⟨ws ++ sg ++ ds, ?_, ?_⟩
    · simp only [strtol, hany, if_false]
      rw [List.append_assoc, List.append_assoc, ← hds, ← hsg]
      exact hws
    · intro x hx
      rcases List.mem_append.1 hx with hx | hx
      · rcases List.mem_append.1 hx with hx | hx
        · intro h
          have := hsp x hx
          subst h
          simp [isspace] at this
        · exact hsgdot x hx
      · intro h
        have := hdig x hx
        subst h
        simp [isdigit] at this

/-- On a string that starts with a run of digits followed by no digit,
`strtol` stops right after the run. -/
theorem strtol_digits_rest (LONG_BIT : Nat) (ds r : List Nat) (hne : ds ≠ [])
    (hds : ∀ c ∈ ds, isdigit c = true) (hr : ∀ c, r.head? = some c → isdigit c = false) :
    (strtol LONG_BIT (ds ++ r)).2 = r := by
  cases ds with
  | nil => exact absurd rfl hne
  | cons c t =>
    have hc : isdigit c = true := hds c (List.mem_cons_self _ _)
    have hsp : isspace c = false := by
      simp only [isdigit, Bool.and_eq_true, decide_eq_true_eq] at hc
      simp only [isspace, Bool.or_eq_false_iff, Bool.and_eq_false_iff, beq_eq_false_iff_ne,
        decide_eq_false_iff_not]
      omega
    have h45 : c ≠ 45 := by
      simp only [isdigit, Bool.and_eq_true, decide_eq_true_eq] at hc
      omega
    have h43 : c ≠ 43 := by
      simp only [isdigit, Bool.and_eq_true, decide_eq_true_eq] at hc
      omega
    have hskip : skip_space (c :: t ++ r) = c :: t ++ r := by
      simp [skip_space, hsp]
    have hsign : strtol_sign (c :: t ++ r) = (false, c :: t ++ r) := by
      simp [strtol_sign, h45, h43]
    have h := strtol_loop_rest (strtol_cutoff LONG_BIT false / 10)
      (strtol_cutoff LONG_BIT false % 10) (c :: t) r hds hr 0 0
    have h2 := h.2 (Or.inl (by simp))
    simp only [strtol, hskip, hsign, h2, if_false]
    exact h.1

/-- On a string that starts with a run of digits followed by no digit, the
value of the run being in the range of `long`, `strtol` returns the value. -/
theorem strtol_digits_value (LONG_BIT : Nat) (ds r : List Nat) (hne : ds ≠ [])
    (hds : ∀ c ∈ ds, isdigit c = true) (hr : ∀ c, r.head? = some c → isdigit c = false)
    (hfit : decimal ds ≤ 2 ^ (LONG_BIT - 1) - 1) :
    (strtol LONG_BIT (ds ++ r)).1 = (decimal ds : Int) := by
  cases ds with
  | nil => exact absurd rfl hne
  | cons c t =>
    have hc : isdigit c = true := hds c (List.mem_cons_self _ _)
    have hsp : isspace c = false := by
      simp only [isdigit, Bool.and_eq_true, decide_eq_true_eq] at hc
      simp only [isspace, Bool.or_eq_false_iff, Bool.and_eq_false_iff, beq_eq_false_iff_ne,
        decide_eq_false_iff_not]
      omega
    have h45 : c ≠ 45 := by
      simp only [isdigit, Bool.and_eq_true, decide_eq_true_eq] at hc
      omega
    have h43 : c ≠ 43 := by
      simp only [isdigit, Bool.and_eq_true, decide_eq_true_eq] at hc
      omega
    have hskip : skip_space (c :: t ++ r) = c :: t ++ r := by
      simp [skip_space, hsp]
    have hsign : strtol_sign (c :: t ++ r) = (false, c :: t ++ r) := by
      simp [strtol_sign, h45, h43]
    have hcut : strtol_cutoff LONG_BIT false = 2 ^ (LONG_BIT - 1) - 1 := by
      simp [strtol_cutoff]
    have hdm := Nat.div_add_mod (2 ^ (LONG_BIT - 1) - 1) 10
    have hlt := Nat.mod_lt (2 ^ (LONG_BIT - 1) - 1) (by norm_num : 10 > 0)
    have h := strtol_loop_digits (strtol_cutoff LONG_BIT false / 10)
      (strtol_cutoff LONG_BIT false % 10) (by rw [hcut]; exact hlt) (c :: t) r hds hr 0 0
      (le_refl _) (by rw [hcut]; unfold decimal at hfit; omega)
    simp only [strtol, hskip, hsign, h]
    simp [strtol_value, decimal]

/-! ## Lemmas on `linux_map_osrel` -/

/-- A failing `linux_map_osrel` returns `EINVAL` and leaves `*osrel` alone. -/
theorem linux_map_osrel_error (LONG_BIT : Nat) (s : List Nat) (osrel : Int)
    (h : (linux_map_osrel LONG_BIT s osrel).1 ≠ 0) :
    linux_map_osrel LONG_BIT s osrel = (EINVAL, osrel) := by
  unfold linux_map_osrel at h ⊢
  simp only at h ⊢
  split
  · rfl
  · rename_i h0
    rw [if_neg h0] at h
    split
    · rfl
    · rename_i h1
      rw [if_neg h1] at h
      split
      · rfl
      · rename_i h2
        rw [if_neg h2] at h
        split
        · rfl
        · rename_i h3
          rw [if_neg h3] at h
          exact absurd rfl h

/-- Whether `linux_map_osrel` fails does not depend on the old `*osrel`. -/
theorem linux_map_osrel_error_indep (LONG_BIT : Nat) (s : List Nat) (a b : Int) :
    (linux_map_osrel LONG_BIT s a).1 = (linux_map_osrel LONG_BIT s b).1 := by
  unfold linux_map_osrel
  simp only
  split
  · rfl
  · split
    · rfl
    · split
      · rfl
      · split <;> rfl

/-- The value a successful `linux_map_osrel` stores does not depend on the old
`*osrel`. -/
theorem linux_map_osrel_ok_indep (LONG_BIT : Nat) (s : List Nat) (a b : Int)
    (h : (linux_map_osrel LONG_BIT s a).1 = 0) :
    linux_map_osrel LONG_BIT s b = linux_map_osrel LONG_BIT s a := by
  unfold linux_map_osrel at h ⊢
  simp only at h ⊢
  split
  · rename_i h0
    rw [if_pos h0] at h
    exact absurd h (by simp [EINVAL])
  · rename_i h0
    rw [if_neg h0] at h
    split
    · rename_i h1
      rw [if_pos h1] at h
      exact absurd h (by simp [EINVAL])
    · rename_i h1
      rw [if_neg h1] at h
      split
      · rename_i h2
        rw [if_pos h2] at h
        exact absurd h (by simp [EINVAL])
      · rename_i h2
        rw [if_neg h2] at h
        split
        · rename_i h3
          rw [if_pos h3] at h
          exact absurd h (by simp [EINVAL])
        · rfl

/-- The shape of an accepted release string: three parts that are not empty
and hold no dot, separated by two dots. -/
theorem linux_map_osrel_shape (LONG_BIT : Nat) (s : List Nat) (osrel : Int)
    (h : linux_map_osrel LONG_BIT s osrel ≠ (EINVAL, osrel)) :
    ∃ x1 x2 x3, cstr s = x1 ++ 46 :: (x2 ++ 46 :: x3) ∧ x1 ≠ [] ∧ x2 ≠ [] ∧ x3 ≠ [] ∧
      (∀ c ∈ x1, c ≠ 46) ∧ (∀ c ∈ x2, c ≠ 46) ∧ (∀ c ∈ x3, c ≠ 46) := by
  unfold linux_map_osrel at h
  simp only at h
  obtain ⟨x1, hx1, hd1⟩ := strtol_split LONG_BIT (cstr s)
  by_cases h0 : (cstr s).length = (strtol LONG_BIT (cstr s)).2.length ∨
      (strtol LONG_BIT (cstr s)).2.length ≤ 1 ∨ (strtol LONG_BIT (cstr s)).2.head? ≠ some 46
  · rw [if_pos h0] at h
    exact absurd rfl h
  rw [if_neg h0] at h
  obtain ⟨x2, hx2, hd2⟩ := strtol_split LONG_BIT (strtol LONG_BIT (cstr s)).2.tail
  by_cases h1 : (strtol LONG_BIT (cstr s)).2.tail.length
        = (strtol LONG_BIT (strtol LONG_BIT (cstr s)).2.tail).2.length ∨
      (strtol LONG_BIT (strtol LONG_BIT (cstr s)).2.tail).2.length ≤ 1 ∨
      (strtol LONG_BIT (strtol LONG_BIT (cstr s)).2.tail).2.head? ≠ some 46
  · rw [if_pos h1] at h
    exact absurd rfl h
  rw [if_neg h1] at h
  obtain ⟨x3, hx3, hd3⟩ := strtol_split LONG_BIT
    (strtol LONG_BIT (strtol LONG_BIT (cstr s)).2.tail).2.tail
  by_cases h2 : (strtol LONG_BIT (strtol LONG_BIT (cstr s)).2.tail).2.tail.length
        = (strtol LONG_BIT (strtol LONG_BIT (strtol LONG_BIT (cstr s)).2.tail).2.tail).2.length ∨
      (strtol LONG_BIT (strtol LONG_BIT (strtol LONG_BIT (cstr s)).2.tail).2.tail).2.length ≠ 0
  · rw [if_pos h2] at h
    exact absurd rfl h
  push_neg at h0 h1 h2
  generalize (strtol LONG_BIT (cstr s)).2 = sep0 at *
  generalize (strtol LONG_BIT sep0.tail).2 = sep1 at *
  generalize (strtol LONG_BIT sep1.tail).2 = sep2 at *
  have e0 : sep0 = 46 :: sep0.tail := by
    cases sep0 with
    | nil => simp at h0
    | cons c t => simpa using h0.2.2
  have e1 : sep1 = 46 :: sep1.tail := by
    cases sep1 with
    | nil => simp at h1
    | cons c t => simpa using h1.2.2
  have e2 : sep2 = [] := List.length_eq_zero.1 h2.2
  refine ⟨x1, x2, x3, ?_, ?_, ?_, ?_, hd1, hd2, hd3⟩
  · rw [e2, List.append_nil] at hx3
    rw [hx1, e0, hx2, e1, ← hx3]
  · rintro rfl
    exact h0.1 (by rw [hx1]; simp)
  · rintro rfl
    exact h1.1 (by rw [hx2]; simp)
  · rintro rfl
    exact h2.1 (by rw [hx3]; simp)

theorem cstr_of_no_nul (s : List Nat) (hs : ∀ c ∈ s, c ≠ 0) : cstr s = s := by
  unfold cstr
  rw [List.takeWhile_eq_self_iff]
  intro c hc
  simpa using hs c hc

theorem wrap32_of_range (x : Int) (h0 : -2147483648 ≤ x) (h1 : x < 2147483648) :
    wrap32 x = x := by
  unfold wrap32
  omega

theorem isdigit_ne_dot (c : Nat) (h : isdigit c = true) : c ≠ 46 := by
  simp only [isdigit, Bool.and_eq_true, decide_eq_true_eq] at h
  omega

theorem isdigit_ne_nul (c : Nat) (h : isdigit c = true) : c ≠ 0 := by
  simp only [isdigit, Bool.and_eq_true, decide_eq_true_eq] at h
  omega

/-- Two adjacent dots cannot start inside a part without dots that a dot follows:
they start right after it or further on. -/
theorem adjacent_dots_step (x R u v : List Nat) (hx : ∀ c ∈ x, c ≠ 46)
    (h : x ++ 46 :: R = u ++ 46 :: 46 :: v) :
    R = 46 :: v ∨ ∃ w, R = w ++ 46 :: 46 :: v := by
  induction x generalizing u with
  | nil =>
    cases u with
    | nil =>
      left
      simpa using h
    | cons b u =>
      right
      simp only [List.nil_append, List.cons_append, List.cons.injEq] at h
      exact ⟨u, h.2⟩
  | cons a x ih =>
    cases u with
    | nil =>
      simp only [List.cons_append, List.nil_append, List.cons.injEq] at h
      exact absurd h.1 (hx a (List.mem_cons_self _ _))
    | cons b u =>
      simp only [List.cons_append, List.cons.injEq] at h
      exact ih u (fun c hc => hx c (List.mem_cons_of_mem _ hc)) h.2

/-! ## The release parser: accepted and rejected strings -/

/-- C4: on a string `A.B.C` of three runs of decimal digits that are not empty,
with values `a`, `b`, `c` such that `a * 1000000 + b * 1000 + c` fits a signed
32-bit integer, `linux_map_osrel` returns 0 and stores exactly that number when
it is at least 1000000, and returns `EINVAL`, storing nothing, otherwise. -/
theorem linux_map_osrel_digits (LONG_BIT : Nat) (A B C : List Nat) (osrel : Int)
    (hW : 32 ≤ LONG_BIT) (hA : A ≠ []) (hB : B ≠ []) (hC : C ≠ [])
    (hdA : ∀ c ∈ A, isdigit c = true) (hdB : ∀ c ∈ B, isdigit c = true)
    (hdC : ∀ c ∈ C, isdigit c = true)
    (hfit : decimal A * 1000000 + decimal B * 1000 + decimal C < 2147483648) :
    linux_map_osrel LONG_BIT (A ++ 46 :: (B ++ 46 :: C)) osrel =
      if 1000000 ≤ decimal A * 1000000 + decimal B * 1000 + decimal C then
        (0, ((decimal A * 1000000 + decimal B * 1000 + decimal C : Nat) : Int))
      else (EINVAL, osrel) := by
  have hdot : ∀ t : List Nat, ∀ c, (46 :: t).head? = some c → isdigit c = false := by
    intro t c hc
    simp only [List.head?_cons, Option.some.injEq] at hc
    subst hc
    rfl
  have hnil : ∀ c, ([] : List Nat).head? = some c → isdigit c = false := by
    intro c hc
    simp at hc
  have hpow : 2147483648 ≤ 2 ^ (LONG_BIT - 1) := by
    have : 2 ^ 31 ≤ 2 ^ (LONG_BIT - 1) := Nat.pow_le_pow_right (by norm_num) (by omega)
    simpa using this
  have hcs : cstr (A ++ 46 :: (B ++ 46 :: C)) = A ++ 46 :: (B ++ 46 :: C) := by
    apply cstr_of_no_nul
    intro c hc
    simp only [List.mem_append, List.mem_cons] at hc
    rcases hc with h | h | h | h | h
    · exact isdigit_ne_nul c (hdA c h)
    · omega
    · exact isdigit_ne_nul c (hdB c h)
    · omega
    · exact isdigit_ne_nul c (hdC c h)
  have r0 := strtol_digits_rest LONG_BIT A (46 :: (B ++ 46 :: C)) hA hdA (hdot _)
  have v0 := strtol_digits_value LONG_BIT A (46 :: (B ++ 46 :: C)) hA hdA (hdot _) (by omega)
  have r1 := strtol_digits_rest LONG_BIT B (46 :: C) hB hdB (hdot _)
  have v1 := strtol_digits_value LONG_BIT B (46 :: C) hB hdB (hdot _) (by omega)
  have r2 := strtol_digits_rest LONG_BIT C [] hC hdC hnil
  have v2 := strtol_digits_value LONG_BIT C [] hC hdC hnil (by omega)
  rw [List.append_nil] at r2 v2
  have lA : 0 < A.length := List.length_pos.2 hA
  have lB : 0 < B.length := List.length_pos.2 hB
  have lC : 0 < C.length := List.length_pos.2 hC
  have c0 : ¬ ((A ++ 46 :: (B ++ 46 :: C)).length = (46 :: (B ++ 46 :: C)).length ∨
      (46 :: (B ++ 46 :: C)).length ≤ 1 ∨ (46 :: (B ++ 46 :: C)).head? ≠ some 46) := by
    simp only [List.length_append, List.length_cons, List.head?_cons, ne_eq, not_true_eq_false,
      or_false]
    omega
  have c1 : ¬ ((B ++ 46 :: C).length = (46 :: C).length ∨
      (46 :: C).length ≤ 1 ∨ (46 :: C).head? ≠ some 46) := by
    simp only [List.length_append, List.length_cons, List.head?_cons, ne_eq, not_true_eq_false,
      or_false]
    omega
  have c2 : ¬ (C.length = ([] : List Nat).length ∨ ([] : List Nat).length ≠ 0) := by
    simp only [List.length_nil, ne_eq, not_true_eq_false, or_false]
    omega
  unfold linux_map_osrel
  simp only [hcs, r0, v0, if_neg c0, List.tail_cons, r1, v1, if_neg c1, r2, v2, if_neg c2]
  rw [wrap32_of_range (decimal A : Int) (by omega) (by omega),
    wrap32_of_range (decimal B : Int) (by omega) (by omega),
    wrap32_of_range (decimal C : Int) (by omega) (by omega),
    wrap32_of_range _ (by omega) (by omega)]
  by_cases hv : 1000000 ≤ decimal A * 1000000 + decimal B * 1000 + decimal C
  · rw [if_neg (by omega), if_pos hv]
    push_cast
    rfl
  · rw [if_pos (by omega), if_neg hv]

/-- The strings "2.6.16" and "3.10.0" are accepted with the numbers 2006016 and
3010000, and "0.9.9" is rejected. -/
theorem linux_map_osrel_digits_witness :
    linux_map_osrel 32 (bytes "2.6.16") 0 = (0, 2006016) ∧
    linux_map_osrel 64 (bytes "3.10.0") 0 = (0, 3010000) ∧
    linux_map_osrel 32 (bytes "0.9.9") 7 = (EINVAL, 7) :=
  ⟨linux_map_osrel_digits 32 [50] [54] [49, 54] 0 (by decide) (by decide) (by decide)
      (by decide) (by decide) (by decide) (by decide) (by decide),
   linux_map_osrel_digits 64 [51] [49, 48] [48] 0 (by decide) (by decide) (by decide)
      (by decide) (by decide) (by decide) (by decide) (by decide),
   linux_map_osrel_digits 32 [48] [57] [57] 7 (by decide) (by decide) (by decide)
      (by decide) (by decide) (by decide) (by decide) (by decide)⟩

/-- C8: `linux_map_osrel` returns `EINVAL` and does not write `*osrel` for every
string that has fewer than two dots, that starts with a dot, has two adjacent
dots or ends with a dot, or that goes on, with a byte that is no digit, after
three digit fields separated by dots. -/
theorem linux_map_osrel_rejects (LONG_BIT : Nat) (s : List Nat) (osrel : Int)
    (hs : ∀ c ∈ s, c ≠ 0)
    (h : s.count 46 < 2 ∨ s.head? = some 46 ∨ (∃ u v, s = u ++ 46 :: 46 :: v) ∨
      s.getLast? = some 46 ∨
      (∃ A B C r, A ≠ [] ∧ B ≠ [] ∧ C ≠ [] ∧ (∀ c ∈ A, isdigit c = true) ∧
        (∀ c ∈ B, isdigit c = true) ∧ (∀ c ∈ C, isdigit c = true) ∧ r ≠ [] ∧
        (∀ c, r.head? = some c → isdigit c = false) ∧ s = A ++ 46 :: (B ++ 46 :: (C ++ r)))) :
    linux_map_osrel LONG_BIT s osrel = (EINVAL, osrel) := by
  have hcs := cstr_of_no_nul s hs
  by_cases hfield : ∃ A B C r, A ≠ [] ∧ B ≠ [] ∧ C ≠ [] ∧ (∀ c ∈ A, isdigit c = true) ∧
        (∀ c ∈ B, isdigit c = true) ∧ (∀ c ∈ C, isdigit c = true) ∧ r ≠ [] ∧
        (∀ c, r.head? = some c → isdigit c = false) ∧ s = A ++ 46 :: (B ++ 46 :: (C ++ r))
  · obtain ⟨A, B, C, r, hA, hB, hC, hdA, hdB, hdC, hr, hrd, rfl⟩ := hfield
    have hdot : ∀ t : List Nat, ∀ c, (46 :: t).head? = some c → isdigit c = false := by
      intro t c hc
      simp only [List.head?_cons, Option.some.injEq] at hc
      subst hc
      rfl
    have r0 := strtol_digits_rest LONG_BIT A (46 :: (B ++ 46 :: (C ++ r))) hA hdA (hdot _)
    have r1 := strtol_digits_rest LONG_BIT B (46 :: (C ++ r)) hB hdB (hdot _)
    have r2 := strtol_digits_rest LONG_BIT C r hC hdC hrd
    have c2 : (C ++ r).length = r.length ∨ r.length ≠ 0 :=
      Or.inr (by simpa using hr)
    unfold linux_map_osrel
    simp only [hcs, r0, List.tail_cons, r1, r2, if_pos c2]
    split
    · rfl
    · split <;> rfl
  · by_contra hacc
    obtain ⟨x1, x2, x3, hshape, h1, h2, h3, d1, d2, d3⟩ :=
      linux_map_osrel_shape LONG_BIT s osrel hacc
    rw [hcs] at hshape
    rcases h with h | h | h | h | h
    · have hcount : s.count 46 = 2 := by
        rw [hshape]
        simp only [List.count_append, List.count_cons_self,
          List.count_eq_zero_of_not_mem (fun hm => d1 46 hm rfl),
          List.count_eq_zero_of_not_mem (fun hm => d2 46 hm rfl),
          List.count_eq_zero_of_not_mem (fun hm => d3 46 hm rfl)]
      omega
    · cases x1 with
      | nil => exact h1 rfl
      | cons c t =>
        rw [hshape] at h
        simp only [List.cons_append, List.head?_cons, Option.some.injEq] at h
        exact d1 c (List.mem_cons_self _ _) h
    · obtain ⟨u, v, huv⟩ := h
      rw [hshape] at huv
      rcases adjacent_dots_step x1 _ u v d1 huv with e | ⟨w, e⟩
      · cases x2 with
        | nil => exact h2 rfl
        | cons c t =>
          simp only [List.cons_append, List.cons.injEq] at e
          exact d2 c (List.mem_cons_self _ _) e.1
      · rcases adjacent_dots_step x2 _ w v d2 e with e2 | ⟨w2, e2⟩
        · exact d3 46 (by rw [e2]; exact List.mem_cons_self _ _) rfl
        · exact d3 46 (by rw [e2]; simp) rfl
    · rw [hshape] at h
      have hl : (x1 ++ 46 :: (x2 ++ 46 :: x3)).getLast? = x3.getLast? := by
        have e : x1 ++ 46 :: (x2 ++ 46 :: x3) = (x1 ++ 46 :: (x2 ++ [46])) ++ x3 := by simp
        rw [e, List.getLast?_append_of_ne_nil _ h3]
      rw [hl] at h
      exact d3 46 (List.mem_of_mem_getLast? h) rfl
    · exact hfield h

/-- The strings "2.6", "2", the empty string, "2.6.", "2.6.16x" and "2.6.16.1"
are rejected and `*osrel` keeps its value. -/
theorem linux_map_osrel_rejects_witness :
    linux_map_osrel 32 (bytes "2.6") 7 = (EINVAL, 7) ∧
    linux_map_osrel 32 (bytes "2") 7 = (EINVAL, 7) ∧
    linux_map_osrel 32 (bytes "") 7 = (EINVAL, 7) ∧
    linux_map_osrel 64 (bytes "2.6.") 7 = (EINVAL, 7) ∧
    linux_map_osrel 64 (bytes "2.6.16x") 7 = (EINVAL, 7) ∧
    linux_map_osrel 64 (bytes "2.6.16.1") 7 = (EINVAL, 7) :=
  ⟨linux_map_osrel_rejects 32 [50, 46, 54] 7 (by decide) (Or.inl (by decide)),
   linux_map_osrel_rejects 32 [50] 7 (by decide) (Or.inl (by decide)),
   linux_map_osrel_rejects 32 [] 7 (by decide) (Or.inl (by decide)),
   linux_map_osrel_rejects 64 [50, 46, 54, 46] 7 (by decide)
     (Or.inr (Or.inr (Or.inr (Or.inl (by decide))))),
   linux_map_osrel_rejects 64 [50, 46, 54, 46, 49, 54, 120] 7 (by decide)
     (Or.inr (Or.inr (Or.inr (Or.inr ⟨[50], [54], [49, 54], [120], by decide, by decide,
       by decide, by decide, by decide, by decide, by decide, by decide, by decide⟩)))),
   linux_map_osrel_rejects 64 [50, 46, 54, 46, 49, 54, 46, 49] 7 (by decide)
     (Or.inr (Or.inr (Or.inr (Or.inr ⟨[50], [54], [49, 54], [46, 49], by decide, by decide,
       by decide, by decide, by decide, by decide, by decide, by decide, by decide⟩))))⟩

/-! ## Lemmas on the resolver -/

theorem find_loop_root (st : State) (fuel : Nat) :
    find_loop st (fuel + 1) prison0 = some (prison0, st.lprison0) := by
  simp [find_loop]

theorem find_loop_owned (st : State) (fuel pr : Nat) (lpr : linux_prison)
    (hpr : pr ≠ prison0) (h : st.osd pr = some lpr) :
    find_loop st (fuel + 1) pr = some (pr, lpr) := by
  simp [find_loop, hpr, osd_jail_get, h]

theorem find_loop_empty (st : State) (fuel pr : Nat)
    (hpr : pr ≠ prison0) (h : st.osd pr = none) :
    find_loop st (fuel + 1) pr =
      match st.pr_parent pr with
      | none => none
      | some ppr => find_loop st fuel ppr := by
  simp [find_loop, hpr, osd_jail_get, h]

/-- The prison the loop returns is the root, with `lprison0`, or a prison with
a record in its slot, with that record. -/
theorem find_loop_owner (st : State) (fuel pr q : Nat) (lpr : linux_prison)
    (h : find_loop st fuel pr = some (q, lpr)) :
    (q = prison0 ∧ lpr = st.lprison0) ∨ (q ≠ prison0 ∧ st.osd q = some lpr) := by
  induction fuel generalizing pr with
  | zero => simp [find_loop] at h
  | succ f ih =>
    by_cases hpr : pr = prison0
    · subst hpr
      rw [find_loop_root] at h
      simp only [Option.some.injEq, Prod.mk.injEq] at h
      exact Or.inl ⟨h.1.symm, h.2.symm⟩
    · cases ho : st.osd pr with
      | some l =>
        rw [find_loop_owned st f pr l hpr ho] at h
        simp only [Option.some.injEq, Prod.mk.injEq] at h
        obtain ⟨rfl, rfl⟩ := h
        exact Or.inr ⟨hpr, ho⟩
      | none =>
        rw [find_loop_empty st f pr hpr ho] at h
        cases hp : st.pr_parent pr with
        | none => simp [hp] at h
        | some ppr =>
          simp only [hp] at h
          exact ih ppr h

/-- More fuel does not change the result of the loop. -/
theorem find_loop_mono (st : State) (fuel fuel2 pr : Nat) (r : Nat × linux_prison)
    (h : find_loop st fuel pr = some r) (hle : fuel ≤ fuel2) :
    find_loop st fuel2 pr = some r := by
  induction fuel generalizing pr fuel2 with
  | zero => simp [find_loop] at h
  | succ f ih =>
    obtain ⟨g, rfl⟩ : ∃ g, fuel2 = g + 1 := ⟨fuel2 - 1, by omega⟩
    by_cases hpr : pr = prison0
    · subst hpr
      rw [find_loop_root] at h ⊢
      exact h
    · cases ho : st.osd pr with
      | some l =>
        rw [find_loop_owned st f pr l hpr ho] at h
        rw [find_loop_owned st g pr l hpr ho]
        exact h
      | none =>
        rw [find_loop_empty st f pr hpr ho] at h
        rw [find_loop_empty st g pr hpr ho]
        cases hp : st.pr_parent pr with
        | none => simp [hp] at h
        | some ppr =>
          simp only [hp] at h ⊢
          exact ih g ppr h (by omega)

/-- With a parent chain that reaches the root in `d` steps and more than `d`
units of fuel, the loop returns the first prison of the chain that is the root
or has a record in its slot. -/
theorem find_loop_spec (st : State) (d fuel pr : Nat)
    (hreach : reaches_root st d pr = true) (hfuel : d < fuel) :
    ∃ k q lpr, k ≤ d ∧ ancestor st k pr = some q ∧ find_loop st fuel pr = some (q, lpr) ∧
      ((q = prison0 ∧ lpr = st.lprison0) ∨ (q ≠ prison0 ∧ st.osd q = some lpr)) ∧
      ∀ j, j < k → ∃ a, ancestor st j pr = some a ∧ a ≠ prison0 ∧ st.osd a = none := by
  induction d generalizing fuel pr with
  | zero =>
    obtain ⟨f, rfl⟩ : ∃ f, fuel = f + 1 := ⟨fuel - 1, by omega⟩
    have hpr : pr = prison0 := by simpa [reaches_root] using hreach
    subst hpr
    exact ⟨0, prison0, st.lprison0, le_refl _, rfl, find_loop_root st f, Or.inl ⟨rfl, rfl⟩,
      fun j hj => absurd hj (Nat.not_lt_zero j)⟩
  | succ d ih =>
    obtain ⟨f, rfl⟩ : ∃ f, fuel = f + 1 := ⟨fuel - 1, by omega⟩
    by_cases hpr : pr = prison0
    · subst hpr
      exact ⟨0, prison0, st.lprison0, Nat.zero_le _, rfl, find_loop_root st f, Or.inl ⟨rfl, rfl⟩,
        fun j hj => absurd hj (Nat.not_lt_zero j)⟩
    · cases ho : st.osd pr with
      | some l =>
        exact ⟨0, pr, l, Nat.zero_le _, rfl, find_loop_owned st f pr l hpr ho,
          Or.inr ⟨hpr, ho⟩, fun j hj => absurd hj (Nat.not_lt_zero j)⟩
      | none =>
        cases hp : st.pr_parent pr with
        | none => simp [reaches_root, hpr, hp] at hreach
        | some ppr =>
          have hreach2 : reaches_root st d ppr = true := by
            simpa [reaches_root, hpr, hp] using hreach
          obtain ⟨k, q, lpr, hk, hanc, hfind, hown, hbelow⟩ := ih f ppr hreach2 (by omega)
          refine ⟨k + 1, q, lpr, by omega, ?_, ?_, hown, ?_⟩
          · simp [ancestor, hp, hanc]
          · rw [find_loop_empty st f pr hpr ho]
            simp only [hp]
            exact hfind
          · intro j hj
            cases j with
            | zero => exact ⟨pr, rfl, hpr, ho⟩
            | succ j =>
              obtain ⟨a, ha1, ha2, ha3⟩ := hbelow j (by omega)
              exact ⟨a, by simp [ancestor, hp, ha1], ha2, ha3⟩

/-- How far a prison is from the root does not depend on the records. -/
theorem reaches_root_congr (st st2 : State) (h : st2.pr_parent = st.pr_parent) (d pr : Nat) :
    reaches_root st2 d pr = reaches_root st d pr := by
  induction d generalizing pr with
  | zero => rfl
  | succ d ih =>
    simp only [reaches_root, h]
    cases st.pr_parent pr with
    | none => rfl
    | some ppr => simp only [ih]

theorem ancestor_congr (st st2 : State) (h : st2.pr_parent = st.pr_parent) (k pr : Nat) :
    ancestor st2 k pr = ancestor st k pr := by
  induction k generalizing pr with
  | zero => rfl
  | succ k ih =>
    simp only [ancestor, h]
    cases st.pr_parent pr with
    | none => rfl
    | some ppr => simp only [ih]

/-- The outcome of `linux_alloc_prison` in terms of what the resolver finds. -/
theorem linux_alloc_prison_eq (fuel : Nat) (st : State) (pr osd_error ppr : Nat)
    (lpr : linux_prison) (h : linux_find_prison fuel st pr = some (ppr, lpr)) :
    linux_alloc_prison fuel st pr osd_error =
      if ppr = pr then some (0, st, some lpr)
      else if osd_error = 0 then
        some (0, { st with osd := Function.update st.osd pr (some lpr) }, some lpr)
      else some (osd_error, st, none) := by
  unfold linux_alloc_prison
  simp only [h]
  by_cases h1 : ppr = pr
  · simp [h1]
  · by_cases h2 : osd_error = 0
    · simp [h1, h2, osd_jail_set]
    · simp [h1, h2, osd_jail_set]

/-- From a prison that is not the root and has an empty slot the resolver does
not return the prison itself. -/
theorem linux_find_prison_ne (fuel : Nat) (st : State) (pr ppr : Nat) (lpr : linux_prison)
    (hpr : pr ≠ prison0) (hempty : st.osd pr = none)
    (h : linux_find_prison fuel st pr = some (ppr, lpr)) : ppr ≠ pr := by
  rcases find_loop_owner st fuel _ ppr lpr h with ⟨h1, _⟩ | ⟨_, h2⟩
  · rw [h1]
    exact fun e => hpr e.symm
  · intro e
    rw [e, hempty] at h2
    exact absurd h2 (by simp)

/-- With enough fuel the resolver returns a prison and a record. -/
theorem linux_find_prison_total (st : State) (d fuel pr : Nat)
    (hreach : reaches_root st d pr = true) (hfuel : d < fuel) :
    ∃ ppr lpr, linux_find_prison fuel st pr = some (ppr, lpr) := by
  unfold linux_find_prison
  by_cases hslot : st.linux_osd_jail_slot = 0
  · obtain ⟨f, rfl⟩ : ∃ f, fuel = f + 1 := ⟨fuel - 1, by omega⟩
    exact ⟨prison0, st.lprison0, by rw [if_pos hslot, find_loop_root]⟩
  · obtain ⟨k, q, lpr, _, _, hfind, _, _⟩ := find_loop_spec st d fuel pr hreach hfuel
    exact ⟨q, lpr, by rw [if_neg hslot, hfind]⟩

/-! ## The resolver and the allocator -/

/-- C5: when the module is registered, `linux_find_prison` returns the first
prison on the parent chain of the starting prison, itself included, that is the
root or has a record in its slot, with the record that prison owns (`lprison0`
for the root), every prison before it on the chain having an empty slot; when
registration failed (slot 0) it returns the root and `lprison0`. -/
theorem linux_find_prison_nearest (st : State) (fuel spr : Nat) :
    (st.linux_osd_jail_slot ≠ 0 → ∀ d, reaches_root st d spr = true → d < fuel →
      ∃ k q lpr, k ≤ d ∧ ancestor st k spr = some q ∧
        linux_find_prison fuel st spr = some (q, lpr) ∧
        ((q = prison0 ∧ lpr = st.lprison0) ∨ (q ≠ prison0 ∧ st.osd q = some lpr)) ∧
        ∀ j, j < k → ∃ a, ancestor st j spr = some a ∧ a ≠ prison0 ∧ st.osd a = none) ∧
    (st.linux_osd_jail_slot = 0 → 0 < fuel →
      linux_find_prison fuel st spr = some (prison0, st.lprison0)) := by
  constructor
  · intro hslot d hreach hfuel
    unfold linux_find_prison
    rw [if_neg hslot]
    exact find_loop_spec st d fuel spr hreach hfuel
  · intro hslot hfuel
    obtain ⟨f, rfl⟩ : ∃ f, fuel = f + 1 := ⟨fuel - 1, by omega⟩
    unfold linux_find_prison
    rw [if_pos hslot, find_loop_root]

/-- From prison 3 of `st_owned` the resolver walks past prison 2 to prison 1,
which owns a record; were the module not registered, it would return the root. -/
theorem linux_find_prison_nearest_witness :
    (st_owned.linux_osd_jail_slot ≠ 0 ∧ reaches_root st_owned 3 3 = true ∧ 3 < 4 ∧
      ∃ k q lpr, k ≤ 3 ∧ ancestor st_owned k 3 = some q ∧
        linux_find_prison 4 st_owned 3 = some (q, lpr) ∧
        ((q = prison0 ∧ lpr = st_owned.lprison0) ∨ (q ≠ prison0 ∧ st_owned.osd q = some lpr)) ∧
        ∀ j, j < k → ∃ a, ancestor st_owned j 3 = some a ∧ a ≠ prison0 ∧ st_owned.osd a = none) ∧
    (({ st_owned with linux_osd_jail_slot := 0 } : State).linux_osd_jail_slot = 0 ∧ 0 < 4 ∧
      linux_find_prison 4 { st_owned with linux_osd_jail_slot := 0 } 3
        = some (prison0, st_owned.lprison0)) :=
  ⟨⟨by decide, by decide, by decide,
      (linux_find_prison_nearest st_owned 4 3).1 (by decide) 3 (by decide) (by decide)⟩,
   ⟨rfl, by decide,
      (linux_find_prison_nearest { st_owned with linux_osd_jail_slot := 0 } 4 3).2 rfl
        (by decide)⟩⟩

/-- C6: for a prison that is not the root and has an empty slot, a successful
`linux_alloc_prison` puts in the slot a record equal, field by field, to the
record the resolver returned for the prison right before the call; `lprison0`
and the slot of every other prison (the ancestor's among them) are unchanged.
With enough fuel the call does succeed when `osd_jail_set` does. -/
theorem linux_alloc_prison_copies (st : State) (d fuel pr : Nat)
    (hpr : pr ≠ prison0) (hempty : st.osd pr = none)
    (hreach : reaches_root st d pr = true) (hfuel : d < fuel) :
    ∃ ppr lpr, linux_find_prison fuel st pr = some (ppr, lpr) ∧ ppr ≠ pr ∧
      (∃ st2, linux_alloc_prison fuel st pr 0 = some (0, st2, some lpr)) ∧
      ∀ osd_error st2 lprp, linux_alloc_prison fuel st pr osd_error = some (0, st2, lprp) →
        lprp = some lpr ∧ st2.osd pr = some lpr ∧ st2.lprison0 = st.lprison0 ∧
        (∀ q, q ≠ pr → st2.osd q = st.osd q) ∧ st2.pr_parent = st.pr_parent ∧
        st2.linux_osd_jail_slot = st.linux_osd_jail_slot := by
  obtain ⟨ppr, lpr, hfind⟩ := linux_find_prison_total st d fuel pr hreach hfuel
  have hne := linux_find_prison_ne fuel st pr ppr lpr hpr hempty hfind
  refine ⟨ppr, lpr, hfind, hne, ?_, ?_⟩
  · rw [linux_alloc_prison_eq fuel st pr 0 ppr lpr hfind, if_neg hne, if_pos rfl]
    exact ⟨_, rfl⟩
  · intro osd_error st2 lprp h
    rw [linux_alloc_prison_eq fuel st pr osd_error ppr lpr hfind, if_neg hne] at h
    by_cases he : osd_error = 0
    · rw [if_pos he] at h
      simp only [Option.some.injEq, Prod.mk.injEq, true_and] at h
      obtain ⟨rfl, rfl⟩ := h
      refine ⟨rfl, by simp, rfl, ?_, rfl, rfl⟩
      intro q hq
      simp [Function.update, hq]
    · rw [if_neg he] at h
      simp only [Option.some.injEq, Prod.mk.injEq] at h
      exact absurd h.1 he

/-- In `st_owned` prison 3 has an empty slot and inherits from prison 1; the
allocator gives it a copy of the record of prison 1. -/
theorem linux_alloc_prison_copies_witness :
    (3 : Nat) ≠ prison0 ∧ st_owned.osd 3 = none ∧ reaches_root st_owned 3 3 = true ∧ 3 < 4 ∧
    ∃ ppr lpr, linux_find_prison 4 st_owned 3 = some (ppr, lpr) ∧ ppr ≠ 3 ∧
      (∃ st2, linux_alloc_prison 4 st_owned 3 0 = some (0, st2, some lpr)) ∧
      ∀ osd_error st2 lprp, linux_alloc_prison 4 st_owned 3 osd_error = some (0, st2, lprp) →
        lprp = some lpr ∧ st2.osd 3 = some lpr ∧ st2.lprison0 = st_owned.lprison0 ∧
        (∀ q, q ≠ 3 → st2.osd q = st_owned.osd q) ∧ st2.pr_parent = st_owned.pr_parent ∧
        st2.linux_osd_jail_slot = st_owned.linux_osd_jail_slot :=
  ⟨by decide, rfl, by decide, by decide,
    linux_alloc_prison_copies st_owned 3 4 3 (by decide) rfl (by decide) (by decide)⟩

/-! ## Lemmas on `linux_prison_get` -/

/-- What `linux_prison_get` reports when all four options are asked for and
the two buffers have room: the mode and the three fields of the record the
resolver returned, whichever the mode is. -/
theorem linux_prison_get_reports (fuel : Nat) (st : State) (pr ppr : Nat) (lpr : linux_prison)
    (mode oss : Int) (b1 b2 : List Nat)
    (h : linux_find_prison fuel st pr = some (ppr, lpr))
    (h1 : strlen lpr.pr_osname + 1 ≤ b1.length) (h2 : strlen lpr.pr_osrelease + 1 ≤ b2.length) :
    linux_prison_get fuel st pr ⟨some mode, some b1, some b2, some oss⟩ =
      some (0, ⟨some (if ppr = pr then JAIL_SYS_NEW else JAIL_SYS_INHERIT),
        some (cstr lpr.pr_osname ++ [0] ++ b1.drop (strlen lpr.pr_osname + 1)),
        some (cstr lpr.pr_osrelease ++ [0] ++ b2.drop (strlen lpr.pr_osrelease + 1)),
        some lpr.pr_oss_version⟩) := by
  have hi : (if ppr = pr then JAIL_SYS_NEW else JAIL_SYS_INHERIT) ≠ 0 := by
    by_cases hp : ppr = pr
    · rw [if_pos hp]
      decide
    · rw [if_neg hp]
      decide
  have n1 : ¬ b1.length < strlen lpr.pr_osname + 1 := by omega
  have n2 : ¬ b2.length < strlen lpr.pr_osrelease + 1 := by omega
  unfold linux_prison_get
  simp only [h, vfs_setopt, vfs_setopts, if_neg n1, if_neg n2, ne_eq, not_true_eq_false,
    false_and, if_false, hi, not_false_eq_true, if_true]

/-- The mode `linux_prison_get` reports, when it is asked for, is `JAIL_SYS_NEW`
if the resolver returned the prison itself and `JAIL_SYS_INHERIT` otherwise. -/
theorem linux_prison_get_mode (fuel : Nat) (st : State) (pr ppr : Nat) (lpr : linux_prison)
    (req : vfsoptlist) (mode : Int) (hreq : req.linux = some mode)
    (h : linux_find_prison fuel st pr = some (ppr, lpr)) :
    ∃ e out, linux_prison_get fuel st pr req = some (e, out) ∧
      out.linux = some (if ppr = pr then JAIL_SYS_NEW else JAIL_SYS_INHERIT) := by
  unfold linux_prison_get
  simp only [h, hreq, vfs_setopt]
  split_ifs <;> exact ⟨_, _, rfl, rfl⟩

theorem cstr_no_nul (buf : List Nat) : ∀ c ∈ cstr buf, c ≠ 0 := by
  intro c hc
  have := List.mem_takeWhile_imp hc
  simpa using this

theorem cstr_append_nul (x r : List Nat) (hx : ∀ c ∈ x, c ≠ 0) : cstr (x ++ 0 :: r) = x := by
  induction x with
  | nil => simp [cstr]
  | cons a x ih =>
    have ha : a ≠ 0 := hx a (List.mem_cons_self _ _)
    have := ih (fun c hc => hx c (List.mem_cons_of_mem _ hc))
    unfold cstr at this ⊢
    simp [List.takeWhile_cons, ha, this]

/-- A string that fits is copied whole by `strlcpy`. -/
theorem cstr_strlcpy (dst src : List Nat) (siz : Nat) (h : strlen src < siz) :
    cstr (strlcpy dst src siz) = cstr src := by
  unfold strlcpy
  have hs : siz ≠ 0 := by omega
  have hm : min (strlen src) (siz - 1) = strlen src := by omega
  simp only [if_neg hs, hm]
  have ht : (cstr src).take (strlen src) = cstr src := by
    unfold strlen
    exact List.take_length _
  rw [ht, List.append_assoc]
  exact cstr_append_nul _ _ (cstr_no_nul src)

/-- Function `strlcpy` with a size that is not 0 stores the first `siz - 1` bytes
of the string. -/
theorem cstr_strlcpy_take (dst src : List Nat) (siz : Nat) (h : siz ≠ 0) :
    cstr (strlcpy dst src siz) = (cstr src).take (siz - 1) := by
  unfold strlcpy
  simp only [if_neg h]
  have ht : (cstr src).take (min (strlen src) (siz - 1)) = (cstr src).take (siz - 1) := by
    unfold strlen
    rcases le_total (cstr src).length (siz - 1) with h1 | h1
    · rw [min_eq_left h1, List.take_length, List.take_of_length_le h1]
    · rw [min_eq_right h1]
  rw [List.append_assoc, ← ht]
  exact cstr_append_nul _ _ (fun c hc => cstr_no_nul src c (List.mem_of_mem_take hc))

/-! ## Lemmas on `linux_prison_set` -/

/-- A write of the record a prison already owns changes nothing. -/
theorem store_record_self (st : State) (pr : Nat) (lpr : linux_prison)
    (h : (pr = prison0 ∧ lpr = st.lprison0) ∨ (pr ≠ prison0 ∧ st.osd pr = some lpr)) :
    store_record st pr lpr = st := by
  rcases h with ⟨h1, h2⟩ | ⟨h1, h2⟩
  · rw [store_record, if_pos h1, h2]
  · rw [store_record, if_neg h1, ← h2, Function.update_eq_self]

/-- After a write of its record, a prison resolves to itself and that record. -/
theorem linux_find_prison_store (fuel : Nat) (st : State) (pr : Nat) (lpr : linux_prison)
    (hslot : st.linux_osd_jail_slot ≠ 0) (hfuel : 0 < fuel) :
    linux_find_prison fuel (store_record st pr lpr) pr = some (pr, lpr) := by
  obtain ⟨f, rfl⟩ : ∃ f, fuel = f + 1 := ⟨fuel - 1, by omega⟩
  unfold linux_find_prison
  by_cases hpr : pr = prison0
  · subst hpr
    have hs : (store_record st prison0 lpr).linux_osd_jail_slot ≠ 0 := by
      simpa [store_record] using hslot
    rw [if_neg hs, find_loop_root]
    simp [store_record]
  · have hs : (store_record st pr lpr).linux_osd_jail_slot ≠ 0 := by
      simpa [store_record, hpr] using hslot
    rw [if_neg hs]
    exact find_loop_owned _ f pr lpr hpr (by simp [store_record, hpr])

/-- The resolver returns a prison with the record that prison owns. -/
theorem linux_find_prison_owner (fuel : Nat) (st : State) (pr ppr : Nat) (lpr : linux_prison)
    (h : linux_find_prison fuel st pr = some (ppr, lpr)) :
    (ppr = prison0 ∧ lpr = st.lprison0) ∨ (ppr ≠ prison0 ∧ st.osd ppr = some lpr) :=
  find_loop_owner st fuel _ ppr lpr h

/-- From the root the resolver returns the root. -/
theorem linux_find_prison_root (fuel : Nat) (st : State) (ppr : Nat) (lpr : linux_prison)
    (h : linux_find_prison fuel st prison0 = some (ppr, lpr)) : ppr = prison0 := by
  cases fuel with
  | zero => simp [linux_find_prison, find_loop] at h
  | succ f =>
    unfold linux_find_prison at h
    rw [ite_self, find_loop_root] at h
    simp only [Option.some.injEq, Prod.mk.injEq] at h
    exact h.1.symm

/-- The outcome of `linux_prison_set` in case `JAIL_SYS_NEW`, in terms of what
the resolver finds. -/
theorem linux_prison_set_new_eq (M W fuel : Nat) (st : State) (pr osd_error ppr : Nat)
    (opts : vfsoptlist) (lpr : linux_prison)
    (hjsys : linux_prison_set_jsys opts = JAIL_SYS_NEW)
    (h : linux_find_prison fuel st pr = some (ppr, lpr)) :
    linux_prison_set M W fuel st pr opts osd_error =
      if ppr = pr then
        some ((linux_prison_set_fields M W opts lpr).1,
          store_record st pr (linux_prison_set_fields M W opts lpr).2)
      else if osd_error = 0 then
        some ((linux_prison_set_fields M W opts lpr).1,
          store_record { st with osd := Function.update st.osd pr (some lpr) } pr
            (linux_prison_set_fields M W opts lpr).2)
      else some (osd_error, st) := by
  have hne : JAIL_SYS_NEW ≠ JAIL_SYS_INHERIT := by decide
  unfold linux_prison_set
  simp only [hjsys, if_neg hne, if_true, linux_alloc_prison_eq fuel st pr osd_error ppr lpr h]
  by_cases h1 : ppr = pr
  · simp [h1]
  · by_cases h2 : osd_error = 0
    · simp [h1, h2]
    · simp [h1, h2]

/-- With a release string, `linux_prison_set` is in case `JAIL_SYS_NEW`. -/
theorem linux_prison_set_jsys_osrelease (opts : vfsoptlist) (rel : List Nat)
    (h : opts.osrelease = some rel) : linux_prison_set_jsys opts = JAIL_SYS_NEW := by
  unfold linux_prison_set_jsys
  simp only [h]
  cases opts.oss_version <;> simp

/-- With a release string that the parser rejects, the field writes fail with
`EINVAL` and leave the record as it was. -/
theorem linux_prison_set_fields_bad (M W : Nat) (opts : vfsoptlist) (lpr : linux_prison)
    (rel : List Nat) (hrel : opts.osrelease = some rel)
    (hbad : (linux_map_osrel W rel 0).1 ≠ 0) :
    linux_prison_set_fields M W opts lpr = (EINVAL, lpr) := by
  have hb : (linux_map_osrel W rel lpr.pr_osrel).1 ≠ 0 := by
    rw [linux_map_osrel_error_indep W rel lpr.pr_osrel 0]
    exact hbad
  have he := linux_map_osrel_error W rel lpr.pr_osrel hb
  unfold linux_prison_set_fields
  simp [hrel, he, EINVAL]

/-- What an accepted option set tells about its options. -/
theorem linux_prison_check_ok (M W : Nat) (opts : vfsoptlist)
    (h : linux_prison_check M W opts = 0) :
    (∀ j, opts.linux = some j → j = JAIL_SYS_NEW ∨ j = JAIL_SYS_INHERIT) ∧
    (∀ name, opts.osname = some name →
      name.length ≠ 0 ∧ name.getLast? = some 0 ∧ name.length ≤ M) ∧
    (∀ rel, opts.osrelease = some rel →
      rel.length ≠ 0 ∧ rel.getLast? = some 0 ∧ rel.length ≤ M ∧
        (linux_map_osrel W rel 0).1 = 0) := by
  unfold linux_prison_check at h
  refine ⟨?_, ?_, ?_⟩
  · intro j hj
    simp only [hj] at h
    by_contra hc
    push_neg at hc
    simp [hc.1, hc.2, EINVAL] at h
  · intro name hname
    simp only [hname] at h
    split at h
    · simp [EINVAL] at h
    · by_cases c1 : name.length = 0 ∨ name.getLast? ≠ some 0
      · rw [if_pos c1] at h
        simp [EINVAL] at h
      · by_cases c2 : name.length > M
        · rw [if_neg c1, if_pos c2] at h
          simp [ENAMETOOLONG] at h
        · push_neg at c1
          exact ⟨c1.1, c1.2, by omega⟩
  · intro rel hrel
    simp only [hrel] at h
    split at h
    · simp [EINVAL] at h
    · split at h
      · rename_i he
        exact absurd h he
      · by_cases c1 : rel.length = 0 ∨ rel.getLast? ≠ some 0
        · rw [if_pos c1] at h
          simp [EINVAL] at h
        · by_cases c2 : rel.length > M
          · rw [if_neg c1, if_pos c2] at h
            simp [ENAMETOOLONG] at h
          · rw [if_neg c1, if_neg c2] at h
            push_neg at c1
            exact ⟨c1.1, c1.2, by omega, h⟩

/-! ## The jail methods -/

/-- C1 (the code differs): for prison 2 of `st_example`, which is not the root
and has an empty slot, `linux_prison_get` reports mode `JAIL_SYS_INHERIT`
together with the name "Linux", the release "2.6.16" and the OSS version
0x030600 of the ancestor it inherits from, not an empty name, an empty release
and version 0: the test `if (i)` holds for both modes. -/
theorem linux_prison_get_inherit_reports_ancestor :
    st_example.osd 2 = none ∧
    linux_prison_get 5 st_example 2
        ⟨some 0, some (List.replicate 8 1), some (List.replicate 8 1), some 7⟩
      = some (0, ⟨some JAIL_SYS_INHERIT, some (bytes "Linux" ++ [0, 1, 1]),
          some (bytes "2.6.16" ++ [0, 1]), some 0x030600⟩) := by
  constructor
  · rfl
  · decide

/-- C2 (as stated, it fails): prison 2 of `st_example` has an empty slot; a
`linux_prison_set` with the release string "2.6", which the parser rejects,
returns `EINVAL`, and the slot of prison 2 then holds a record, a copy of
`lprison0`: the allocation comes before the release string is parsed. -/
theorem linux_prison_set_allocates_before_parse :
    (linux_map_osrel 32 (bytes "2.6\x00") 0).1 = EINVAL ∧ st_example.osd 2 = none ∧
    (linux_prison_set 65 32 5 st_example 2 ⟨none, none, some (bytes "2.6\x00"), none⟩ 0).map
        (fun r => (r.1, r.2.osd 2)) = some (EINVAL, some (lprison0 65)) := by
  decide

/-- C2 (amended): with the module registered and a release string that the
parser rejects, `linux_prison_set` returns an error. For the root and for a
prison that has a record in its slot the state is exactly as before. For a
prison with an empty slot the state is as before when `osd_jail_set` fails (its
error is returned); when it succeeds the error is `EINVAL` and the only change
is that the slot now holds a copy of the record the prison inherited. -/
theorem linux_prison_set_bad_release (M W fuel d : Nat) (st : State) (pr osd_error : Nat)
    (opts : vfsoptlist) (rel : List Nat)
    (hslot : st.linux_osd_jail_slot ≠ 0)
    (hreach : reaches_root st d pr = true) (hfuel : d < fuel)
    (hrel : opts.osrelease = some rel) (hbad : (linux_map_osrel W rel 0).1 ≠ 0) :
    ((pr = prison0 ∨ st.osd pr ≠ none) →
      linux_prison_set M W fuel st pr opts osd_error = some (EINVAL, st)) ∧
    (pr ≠ prison0 → st.osd pr = none →
      ∃ ppr lpr, linux_find_prison fuel st pr = some (ppr, lpr) ∧ ppr ≠ pr ∧
        linux_prison_set M W fuel st pr opts osd_error =
          some (if osd_error = 0 then
              (EINVAL, { st with osd := Function.update st.osd pr (some lpr) })
            else (osd_error, st))) := by
  have hjsys := linux_prison_set_jsys_osrelease opts rel hrel
  obtain ⟨ppr, lpr, hfind⟩ := linux_find_prison_total st d fuel pr hreach hfuel
  have hfields := linux_prison_set_fields_bad M W opts lpr rel hrel hbad
  have hset := linux_prison_set_new_eq M W fuel st pr osd_error ppr opts lpr hjsys hfind
  rw [hfields] at hset
  have hown := linux_find_prison_owner fuel st pr ppr lpr hfind
  constructor
  · intro hself
    have hppr : ppr = pr := by
      obtain ⟨f, rfl⟩ : ∃ f, fuel = f + 1 := ⟨fuel - 1, by omega⟩
      unfold linux_find_prison at hfind
      rw [if_neg hslot] at hfind
      by_cases hpr : pr = prison0
      · subst hpr
        rw [find_loop_root] at hfind
        simp only [Option.some.injEq, Prod.mk.injEq] at hfind
        exact hfind.1.symm
      · rcases hself with h | h
        · exact absurd h hpr
        · cases ho : st.osd pr with
          | none => exact absurd ho h
          | some l =>
            rw [find_loop_owned st f pr l hpr ho] at hfind
            simp only [Option.some.injEq, Prod.mk.injEq] at hfind
            exact hfind.1.symm
    rw [hset, if_pos hppr]
    subst hppr
    rw [store_record_self st ppr lpr hown]
  · intro hpr hempty
    have hne := linux_find_prison_ne fuel st pr ppr lpr hpr hempty hfind
    refine ⟨ppr, lpr, hfind, hne, ?_⟩
    rw [hset, if_neg hne]
    by_cases he : osd_error = 0
    · rw [if_pos he, if_pos he]
      rw [store_record_self _ pr lpr (Or.inr ⟨hpr, by simp⟩)]
    · rw [if_neg he, if_neg he]

/-- Prison 1 of `st_owned` has a record: a set with release "2.6" fails and
changes nothing. Prison 2 has none: the same set fails and leaves a copy of the
record it inherited in its slot. -/
theorem linux_prison_set_bad_release_witness :
    st_owned.linux_osd_jail_slot ≠ 0 ∧ reaches_root st_owned 2 1 = true ∧
    reaches_root st_owned 2 2 = true ∧ 2 < 3 ∧
    (⟨none, none, some (bytes "2.6\x00"), none⟩ : vfsoptlist).osrelease
      = some (bytes "2.6\x00") ∧
    (linux_map_osrel 32 (bytes "2.6\x00") 0).1 ≠ 0 ∧
    (1 = prison0 ∨ st_owned.osd 1 ≠ none) ∧
    linux_prison_set 65 32 3 st_owned 1 ⟨none, none, some (bytes "2.6\x00"), none⟩ 0
        = some (EINVAL, st_owned) ∧
    2 ≠ prison0 ∧ st_owned.osd 2 = none ∧
    ∃ ppr lpr, linux_find_prison 3 st_owned 2 = some (ppr, lpr) ∧ ppr ≠ 2 ∧
      linux_prison_set 65 32 3 st_owned 2 ⟨none, none, some (bytes "2.6\x00"), none⟩ 0 =
        some (if 0 = 0 then
            (EINVAL, { st_owned with osd := Function.update st_owned.osd 2 (some lpr) })
          else (0, st_owned)) :=
  ⟨by decide, by decide, by decide, by decide, rfl, by decide, Or.inr (by decide),
    (linux_prison_set_bad_release 65 32 3 2 st_owned 1 0
      ⟨none, none, some (bytes "2.6\x00"), none⟩ (bytes "2.6\x00")
      (by decide) (by decide) (by decide) rfl (by decide)).1 (Or.inr (by decide)),
    by decide, rfl,
    (linux_prison_set_bad_release 65 32 3 2 st_owned 2 0
      ⟨none, none, some (bytes "2.6\x00"), none⟩ (bytes "2.6\x00")
      (by decide) (by decide) (by decide) rfl (by decide)).2 (by decide) rfl⟩

/-- C3: round trip. With the module registered, for an option set that
`linux_prison_check` accepts and that gives a name, a release string and an OSS
version, both strings ending in their only NUL, if `linux_prison_set` returns 0
then `linux_prison_get` on the same prison, asked for all four options with
buffers as long as the strings given, returns 0 and reports mode
`JAIL_SYS_NEW`, that name, that release string and that OSS version. -/
theorem linux_prison_set_get_roundtrip (M W fuel : Nat) (st st2 : State) (pr osd_error : Nat)
    (mode : Option Int) (n rn b1 b2 : List Nat) (v m0 v0 : Int)
    (hslot : st.linux_osd_jail_slot ≠ 0)
    (hn : ∀ c ∈ n, c ≠ 0) (hrn : ∀ c ∈ rn, c ≠ 0)
    (hcheck : linux_prison_check M W ⟨mode, some (n ++ [0]), some (rn ++ [0]), some v⟩ = 0)
    (hset : linux_prison_set M W fuel st pr ⟨mode, some (n ++ [0]), some (rn ++ [0]), some v⟩
      osd_error = some (0, st2))
    (hb1 : (n ++ [0]).length ≤ b1.length) (hb2 : (rn ++ [0]).length ≤ b2.length) :
    ∃ out, linux_prison_get fuel st2 pr ⟨some m0, some b1, some b2, some v0⟩ = some (0, out) ∧
      out.linux = some JAIL_SYS_NEW ∧ out.osname.map cstr = some n ∧
      out.osrelease.map cstr = some rn ∧ out.oss_version = some v := by
  obtain ⟨_, hname, hrelease⟩ := linux_prison_check_ok M W _ hcheck
  obtain ⟨_, _, hnM⟩ := hname (n ++ [0]) rfl
  obtain ⟨_, _, hrM, hparse⟩ := hrelease (rn ++ [0]) rfl
  have hjsys : linux_prison_set_jsys ⟨mode, some (n ++ [0]), some (rn ++ [0]), some v⟩
      = JAIL_SYS_NEW := linux_prison_set_jsys_osrelease _ (rn ++ [0]) rfl
  have hfuel : 0 < fuel := by
    rcases Nat.eq_zero_or_pos fuel with h0 | h0
    · subst h0
      simp [linux_prison_set, hjsys, JAIL_SYS_NEW, JAIL_SYS_INHERIT, linux_alloc_prison,
        linux_find_prison, find_loop] at hset
    · exact h0
  have hcn : cstr (n ++ [0]) = n := cstr_append_nul n [] hn
  have hcrn : cstr (rn ++ [0]) = rn := cstr_append_nul rn [] hrn
  have hln : strlen (n ++ [0]) < M := by
    unfold strlen
    rw [hcn]
    simp only [List.length_append, List.length_singleton] at hnM
    omega
  have hlrn : strlen (rn ++ [0]) < M := by
    unfold strlen
    rw [hcrn]
    simp only [List.length_append, List.length_singleton] at hrM
    omega
  -- the record after the field writes, whatever record they start from
  have hfields : ∀ lpr : linux_prison,
      linux_prison_set_fields M W ⟨mode, some (n ++ [0]), some (rn ++ [0]), some v⟩ lpr =
        (0, ⟨strlcpy lpr.pr_osname (n ++ [0]) M, strlcpy lpr.pr_osrelease (rn ++ [0]) M, v,
          (linux_map_osrel W (rn ++ [0]) lpr.pr_osrel).2⟩) := by
    intro lpr
    have h0 : (linux_map_osrel W (rn ++ [0]) lpr.pr_osrel).1 = 0 := by
      rw [linux_map_osrel_error_indep W _ lpr.pr_osrel 0]
      exact hparse
    unfold linux_prison_set_fields
    simp [h0]
  -- the state after the call is a write of that record to the prison
  have hstore : ∃ (st1 : State) (lpr : linux_prison), st1.linux_osd_jail_slot ≠ 0 ∧
      st2 = store_record st1 pr ⟨strlcpy lpr.pr_osname (n ++ [0]) M,
        strlcpy lpr.pr_osrelease (rn ++ [0]) M, v,
        (linux_map_osrel W (rn ++ [0]) lpr.pr_osrel).2⟩ := by
    cases hfind : linux_find_prison fuel st pr with
    | none =>
      simp [linux_prison_set, hjsys, JAIL_SYS_NEW, JAIL_SYS_INHERIT, linux_alloc_prison,
        hfind] at hset
    | some r =>
      obtain ⟨ppr, lpr⟩ := r
      rw [linux_prison_set_new_eq M W fuel st pr osd_error ppr _ lpr hjsys hfind,
        hfields lpr] at hset
      by_cases h1 : ppr = pr
      · rw [if_pos h1] at hset
        simp only [Option.some.injEq, Prod.mk.injEq, true_and] at hset
        exact ⟨st, lpr, hslot, hset.symm⟩
      · rw [if_neg h1] at hset
        by_cases h2 : osd_error = 0
        · rw [if_pos h2] at hset
          simp only [Option.some.injEq, Prod.mk.injEq, true_and] at hset
          exact ⟨{ st with osd := Function.update st.osd pr (some lpr) }, lpr, hslot, hset.symm⟩
        · rw [if_neg h2] at hset
          simp only [Option.some.injEq, Prod.mk.injEq] at hset
          exact absurd hset.1 h2
  obtain ⟨st1, lpr, hslot1, rfl⟩ := hstore
  have hfind2 := linux_find_prison_store fuel st1 pr
    ⟨strlcpy lpr.pr_osname (n ++ [0]) M, strlcpy lpr.pr_osrelease (rn ++ [0]) M, v,
      (linux_map_osrel W (rn ++ [0]) lpr.pr_osrel).2⟩ hslot1 hfuel
  have hc1 : cstr (strlcpy lpr.pr_osname (n ++ [0]) M) = n := by
    rw [cstr_strlcpy _ _ _ hln, hcn]
  have hc2 : cstr (strlcpy lpr.pr_osrelease (rn ++ [0]) M) = rn := by
    rw [cstr_strlcpy _ _ _ hlrn, hcrn]
  have hget := linux_prison_get_reports fuel _ pr pr _ m0 v0 b1 b2 hfind2
    (by
      simp only [strlen, hc1]
      simpa using hb1)
    (by
      simp only [strlen, hc2]
      simpa using hb2)
  refine ⟨_, hget, ?_, ?_, ?_, rfl⟩
  · simp
  · simp only [Option.map_some', hc1, List.append_assoc, Option.some.injEq]
    exact cstr_append_nul n _ hn
  · simp only [Option.map_some', hc2, List.append_assoc, Option.some.injEq]
    exact cstr_append_nul rn _ hrn

/-- Prison 2 of `st_example` is given the name "Foo", the release "3.10.0"
and the OSS version 5, and reports them back with mode `JAIL_SYS_NEW`. -/
theorem linux_prison_set_get_roundtrip_witness :
    st_example.linux_osd_jail_slot ≠ 0 ∧
    (∀ c ∈ bytes "Foo", c ≠ 0) ∧ (∀ c ∈ bytes "3.10.0", c ≠ 0) ∧
    linux_prison_check 65 32
      ⟨none, some (bytes "Foo" ++ [0]), some (bytes "3.10.0" ++ [0]), some 5⟩ = 0 ∧
    linux_prison_set 65 32 5 st_example 2
      ⟨none, some (bytes "Foo" ++ [0]), some (bytes "3.10.0" ++ [0]), some 5⟩ 0
      = some (0, store_record
          { st_example with osd := Function.update st_example.osd 2 (some (lprison0 65)) } 2
          ⟨strlcpy (lprison0 65).pr_osname (bytes "Foo" ++ [0]) 65,
            strlcpy (lprison0 65).pr_osrelease (bytes "3.10.0" ++ [0]) 65, 5, 3010000⟩) ∧
    (bytes "Foo" ++ [0]).length ≤ (List.replicate 8 1).length ∧
    (bytes "3.10.0" ++ [0]).length ≤ (List.replicate 8 1).length ∧
    ∃ out, linux_prison_get 5 (store_record
          { st_example with osd := Function.update st_example.osd 2 (some (lprison0 65)) } 2
          ⟨strlcpy (lprison0 65).pr_osname (bytes "Foo" ++ [0]) 65,
            strlcpy (lprison0 65).pr_osrelease (bytes "3.10.0" ++ [0]) 65, 5, 3010000⟩) 2
        ⟨some 0, some (List.replicate 8 1), some (List.replicate 8 1), some 0⟩ = some (0, out) ∧
      out.linux = some JAIL_SYS_NEW ∧ out.osname.map cstr = some (bytes "Foo") ∧
      out.osrelease.map cstr = some (bytes "3.10.0") ∧ out.oss_version = some 5 :=
  ⟨by decide, by decide, by decide, by decide, rfl, by decide, by decide,
    linux_prison_set_get_roundtrip 65 32 5 st_example _ 2 0 none (bytes "Foo") (bytes "3.10.0")
      (List.replicate 8 1) (List.replicate 8 1) 5 0 0
      (by decide) (by decide) (by decide) (by decide) rfl (by decide) (by decide)⟩

/-- C7: with the module registered, for a prison that is not the root and owns
a record, `linux_prison_set` with mode `JAIL_SYS_INHERIT` and no field returns 0
and empties the slot of the prison, changing no other slot and not `lprison0`;
a following `linux_prison_get` reports mode `JAIL_SYS_INHERIT`, and a following
resolution from the prison returns the nearest proper ancestor that is the root
or has a record, with the record it owns. -/
theorem linux_prison_set_inherit (M W fuel d : Nat) (st : State) (pr osd_error : Nat)
    (r : linux_prison) (req : vfsoptlist) (mode : Int)
    (hslot : st.linux_osd_jail_slot ≠ 0) (hpr : pr ≠ prison0) (hown : st.osd pr = some r)
    (hreach : reaches_root st d pr = true) (hfuel : d < fuel) (hreq : req.linux = some mode) :
    ∃ st2, linux_prison_set M W fuel st pr ⟨some JAIL_SYS_INHERIT, none, none, none⟩ osd_error
        = some (0, st2) ∧
      st2.osd pr = none ∧ st.osd pr ≠ st2.osd pr ∧ (∀ q, q ≠ pr → st2.osd q = st.osd q) ∧
      st2.lprison0 = st.lprison0 ∧
      (∃ e out, linux_prison_get fuel st2 pr req = some (e, out) ∧
        out.linux = some JAIL_SYS_INHERIT) ∧
      ∃ k q lpr, 1 ≤ k ∧ ancestor st k pr = some q ∧ q ≠ pr ∧
        linux_find_prison fuel st2 pr = some (q, lpr) ∧
        ((q = prison0 ∧ lpr = st2.lprison0) ∨ (q ≠ prison0 ∧ st2.osd q = some lpr)) ∧
        ∀ j, 1 ≤ j → j < k → ∃ a, ancestor st j pr = some a ∧ a ≠ prison0 ∧ st2.osd a = none := by
  have hset : linux_prison_set M W fuel st pr ⟨some JAIL_SYS_INHERIT, none, none, none⟩ osd_error
      = some (0, osd_jail_del st pr) := by
    simp [linux_prison_set, linux_prison_set_jsys]
  have hempty : (osd_jail_del st pr).osd pr = none := by simp [osd_jail_del]
  have hslot2 : (osd_jail_del st pr).linux_osd_jail_slot ≠ 0 := hslot
  have hreach2 : reaches_root (osd_jail_del st pr) d pr = true := by
    rw [reaches_root_congr st (osd_jail_del st pr) rfl]
    exact hreach
  obtain ⟨k, q, lpr, _, hanc, hfind, hq, hbelow⟩ :=
    find_loop_spec (osd_jail_del st pr) d fuel pr hreach2 hfuel
  have hfind2 : linux_find_prison fuel (osd_jail_del st pr) pr = some (q, lpr) := by
    unfold linux_find_prison
    rw [if_neg hslot2]
    exact hfind
  have hne := linux_find_prison_ne fuel _ pr q lpr hpr hempty hfind2
  have hk : 1 ≤ k := by
    rcases Nat.eq_zero_or_pos k with h0 | h0
    · subst h0
      simp only [ancestor, Option.some.injEq] at hanc
      exact absurd hanc.symm hne
    · exact h0
  refine ⟨osd_jail_del st pr, hset, hempty, ?_, ?_, rfl, ?_, k, q, lpr, hk, ?_, hne, hfind2, hq, ?_⟩
  · rw [hempty, hown]
    simp
  · intro a ha
    simp [osd_jail_del, Function.update, ha]
  · obtain ⟨e, out, hget, hmode⟩ := linux_prison_get_mode fuel _ pr q lpr req mode hreq hfind2
    rw [if_neg hne] at hmode
    exact ⟨e, out, hget, hmode⟩
  · rw [← ancestor_congr st (osd_jail_del st pr) rfl]
    exact hanc
  · intro j _ hj
    obtain ⟨a, ha1, ha2, ha3⟩ := hbelow j hj
    exact ⟨a, by rw [← ancestor_congr st (osd_jail_del st pr) rfl]; exact ha1, ha2, ha3⟩

/-- Prison 1 of `st_owned` owns a record; after a set with mode inherit its slot
is empty and it resolves to the root. -/
theorem linux_prison_set_inherit_witness :
    st_owned.linux_osd_jail_slot ≠ 0 ∧ 1 ≠ prison0 ∧
    st_owned.osd 1
      = some ⟨char_array 65 (bytes "Foo"), char_array 65 (bytes "3.10.0"), 5, 3010000⟩ ∧
    reaches_root st_owned 1 1 = true ∧ 1 < 2 ∧
    (⟨some 0, none, none, none⟩ : vfsoptlist).linux = some 0 ∧
    ∃ st2, linux_prison_set 65 32 2 st_owned 1 ⟨some JAIL_SYS_INHERIT, none, none, none⟩ 0
        = some (0, st2) ∧
      st2.osd 1 = none ∧ st_owned.osd 1 ≠ st2.osd 1 ∧
      (∀ q, q ≠ 1 → st2.osd q = st_owned.osd q) ∧
      st2.lprison0 = st_owned.lprison0 ∧
      (∃ e out, linux_prison_get 2 st2 1 ⟨some 0, none, none, none⟩ = some (e, out) ∧
        out.linux = some JAIL_SYS_INHERIT) ∧
      ∃ k q lpr, 1 ≤ k ∧ ancestor st_owned k 1 = some q ∧ q ≠ 1 ∧
        linux_find_prison 2 st2 1 = some (q, lpr) ∧
        ((q = prison0 ∧ lpr = st2.lprison0) ∨ (q ≠ prison0 ∧ st2.osd q = some lpr)) ∧
        ∀ j, 1 ≤ j → j < k →
          ∃ a, ancestor st_owned j 1 = some a ∧ a ≠ prison0 ∧ st2.osd a = none :=
  ⟨by decide, by decide, rfl, by decide, by decide, rfl,
    linux_prison_set_inherit 65 32 2 1 st_owned 1 0 _ ⟨some 0, none, none, none⟩ 0
      (by decide) (by decide) rfl (by decide) (by decide) rfl⟩

/-- A prison that is not the root and has an empty slot resolves, with one more
unit of fuel, to what its parent resolves to. -/
theorem linux_find_prison_child (fuel : Nat) (st : State) (child parent : Nat)
    (r : Nat × linux_prison)
    (hchild : child ≠ prison0) (hempty : st.osd child = none)
    (hparent : st.pr_parent child = some parent)
    (hfind : linux_find_prison fuel st parent = some r) :
    linux_find_prison (fuel + 1) st child = some r := by
  unfold linux_find_prison at hfind ⊢
  by_cases hslot : st.linux_osd_jail_slot = 0
  · rw [if_pos hslot] at hfind ⊢
    exact find_loop_mono st fuel (fuel + 1) prison0 r hfind (Nat.le_succ _)
  · rw [if_neg hslot] at hfind ⊢
    rw [find_loop_empty st fuel child hchild hempty]
    simp only [hparent]
    exact hfind

/-- C9 (as stated, it fails): prison 1 of `st_example` has an empty slot; a
`linux_prison_create` with an option set that has neither a mode nor a field
returns 0 and leaves a record, a copy of `lprison0`, in the slot. -/
theorem linux_prison_create_default_allocates :
    (1 : Nat) ≠ prison0 ∧ st_example.osd 1 = none ∧
    (linux_prison_create 5 st_example 1 ⟨none, none, none, none⟩ 0).map
        (fun r => (r.1, r.2.osd 1)) = some (0, some (lprison0 65)) := by
  decide

/-- C9 (amended): for a prison that is not the root and has an empty slot,
`linux_prison_create` leaves the slot empty when the option set carries mode
`JAIL_SYS_INHERIT`; with any other option set, one with neither a mode nor a
field among them, it returns what `osd_jail_set` returns and, when that is 0,
the slot holds a copy of the record the prison inherited, nothing else being
changed. -/
theorem linux_prison_create_slot (st : State) (d fuel pr osd_error : Nat) (opts : vfsoptlist)
    (hpr : pr ≠ prison0) (hempty : st.osd pr = none)
    (hreach : reaches_root st d pr = true) (hfuel : d < fuel) :
    (opts.linux = some JAIL_SYS_INHERIT →
      linux_prison_create fuel st pr opts osd_error = some (0, st)) ∧
    (opts.linux ≠ some JAIL_SYS_INHERIT →
      ∃ ppr lpr, linux_find_prison fuel st pr = some (ppr, lpr) ∧ ppr ≠ pr ∧
        linux_prison_create fuel st pr opts osd_error =
          some (if osd_error = 0 then
              (0, { st with osd := Function.update st.osd pr (some lpr) })
            else (osd_error, st))) := by
  constructor
  · intro h
    simp [linux_prison_create, h]
  · intro h
    obtain ⟨ppr, lpr, hfind⟩ := linux_find_prison_total st d fuel pr hreach hfuel
    have hne := linux_find_prison_ne fuel st pr ppr lpr hpr hempty hfind
    refine ⟨ppr, lpr, hfind, hne, ?_⟩
    unfold linux_prison_create
    rw [if_neg h, linux_alloc_prison_eq fuel st pr osd_error ppr lpr hfind, if_neg hne]
    by_cases he : osd_error = 0
    · simp [he]
    · simp [he]

/-- Prison 2 of `st_owned` keeps an empty slot when created with mode inherit
and gets a copy of the record of prison 1 when created with no option. -/
theorem linux_prison_create_slot_witness :
    (2 : Nat) ≠ prison0 ∧ st_owned.osd 2 = none ∧ reaches_root st_owned 2 2 = true ∧ 2 < 3 ∧
    linux_prison_create 3 st_owned 2 ⟨some JAIL_SYS_INHERIT, none, none, none⟩ 0
      = some (0, st_owned) ∧
    ∃ ppr lpr, linux_find_prison 3 st_owned 2 = some (ppr, lpr) ∧ ppr ≠ 2 ∧
      linux_prison_create 3 st_owned 2 ⟨none, none, none, none⟩ 0 =
        some (if 0 = 0 then
            (0, { st_owned with osd := Function.update st_owned.osd 2 (some lpr) })
          else (0, st_owned)) :=
  ⟨by decide, rfl, by decide, by decide,
    (linux_prison_create_slot st_owned 2 3 2 0 ⟨some JAIL_SYS_INHERIT, none, none, none⟩
      (by decide) rfl (by decide) (by decide)).1 rfl,
    (linux_prison_create_slot st_owned 2 3 2 0 ⟨none, none, none, none⟩
      (by decide) rfl (by decide) (by decide)).2 (by decide)⟩

/-- C10: a prison that is not the root, has an empty slot and is a child of
`parent` is created with `linux_prison_create`, whatever the option set; when
the call returns 0 (it does when `osd_jail_set` does), resolving the child
right afterwards gives a record equal to the record `parent` resolved to
before the call. -/
theorem linux_prison_create_inherits (st : State) (fuel child parent ppr osd_error : Nat)
    (lpr : linux_prison) (opts : vfsoptlist)
    (hchild : child ≠ prison0) (hempty : st.osd child = none)
    (hparent : st.pr_parent child = some parent)
    (hfind : linux_find_prison fuel st parent = some (ppr, lpr)) :
    (∃ st2, linux_prison_create (fuel + 1) st child opts 0 = some (0, st2)) ∧
    ∀ st2, linux_prison_create (fuel + 1) st child opts osd_error = some (0, st2) →
      ∃ q, linux_find_prison (fuel + 1) st2 child = some (q, lpr) := by
  have hfc := linux_find_prison_child fuel st child parent (ppr, lpr) hchild hempty hparent hfind
  have hne := linux_find_prison_ne (fuel + 1) st child ppr lpr hchild hempty hfc
  have halloc := fun e => linux_alloc_prison_eq (fuel + 1) st child e ppr lpr hfc
  constructor
  · by_cases h : opts.linux = some JAIL_SYS_INHERIT
    · exact ⟨st, by simp [linux_prison_create, h]⟩
    · exact ⟨_, by
        unfold linux_prison_create
        rw [if_neg h, halloc 0, if_neg hne, if_pos rfl]⟩
  · intro st2 hcreate
    unfold linux_prison_create at hcreate
    by_cases h : opts.linux = some JAIL_SYS_INHERIT
    · rw [if_pos h] at hcreate
      simp only [Option.some.injEq, Prod.mk.injEq, true_and] at hcreate
      subst hcreate
      exact ⟨ppr, hfc⟩
    · rw [if_neg h, halloc osd_error, if_neg hne] at hcreate
      by_cases he : osd_error = 0
      · rw [if_pos he] at hcreate
        simp only [Option.some.injEq, Prod.mk.injEq, true_and] at hcreate
        subst hcreate
        by_cases hslot : st.linux_osd_jail_slot = 0
        · refine ⟨prison0, ?_⟩
          have hl : lpr = st.lprison0 := by
            unfold linux_find_prison at hfc
            rw [if_pos hslot, find_loop_root] at hfc
            simp only [Option.some.injEq, Prod.mk.injEq] at hfc
            exact hfc.2.symm
          unfold linux_find_prison
          simp only [hslot, if_true]
          rw [find_loop_root, hl]
        · refine ⟨child, ?_⟩
          unfold linux_find_prison
          simp only [hslot, if_false]
          exact find_loop_owned _ fuel child lpr hchild (by simp)
      · rw [if_neg he] at hcreate
        simp only [Option.some.injEq, Prod.mk.injEq] at hcreate
        exact absurd hcreate.1 he

/-- In `st_owned` prison 1 has the release "3.10.0" and the number 3010000;
prison 2, created as its child with no option, resolves to a record with the
release "3.10.0" and the number 3010000, not to the built-in 2006016. -/
theorem linux_prison_create_inherits_witness :
    (2 : Nat) ≠ prison0 ∧ st_owned.osd 2 = none ∧ st_owned.pr_parent 2 = some 1 ∧
    linux_find_prison 2 st_owned 1
      = some (1, ⟨char_array 65 (bytes "Foo"), char_array 65 (bytes "3.10.0"), 5, 3010000⟩) ∧
    (∃ st2, linux_prison_create (2 + 1) st_owned 2 ⟨none, none, none, none⟩ 0
      = some (0, st2)) ∧
    ∀ st2, linux_prison_create (2 + 1) st_owned 2 ⟨none, none, none, none⟩ 0 = some (0, st2) →
      ∃ q, linux_find_prison (2 + 1) st2 2
        = some (q, ⟨char_array 65 (bytes "Foo"), char_array 65 (bytes "3.10.0"), 5, 3010000⟩) :=
  ⟨by decide, rfl, rfl, by decide,
    linux_prison_create_inherits st_owned 2 2 1 1 0 _ ⟨none, none, none, none⟩
      (by decide) rfl rfl (by decide)⟩

/-! ## More lemmas on `linux_prison_set` -/

/-- In case `JAIL_SYS_INHERIT`, `linux_prison_set` empties the slot. -/
theorem linux_prison_set_inherit_eq (M W fuel : Nat) (st : State) (pr osd_error : Nat)
    (opts : vfsoptlist) (hjsys : linux_prison_set_jsys opts = JAIL_SYS_INHERIT) :
    linux_prison_set M W fuel st pr opts osd_error = some (0, osd_jail_del st pr) := by
  unfold linux_prison_set
  simp only [hjsys, if_true]

/-- With any other mode and no field, `linux_prison_set` does nothing. -/
theorem linux_prison_set_other_eq (M W fuel : Nat) (st : State) (pr osd_error : Nat)
    (opts : vfsoptlist) (h1 : linux_prison_set_jsys opts ≠ JAIL_SYS_INHERIT)
    (h2 : linux_prison_set_jsys opts ≠ JAIL_SYS_NEW) :
    linux_prison_set M W fuel st pr opts osd_error = some (0, st) := by
  unfold linux_prison_set
  simp only [h1, h2, if_false]

/-- The field writes succeed when the release string, if there is one, is
accepted by the parser. -/
theorem linux_prison_set_fields_ok (M W : Nat) (opts : vfsoptlist) (lpr : linux_prison)
    (h : ∀ rel, opts.osrelease = some rel → (linux_map_osrel W rel 0).1 = 0) :
    (linux_prison_set_fields M W opts lpr).1 = 0 := by
  unfold linux_prison_set_fields
  cases hrel : opts.osrelease with
  | none => simp
  | some rel =>
    have h0 : (linux_map_osrel W rel lpr.pr_osrel).1 = 0 := by
      rw [linux_map_osrel_error_indep W rel lpr.pr_osrel 0]
      exact h rel hrel
    simp [h0]

/-- The field writes leave alone the fields that the option set does not give. -/
theorem linux_prison_set_fields_frame (M W : Nat) (opts : vfsoptlist) (lpr : linux_prison) :
    (opts.osname = none →
      (linux_prison_set_fields M W opts lpr).2.pr_osname = lpr.pr_osname) ∧
    (opts.osrelease = none →
      (linux_prison_set_fields M W opts lpr).2.pr_osrelease = lpr.pr_osrelease ∧
      (linux_prison_set_fields M W opts lpr).2.pr_osrel = lpr.pr_osrel) ∧
    (opts.oss_version = none →
      (linux_prison_set_fields M W opts lpr).2.pr_oss_version = lpr.pr_oss_version) := by
  unfold linux_prison_set_fields
  refine ⟨?_, ?_, ?_⟩
  · intro h
    cases hrel : opts.osrelease with
    | none => cases hv : opts.oss_version <;> simp [h]
    | some rel =>
      by_cases hm : (linux_map_osrel W rel lpr.pr_osrel).1 = 0
      · cases hv : opts.oss_version <;> simp [h, hm]
      · simp [hm]
  · intro h
    cases hn : opts.osname <;> cases hv : opts.oss_version <;> simp [h]
  · intro h
    cases hrel : opts.osrelease with
    | none => cases hn : opts.osname <;> simp [h]
    | some rel =>
      by_cases hm : (linux_map_osrel W rel lpr.pr_osrel).1 = 0
      · cases hn : opts.osname <;> simp [h, hm]
      · simp [hm]

/-- The fields the option set gives, as the field writes leave them when they
succeed. -/
theorem linux_prison_set_fields_given (M W : Nat) (opts : vfsoptlist) (lpr : linux_prison)
    (h : (linux_prison_set_fields M W opts lpr).1 = 0) :
    (∀ name, opts.osname = some name →
      (linux_prison_set_fields M W opts lpr).2.pr_osname = strlcpy lpr.pr_osname name M) ∧
    (∀ rel, opts.osrelease = some rel →
      (linux_map_osrel W rel lpr.pr_osrel).1 = 0 ∧
      (linux_prison_set_fields M W opts lpr).2.pr_osrelease
        = strlcpy lpr.pr_osrelease rel M ∧
      (linux_prison_set_fields M W opts lpr).2.pr_osrel
        = (linux_map_osrel W rel lpr.pr_osrel).2) ∧
    (∀ v, opts.oss_version = some v →
      (linux_prison_set_fields M W opts lpr).2.pr_oss_version = v) := by
  unfold linux_prison_set_fields at h ⊢
  cases hrel : opts.osrelease with
  | none =>
    refine ⟨?_, ?_, ?_⟩
    · intro name hn
      cases hv : opts.oss_version <;> simp [hn]
    · intro rel hr
      exact absurd hr (by simp)
    · intro v hv
      cases hn : opts.osname <;> simp [hv]
  | some rel =>
    by_cases hm : (linux_map_osrel W rel lpr.pr_osrel).1 = 0
    · refine ⟨?_, ?_, ?_⟩
      · intro name hn
        cases hv : opts.oss_version <;> simp [hn, hm]
      · intro rel2 hr
        simp only [Option.some.injEq] at hr
        subst hr
        cases hn : opts.osname <;> cases hv : opts.oss_version <;> simp [hm]
      · intro v hv
        cases hn : opts.osname <;> simp [hv, hm]
    · simp [hrel, hm] at h

theorem own_record_store (st : State) (pr : Nat) (lpr : linux_prison) :
    own_record (store_record st pr lpr) pr = some lpr := by
  by_cases h : pr = prison0
  · simp [own_record, store_record, h]
  · simp [own_record, store_record, h]

theorem store_record_frame (st : State) (pr : Nat) (lpr : linux_prison) :
    (pr ≠ prison0 → (store_record st pr lpr).lprison0 = st.lprison0) ∧
    (∀ q, q ≠ pr → (store_record st pr lpr).osd q = st.osd q) ∧
    (store_record st pr lpr).pr_parent = st.pr_parent ∧
    (store_record st pr lpr).linux_osd_jail_slot = st.linux_osd_jail_slot := by
  by_cases h : pr = prison0
  · simp [store_record, h]
  · refine ⟨fun _ => by simp [store_record, h], ?_, by simp [store_record, h],
      by simp [store_record, h]⟩
    intro q hq
    simp [store_record, h, Function.update, hq]

/-- A successful `linux_prison_set` in case `JAIL_SYS_NEW` is a write of the
record the field writes give, from the record the resolver returned, to the
prison, after at most the installation of a copy in its slot. -/
theorem linux_prison_set_new_ok (M W fuel : Nat) (st st2 : State) (pr osd_error ppr : Nat)
    (opts : vfsoptlist) (lpr : linux_prison)
    (hjsys : linux_prison_set_jsys opts = JAIL_SYS_NEW)
    (hfind : linux_find_prison fuel st pr = some (ppr, lpr))
    (hset : linux_prison_set M W fuel st pr opts osd_error = some (0, st2)) :
    (linux_prison_set_fields M W opts lpr).1 = 0 ∧
    ∃ st1 : State, st2 = store_record st1 pr (linux_prison_set_fields M W opts lpr).2 ∧
      st1.lprison0 = st.lprison0 ∧ (∀ q, q ≠ pr → st1.osd q = st.osd q) ∧
      st1.pr_parent = st.pr_parent ∧ st1.linux_osd_jail_slot = st.linux_osd_jail_slot := by
  rw [linux_prison_set_new_eq M W fuel st pr osd_error ppr opts lpr hjsys hfind] at hset
  by_cases h1 : ppr = pr
  · rw [if_pos h1] at hset
    simp only [Option.some.injEq, Prod.mk.injEq] at hset
    exact ⟨hset.1, st, hset.2.symm, rfl, fun _ _ => rfl, rfl, rfl⟩
  · rw [if_neg h1] at hset
    by_cases h2 : osd_error = 0
    · rw [if_pos h2] at hset
      simp only [Option.some.injEq, Prod.mk.injEq] at hset
      refine ⟨hset.1, { st with osd := Function.update st.osd pr (some lpr) }, hset.2.symm,
        rfl, ?_, rfl, rfl⟩
      intro q hq
      simp [Function.update, hq]
    · rw [if_neg h2] at hset
      simp only [Option.some.injEq, Prod.mk.injEq] at hset
      exact absurd hset.1 h2

/-! ## Validation in `linux_prison_check` and in `linux_prison_set` -/

/-- With a field in the option set, `linux_prison_set` is in case
`JAIL_SYS_NEW`, whatever the option `linux`. -/
theorem linux_prison_set_jsys_field (opts : vfsoptlist)
    (hfield : opts.osname ≠ none ∨ opts.osrelease ≠ none ∨ opts.oss_version ≠ none) :
    linux_prison_set_jsys opts = JAIL_SYS_NEW := by
  unfold linux_prison_set_jsys
  cases h1 : opts.osname <;> cases h2 : opts.osrelease <;> cases h3 : opts.oss_version <;>
    simp [h1, h2, h3] at hfield ⊢

/-- C11 (as stated, it fails): `linux_prison_check` rejects the mode 5 with
`EINVAL`, and `linux_prison_set` with the same option set returns 0;
`linux_prison_check` rejects a name of 65 bytes and its NUL with
`ENAMETOOLONG`, and `linux_prison_set` with the same option set returns 0 and
stores the first 64 bytes of the name. -/
theorem linux_prison_set_does_not_validate :
    linux_prison_check 65 32 ⟨some 5, none, none, none⟩ = EINVAL ∧
    (linux_prison_set 65 32 5 st_example 2 ⟨some 5, none, none, none⟩ 0).map (fun r => r.1)
      = some 0 ∧
    linux_prison_check 65 32 ⟨none, some (List.replicate 65 97 ++ [0]), none, none⟩
      = ENAMETOOLONG ∧
    (linux_prison_set 65 32 5 st_example 2
        ⟨none, some (List.replicate 65 97 ++ [0]), none, none⟩ 0).map
      (fun r => (r.1, (r.2.osd 2).map (fun l => cstr l.pr_osname)))
      = some (0, some (List.replicate 64 97)) := by
  decide

/-- C11 (amended): of the validations of `linux_prison_check`,
`linux_prison_set` repeats the parse of the release string only. With the
module registered and string options whose buffers hold a NUL: for an option
set whose release string the parser rejects, `linux_prison_check` returns an
error and `linux_prison_set` returns an error too, and `lprison0`, the slot of
every other prison and a record the prison already has in its slot are
unchanged. For an option set whose release string is absent or accepted by the
parser, `linux_prison_set` returns 0 when `osd_jail_set` does not fail, also
when `linux_prison_check` returns an error, as it does for a mode other than
`JAIL_SYS_NEW` and `JAIL_SYS_INHERIT` and for a name or release string whose
last byte is not NUL or that is longer than `LINUX_MAX_UTSNAME`: with such a
mode and no field `linux_prison_set` returns 0 and changes nothing, and after
a call that returned 0 the record of the prison holds, as name and as release
string, the first `LINUX_MAX_UTSNAME - 1` bytes of the string given. -/
theorem linux_prison_set_validation (M W fuel d : Nat) (st : State) (pr osd_error : Nat)
    (opts : vfsoptlist) (hslot : st.linux_osd_jail_slot ≠ 0)
    (hreach : reaches_root st d pr = true) (hfuel : d < fuel) :
    (∀ rel, opts.osrelease = some rel → 0 ∈ rel → (linux_map_osrel W rel 0).1 ≠ 0 →
      linux_prison_check M W opts ≠ 0 ∧
      ∃ err st2, linux_prison_set M W fuel st pr opts osd_error = some (err, st2) ∧ err ≠ 0 ∧
        st2.lprison0 = st.lprison0 ∧ (∀ q, q ≠ pr → st2.osd q = st.osd q) ∧
        (∀ r, st.osd pr = some r → st2.osd pr = some r)) ∧
    ((∀ name, opts.osname = some name → 0 ∈ name) →
      (∀ rel, opts.osrelease = some rel → 0 ∈ rel ∧ (linux_map_osrel W rel 0).1 = 0) →
      ∃ st2, linux_prison_set M W fuel st pr opts 0 = some (0, st2)) ∧
    ((∀ j, opts.linux = some j → j ≠ JAIL_SYS_NEW → j ≠ JAIL_SYS_INHERIT →
        linux_prison_check M W opts ≠ 0) ∧
      (∀ name, opts.osname = some name → name.getLast? ≠ some 0 ∨ M < name.length →
        linux_prison_check M W opts ≠ 0) ∧
      (∀ rel, opts.osrelease = some rel → rel.getLast? ≠ some 0 ∨ M < rel.length →
        linux_prison_check M W opts ≠ 0)) ∧
    (∀ j, opts.linux = some j → j ≠ JAIL_SYS_NEW → j ≠ JAIL_SYS_INHERIT →
      opts.osname = none → opts.osrelease = none → opts.oss_version = none →
      linux_prison_set M W fuel st pr opts osd_error = some (0, st)) ∧
    (∀ st2, linux_prison_set M W fuel st pr opts osd_error = some (0, st2) → M ≠ 0 →
      (∀ name, opts.osname = some name → 0 ∈ name →
        ∃ lpr, own_record st2 pr = some lpr ∧
          cstr lpr.pr_osname = (cstr name).take (M - 1)) ∧
      (∀ rel, opts.osrelease = some rel → 0 ∈ rel →
        ∃ lpr, own_record st2 pr = some lpr ∧
          cstr lpr.pr_osrelease = (cstr rel).take (M - 1))) := by
  obtain ⟨ppr, lpr, hfind⟩ := linux_find_prison_total st d fuel pr hreach hfuel
  have hown := linux_find_prison_owner fuel st pr ppr lpr hfind
  refine ⟨?_, ?_, ⟨?_, ?_, ?_⟩, ?_, ?_⟩
  · intro rel hrel _ hbad
    refine ⟨fun hc => hbad ((linux_prison_check_ok M W opts hc).2.2 rel hrel).2.2.2, ?_⟩
    have hjsys := linux_prison_set_jsys_osrelease opts rel hrel
    have hfields := linux_prison_set_fields_bad M W opts lpr rel hrel hbad
    have hset := linux_prison_set_new_eq M W fuel st pr osd_error ppr opts lpr hjsys hfind
    rw [hfields] at hset
    by_cases h1 : ppr = pr
    · rw [if_pos h1] at hset
      subst h1
      rw [store_record_self st ppr lpr hown] at hset
      exact ⟨EINVAL, st, hset, by decide, rfl, fun _ _ => rfl, fun _ h => h⟩
    · rw [if_neg h1] at hset
      have hpr : pr ≠ prison0 := by
        intro h0
        subst h0
        exact h1 (linux_find_prison_root fuel st ppr lpr hfind)
      have hempty : st.osd pr = none := by
        cases ho : st.osd pr with
        | none => rfl
        | some l =>
          obtain ⟨f, rfl⟩ : ∃ f, fuel = f + 1 := ⟨fuel - 1, by omega⟩
          unfold linux_find_prison at hfind
          rw [if_neg hslot, find_loop_owned st f pr l hpr ho] at hfind
          simp only [Option.some.injEq, Prod.mk.injEq] at hfind
          exact absurd hfind.1.symm h1
      by_cases h2 : osd_error = 0
      · rw [if_pos h2] at hset
        refine ⟨EINVAL, _, hset, by decide, ?_, ?_, ?_⟩
        · exact (store_record_frame _ pr lpr).1 hpr
        · intro q hq
          rw [(store_record_frame _ pr lpr).2.1 q hq]
          simp [Function.update, hq]
        · intro r hr
          rw [hempty] at hr
          exact absurd hr (by simp)
      · rw [if_neg h2] at hset
        exact ⟨osd_error, st, hset, h2, rfl, fun _ _ => rfl, fun _ h => h⟩
  · intro _ hok
    have hfields := linux_prison_set_fields_ok M W opts lpr (fun rel hrel => (hok rel hrel).2)
    by_cases hi : linux_prison_set_jsys opts = JAIL_SYS_INHERIT
    · exact ⟨_, linux_prison_set_inherit_eq M W fuel st pr 0 opts hi⟩
    · by_cases hn : linux_prison_set_jsys opts = JAIL_SYS_NEW
      · rw [linux_prison_set_new_eq M W fuel st pr 0 ppr opts lpr hn hfind, hfields]
        by_cases h1 : ppr = pr
        · rw [if_pos h1]
          exact ⟨_, rfl⟩
        · rw [if_neg h1, if_pos rfl]
          exact ⟨_, rfl⟩
      · exact ⟨_, linux_prison_set_other_eq M W fuel st pr 0 opts hi hn⟩
  · intro j hj h1 h2 hc
    rcases (linux_prison_check_ok M W opts hc).1 j hj with h | h
    · exact h1 h
    · exact h2 h
  · intro name hname hbad hc
    obtain ⟨_, hlast, hlen⟩ := (linux_prison_check_ok M W opts hc).2.1 name hname
    rcases hbad with h | h
    · exact h hlast
    · omega
  · intro rel hrel hbad hc
    obtain ⟨_, hlast, hlen, _⟩ := (linux_prison_check_ok M W opts hc).2.2 rel hrel
    rcases hbad with h | h
    · exact h hlast
    · omega
  · intro j hj h1 h2 hn hr hv
    have hjs : linux_prison_set_jsys opts = j := by
      simp [linux_prison_set_jsys, hj, hn, hr, hv]
    exact linux_prison_set_other_eq M W fuel st pr osd_error opts
      (by rw [hjs]; exact h2) (by rw [hjs]; exact h1)
  · intro st2 hset hM
    constructor
    · intro name hname _
      have hjsys := linux_prison_set_jsys_field opts (Or.inl (by rw [hname]; simp))
      obtain ⟨hf, st1, rfl, _, _, _, _⟩ :=
        linux_prison_set_new_ok M W fuel st st2 pr osd_error ppr opts lpr hjsys hfind hset
      obtain ⟨g1, _, _⟩ := linux_prison_set_fields_given M W opts lpr hf
      exact ⟨_, own_record_store st1 pr _, by rw [g1 name hname, cstr_strlcpy_take _ _ _ hM]⟩
    · intro rel hrel _
      have hjsys := linux_prison_set_jsys_osrelease opts rel hrel
      obtain ⟨hf, st1, rfl, _, _, _, _⟩ :=
        linux_prison_set_new_ok M W fuel st st2 pr osd_error ppr opts lpr hjsys hfind hset
      obtain ⟨_, g2, _⟩ := linux_prison_set_fields_given M W opts lpr hf
      exact ⟨_, own_record_store st1 pr _,
        by rw [(g2 rel hrel).2.1, cstr_strlcpy_take _ _ _ hM]⟩

/-- On prison 1 of `st_owned` a set with the release "2.6" fails, as the check
does; a set with the mode 5, which the check rejects, returns 0 and changes
nothing; a set with a name of 65 bytes and its NUL, which the check rejects,
returns 0 when `osd_jail_set` does not fail, and after it the record of the
prison holds the first 64 bytes of the name. -/
theorem linux_prison_set_validation_witness :
    st_owned.linux_osd_jail_slot ≠ 0 ∧ reaches_root st_owned 1 1 = true ∧ 1 < 2 ∧
    (linux_map_osrel 32 (bytes "2.6\x00") 0).1 ≠ 0 ∧
    (linux_prison_check 65 32 ⟨none, none, some (bytes "2.6\x00"), none⟩ ≠ 0 ∧
      ∃ err st2, linux_prison_set 65 32 2 st_owned 1 ⟨none, none, some (bytes "2.6\x00"), none⟩ 0
          = some (err, st2) ∧ err ≠ 0 ∧
        st2.lprison0 = st_owned.lprison0 ∧ (∀ q, q ≠ 1 → st2.osd q = st_owned.osd q) ∧
        (∀ r, st_owned.osd 1 = some r → st2.osd 1 = some r)) ∧
    linux_prison_check 65 32 ⟨some 5, none, none, none⟩ ≠ 0 ∧
    linux_prison_set 65 32 2 st_owned 1 ⟨some 5, none, none, none⟩ 0 = some (0, st_owned) ∧
    linux_prison_check 65 32 ⟨none, some (List.replicate 65 97 ++ [0]), none, none⟩ ≠ 0 ∧
    (∃ st2, linux_prison_set 65 32 2 st_owned 1
        ⟨none, some (List.replicate 65 97 ++ [0]), none, none⟩ 0 = some (0, st2)) ∧
    (∀ st2, linux_prison_set 65 32 2 st_owned 1
        ⟨none, some (List.replicate 65 97 ++ [0]), none, none⟩ 0 = some (0, st2) →
      ∃ lpr, own_record st2 1 = some lpr ∧ cstr lpr.pr_osname = List.replicate 64 97) :=
  ⟨by decide, by decide, by decide, by decide,
    (linux_prison_set_validation 65 32 2 1 st_owned 1 0 ⟨none, none, some (bytes "2.6\x00"), none⟩
      (by decide) (by decide) (by decide)).1 (bytes "2.6\x00") rfl (by decide) (by decide),
    (linux_prison_set_validation 65 32 2 1 st_owned 1 0 ⟨some 5, none, none, none⟩
      (by decide) (by decide) (by decide)).2.2.1.1 5 rfl (by decide) (by decide),
    (linux_prison_set_validation 65 32 2 1 st_owned 1 0 ⟨some 5, none, none, none⟩
      (by decide) (by decide) (by decide)).2.2.2.1 5 rfl (by decide) (by decide) rfl rfl rfl,
    (linux_prison_set_validation 65 32 2 1 st_owned 1 0
      ⟨none, some (List.replicate 65 97 ++ [0]), none, none⟩
      (by decide) (by decide) (by decide)).2.2.1.2.1 (List.replicate 65 97 ++ [0]) rfl
      (Or.inr (by decide)),
    (linux_prison_set_validation 65 32 2 1 st_owned 1 0
      ⟨none, some (List.replicate 65 97 ++ [0]), none, none⟩
      (by decide) (by decide) (by decide)).2.1
      (fun name h => Option.some.inj h ▸ by decide) (fun rel h => absurd h (by simp)),
    fun st2 hset =>
      (fun ⟨lpr, h1, h2⟩ => ⟨lpr, h1, h2.trans (by decide)⟩)
        (((linux_prison_set_validation 65 32 2 1 st_owned 1 0
          ⟨none, some (List.replicate 65 97 ++ [0]), none, none⟩
          (by decide) (by decide) (by decide)).2.2.2.2 st2 hset (by decide)).1
          (List.replicate 65 97 ++ [0]) rfl (by decide))⟩

/-- C12: for an option set on which `linux_prison_check` returns 0, the field
writes of `linux_prison_set` never fail (the release string is accepted again),
and `linux_prison_set`, given enough fuel, returns 0 unless it is in case
`JAIL_SYS_NEW`, the resolver returns another prison and `osd_jail_set` fails
for the new record; it then returns that error and the state is unchanged. -/
theorem linux_prison_set_after_check (M W fuel d : Nat) (st : State) (pr osd_error : Nat)
    (opts : vfsoptlist) (hcheck : linux_prison_check M W opts = 0)
    (hreach : reaches_root st d pr = true) (hfuel : d < fuel) :
    (∀ lpr, (linux_prison_set_fields M W opts lpr).1 = 0) ∧
    ∃ err st2, linux_prison_set M W fuel st pr opts osd_error = some (err, st2) ∧
      (err = 0 ∨ (err = osd_error ∧ osd_error ≠ 0 ∧ st2 = st ∧
        linux_prison_set_jsys opts = JAIL_SYS_NEW ∧
        ∃ ppr lpr, linux_find_prison fuel st pr = some (ppr, lpr) ∧ ppr ≠ pr)) ∧
      (osd_error = 0 → err = 0) := by
  have hok : ∀ rel, opts.osrelease = some rel → (linux_map_osrel W rel 0).1 = 0 :=
    fun rel hrel => ((linux_prison_check_ok M W opts hcheck).2.2 rel hrel).2.2.2
  refine ⟨fun lpr => linux_prison_set_fields_ok M W opts lpr hok, ?_⟩
  obtain ⟨ppr, lpr, hfind⟩ := linux_find_prison_total st d fuel pr hreach hfuel
  have hfields := linux_prison_set_fields_ok M W opts lpr hok
  by_cases hi : linux_prison_set_jsys opts = JAIL_SYS_INHERIT
  · exact ⟨0, _, linux_prison_set_inherit_eq M W fuel st pr osd_error opts hi, Or.inl rfl,
      fun _ => rfl⟩
  · by_cases hn : linux_prison_set_jsys opts = JAIL_SYS_NEW
    · rw [linux_prison_set_new_eq M W fuel st pr osd_error ppr opts lpr hn hfind, hfields]
      by_cases h1 : ppr = pr
      · rw [if_pos h1]
        exact ⟨0, _, rfl, Or.inl rfl, fun _ => rfl⟩
      · rw [if_neg h1]
        by_cases h2 : osd_error = 0
        · rw [if_pos h2]
          exact ⟨0, _, rfl, Or.inl rfl, fun _ => rfl⟩
        · rw [if_neg h2]
          exact ⟨osd_error, st, rfl, Or.inr ⟨rfl, h2, rfl, hn, ppr, lpr, hfind, h1⟩,
            fun h => absurd h h2⟩
    · exact ⟨0, _, linux_prison_set_other_eq M W fuel st pr osd_error opts hi hn, Or.inl rfl,
        fun _ => rfl⟩

/-- An accepted option set with name "Foo", release "3.10.0" and version 5 is
set on prison 2 of `st_example`: the call returns 0 when `osd_jail_set` does. -/
theorem linux_prison_set_after_check_witness :
    linux_prison_check 65 32
      ⟨none, some (bytes "Foo" ++ [0]), some (bytes "3.10.0" ++ [0]), some 5⟩ = 0 ∧
    reaches_root st_example 2 2 = true ∧ 2 < 3 ∧
    (∀ lpr, (linux_prison_set_fields 65 32
      ⟨none, some (bytes "Foo" ++ [0]), some (bytes "3.10.0" ++ [0]), some 5⟩ lpr).1 = 0) ∧
    ∃ err st2, linux_prison_set 65 32 3 st_example 2
        ⟨none, some (bytes "Foo" ++ [0]), some (bytes "3.10.0" ++ [0]), some 5⟩ 0
          = some (err, st2) ∧
      (err = 0 ∨ (err = 0 ∧ 0 ≠ 0 ∧ st2 = st_example ∧
        linux_prison_set_jsys
          ⟨none, some (bytes "Foo" ++ [0]), some (bytes "3.10.0" ++ [0]), some 5⟩
            = JAIL_SYS_NEW ∧
        ∃ ppr lpr, linux_find_prison 3 st_example 2 = some (ppr, lpr) ∧ ppr ≠ 2)) ∧
      (0 = 0 → err = 0) :=
  ⟨by decide, by decide, by decide,
    linux_prison_set_after_check 65 32 3 2 st_example 2 0
      ⟨none, some (bytes "Foo" ++ [0]), some (bytes "3.10.0" ++ [0]), some 5⟩
      (by decide) (by decide) (by decide)⟩

/-- C13: when `osd_jail_set` fails while `linux_prison_set` (in case
`JAIL_SYS_NEW`) or `linux_prison_create` (without mode `JAIL_SYS_INHERIT`) is
giving a record to a prison that is not the root and has an empty slot, the
call returns the error of `osd_jail_set` and the state is the state before the
call: the slot is still empty and no record has changed. -/
theorem linux_alloc_failure_changes_nothing (M W fuel d : Nat) (st : State)
    (pr osd_error : Nat) (opts : vfsoptlist)
    (hpr : pr ≠ prison0) (hempty : st.osd pr = none) (herr : osd_error ≠ 0)
    (hreach : reaches_root st d pr = true) (hfuel : d < fuel) :
    (linux_prison_set_jsys opts = JAIL_SYS_NEW →
      linux_prison_set M W fuel st pr opts osd_error = some (osd_error, st)) ∧
    (opts.linux ≠ some JAIL_SYS_INHERIT →
      linux_prison_create fuel st pr opts osd_error = some (osd_error, st)) := by
  obtain ⟨ppr, lpr, hfind⟩ := linux_find_prison_total st d fuel pr hreach hfuel
  have hne := linux_find_prison_ne fuel st pr ppr lpr hpr hempty hfind
  constructor
  · intro hn
    rw [linux_prison_set_new_eq M W fuel st pr osd_error ppr opts lpr hn hfind, if_neg hne,
      if_neg herr]
  · intro hi
    unfold linux_prison_create
    rw [if_neg hi, linux_alloc_prison_eq fuel st pr osd_error ppr lpr hfind, if_neg hne,
      if_neg herr]

/-- On prison 2 of `st_example`, whose slot is empty, a set of the OSS version
and a plain create both return the error 12 of `osd_jail_set` and leave the
state as it was. -/
theorem linux_alloc_failure_changes_nothing_witness :
    (2 : Nat) ≠ prison0 ∧ st_example.osd 2 = none ∧ (12 : Nat) ≠ 0 ∧
    reaches_root st_example 2 2 = true ∧ 2 < 3 ∧
    linux_prison_set_jsys ⟨none, none, none, some 5⟩ = JAIL_SYS_NEW ∧
    linux_prison_set 65 32 3 st_example 2 ⟨none, none, none, some 5⟩ 12
      = some (12, st_example) ∧
    (⟨none, none, none, some 5⟩ : vfsoptlist).linux ≠ some JAIL_SYS_INHERIT ∧
    linux_prison_create 3 st_example 2 ⟨none, none, none, some 5⟩ 12 = some (12, st_example) :=
  ⟨by decide, rfl, by decide, by decide, by decide, by decide,
    (linux_alloc_failure_changes_nothing 65 32 3 2 st_example 2 12 ⟨none, none, none, some 5⟩
      (by decide) rfl (by decide) (by decide) (by decide)).1 (by decide),
    by decide,
    (linux_alloc_failure_changes_nothing 65 32 3 2 st_example 2 12 ⟨none, none, none, some 5⟩
      (by decide) rfl (by decide) (by decide) (by decide)).2 (by decide)⟩

/-! ## What `linux_prison_set` stores -/

/-- The resolver returns nothing without fuel. -/
theorem linux_find_prison_fuel_pos (fuel : Nat) (st : State) (pr : Nat)
    (r : Nat × linux_prison) (h : linux_find_prison fuel st pr = some r) : 0 < fuel := by
  rcases Nat.eq_zero_or_pos fuel with h0 | h0
  · subst h0
    simp [linux_find_prison, find_loop] at h
  · exact h0

/-- A successful `linux_prison_set` in case `JAIL_SYS_NEW` has resolved the
prison. -/
theorem linux_prison_set_new_find (M W fuel : Nat) (st : State) (pr osd_error : Nat)
    (opts : vfsoptlist) (r : Nat × State)
    (hjsys : linux_prison_set_jsys opts = JAIL_SYS_NEW)
    (hset : linux_prison_set M W fuel st pr opts osd_error = some r) :
    ∃ ppr lpr, linux_find_prison fuel st pr = some (ppr, lpr) := by
  cases hfind : linux_find_prison fuel st pr with
  | none =>
    simp [linux_prison_set, hjsys, JAIL_SYS_NEW, JAIL_SYS_INHERIT, linux_alloc_prison,
      hfind] at hset
  | some x => exact ⟨x.1, x.2, rfl⟩

/-- A buffer that holds a NUL holds a C string shorter than itself. -/
theorem strlen_lt_of_nul (buf : List Nat) (h : 0 ∈ buf) : strlen buf < buf.length := by
  induction buf with
  | nil => simp at h
  | cons a t ih =>
    by_cases ha : a = 0
    · subst ha
      simp [strlen, cstr]
    · have ht : 0 ∈ t := by
        rcases List.mem_cons.1 h with h0 | h0
        · exact absurd h0.symm ha
        · exact h0
      have := ih ht
      simp only [strlen, cstr, List.takeWhile_cons, bne_iff_ne, ne_eq, ha, not_false_eq_true,
        decide_True, if_true, List.length_cons] at this ⊢
      omega

/-- C14 (as stated, it fails): the release string made of 59 zeros and "2.6.16",
65 bytes long, is accepted by the parser with the number 2006016; after a
successful `linux_prison_set` with mode new and this release on prison 2 of
`st_example`, with `LINUX_MAX_UTSNAME` 65, the record of the prison has the
number 2006016 and, as its release string, the first 64 bytes only. -/
theorem linux_prison_set_truncates_release :
    linux_map_osrel 32 (List.replicate 59 48 ++ bytes "2.6.16" ++ [0]) 0 = (0, 2006016) ∧
    (linux_prison_set 65 32 5 st_example 2
        ⟨some JAIL_SYS_NEW, none, some (List.replicate 59 48 ++ bytes "2.6.16" ++ [0]), none⟩
        0).map
      (fun r => (r.1, (r.2.osd 2).map (fun l => (cstr l.pr_osrelease, l.pr_osrel))))
      = some (0, some (List.replicate 59 48 ++ bytes "2.6.1", 2006016)) := by
  decide

/-- C14 (amended): with the module registered, for a release string, in a
buffer that holds a NUL, that the parser accepts with the number `v`, after a
successful `linux_prison_set` with that release the record the prison owns
holds the number `v`, and `linux_kernver` of a thread of the prison returns
`v`; as release string the record holds the first `LINUX_MAX_UTSNAME - 1`
bytes of the string given, which is the whole string when it is shorter than
`LINUX_MAX_UTSNAME`. -/
theorem linux_prison_set_release (M W fuel : Nat) (st st2 : State) (pr osd_error : Nat)
    (opts : vfsoptlist) (rel : List Nat) (v : Int)
    (hslot : st.linux_osd_jail_slot ≠ 0)
    (hrel : opts.osrelease = some rel) (hnul : 0 ∈ rel)
    (hparse : linux_map_osrel W rel 0 = (0, v))
    (hset : linux_prison_set M W fuel st pr opts osd_error = some (0, st2)) :
    ∃ lpr, own_record st2 pr = some lpr ∧
      lpr.pr_osrel = v ∧ linux_kernver fuel st2 pr = some v ∧
      (M ≠ 0 → cstr lpr.pr_osrelease = (cstr rel).take (M - 1)) ∧
      (strlen rel < M → cstr lpr.pr_osrelease = cstr rel) := by
  have _hnul := hnul
  have hjsys := linux_prison_set_jsys_osrelease opts rel hrel
  obtain ⟨ppr, lpr, hfind⟩ := linux_prison_set_new_find M W fuel st pr osd_error opts _ hjsys hset
  have hfuel := linux_find_prison_fuel_pos fuel st pr _ hfind
  obtain ⟨hf, st1, rfl, _, _, _, hs1⟩ :=
    linux_prison_set_new_ok M W fuel st st2 pr osd_error ppr opts lpr hjsys hfind hset
  obtain ⟨_, hgiven, _⟩ := linux_prison_set_fields_given M W opts lpr hf
  obtain ⟨_, hstr, hnum⟩ := hgiven rel hrel
  have hv : (linux_map_osrel W rel lpr.pr_osrel).2 = v := by
    rw [linux_map_osrel_ok_indep W rel 0 lpr.pr_osrel (by rw [hparse]), hparse]
  have hfind2 := linux_find_prison_store fuel st1 pr (linux_prison_set_fields M W opts lpr).2
    (by rw [hs1]; exact hslot) hfuel
  refine ⟨_, own_record_store st1 pr _, ?_, ?_, ?_, ?_⟩
  · rw [hnum, hv]
  · unfold linux_kernver
    rw [hfind2]
    simp only [hnum, hv]
  · intro hM
    rw [hstr, cstr_strlcpy_take _ _ _ hM]
  · intro hlen
    rw [hstr, cstr_strlcpy _ _ _ hlen]

/-- After a set with the release of 59 zeros and "2.6.16", 65 bytes and a NUL,
on prison 2 of `st_example`, with `LINUX_MAX_UTSNAME` 65, the record of the
prison holds the number 2006016, which `linux_kernver` returns, and the first
64 bytes of the string; after a set with the release "2.6.16" it holds 2006016
and the whole string. -/
theorem linux_prison_set_release_witness :
    st_example.linux_osd_jail_slot ≠ 0 ∧
    0 ∈ List.replicate 59 48 ++ bytes "2.6.16" ++ [0] ∧
    linux_map_osrel 32 (List.replicate 59 48 ++ bytes "2.6.16" ++ [0]) 0 = (0, 2006016) ∧
    (∃ st2, linux_prison_set 65 32 3 st_example 2
        ⟨some JAIL_SYS_NEW, none, some (List.replicate 59 48 ++ bytes "2.6.16" ++ [0]), none⟩ 0
      = some (0, st2)) ∧
    (∀ st2, linux_prison_set 65 32 3 st_example 2
        ⟨some JAIL_SYS_NEW, none, some (List.replicate 59 48 ++ bytes "2.6.16" ++ [0]), none⟩ 0
      = some (0, st2) →
      ∃ lpr, own_record st2 2 = some lpr ∧ lpr.pr_osrel = 2006016 ∧
        linux_kernver 3 st2 2 = some 2006016 ∧
        cstr lpr.pr_osrelease = List.replicate 59 48 ++ bytes "2.6.1") ∧
    linux_map_osrel 32 (bytes "2.6.16" ++ [0]) 0 = (0, 2006016) ∧
    (∃ st2, linux_prison_set 65 32 3 st_example 2
        ⟨some JAIL_SYS_NEW, none, some (bytes "2.6.16" ++ [0]), none⟩ 0 = some (0, st2)) ∧
    ∀ st2, linux_prison_set 65 32 3 st_example 2
        ⟨some JAIL_SYS_NEW, none, some (bytes "2.6.16" ++ [0]), none⟩ 0 = some (0, st2) →
      ∃ lpr, own_record st2 2 = some lpr ∧ lpr.pr_osrel = 2006016 ∧
        linux_kernver 3 st2 2 = some 2006016 ∧ cstr lpr.pr_osrelease = bytes "2.6.16" :=
  ⟨by decide, by decide, by decide, ⟨_, rfl⟩,
    fun st2 hset =>
      (fun ⟨lpr, h1, h2, h3, h4, _⟩ => ⟨lpr, h1, h2, h3, (h4 (by decide)).trans (by decide)⟩)
        (linux_prison_set_release 65 32 3 st_example st2 2 0
          ⟨some JAIL_SYS_NEW, none, some (List.replicate 59 48 ++ bytes "2.6.16" ++ [0]), none⟩
          (List.replicate 59 48 ++ bytes "2.6.16" ++ [0]) 2006016
          (by decide) rfl (by decide) (by decide) hset),
    by decide, ⟨_, rfl⟩,
    fun st2 hset =>
      (fun ⟨lpr, h1, h2, h3, _, h5⟩ => ⟨lpr, h1, h2, h3, (h5 (by decide)).trans (by decide)⟩)
        (linux_prison_set_release 65 32 3 st_example st2 2 0
          ⟨some JAIL_SYS_NEW, none, some (bytes "2.6.16" ++ [0]), none⟩
          (bytes "2.6.16" ++ [0]) 2006016
          (by decide) rfl (by decide) (by decide) hset)⟩

/-- C15: for a name that ends in a NUL, given as the only option,
`linux_prison_check` returns `ENAMETOOLONG` exactly when the length of the
name, NUL included, is above `LINUX_MAX_UTSNAME`, and 0 otherwise: 0 at the
length `LINUX_MAX_UTSNAME` and `ENAMETOOLONG` one byte above. A name that the
check accepts is stored whole by `linux_prison_set`, which succeeds when
`osd_jail_set` does: the record of the prison then holds the same C string. -/
theorem linux_prison_check_name_length (M W : Nat) (name : List Nat)
    (hterm : name.getLast? = some 0) :
    linux_prison_check M W ⟨none, some name, none, none⟩
      = (if name.length > M then ENAMETOOLONG else 0) ∧
    (name.length = M → linux_prison_check M W ⟨none, some name, none, none⟩ = 0) ∧
    (name.length = M + 1 →
      linux_prison_check M W ⟨none, some name, none, none⟩ = ENAMETOOLONG) ∧
    (linux_prison_check M W ⟨none, some name, none, none⟩ = 0 →
      ∀ fuel d st pr, reaches_root st d pr = true → d < fuel →
        ∃ st2 lpr, linux_prison_set M W fuel st pr ⟨none, some name, none, none⟩ 0
            = some (0, st2) ∧
          own_record st2 pr = some lpr ∧ cstr lpr.pr_osname = cstr name) := by
  have hmem : 0 ∈ name := List.mem_of_mem_getLast? hterm
  have hlen : name.length ≠ 0 := by
    intro h
    rw [List.length_eq_zero.1 h] at hmem
    simp at hmem
  have hc1 : ¬ (name.length = 0 ∨ name.getLast? ≠ some 0) := by
    push_neg
    exact ⟨hlen, hterm⟩
  have hcheck : linux_prison_check M W ⟨none, some name, none, none⟩
      = (if name.length > M then ENAMETOOLONG else 0) := by
    unfold linux_prison_check
    simp only [if_neg hc1]
    by_cases hgt : name.length > M
    · simp [hgt, ENAMETOOLONG]
    · simp [hgt]
  refine ⟨hcheck, ?_, ?_, ?_⟩
  · intro h
    rw [hcheck, if_neg (by omega)]
  · intro h
    rw [hcheck, if_pos (by omega)]
  · intro h0 fuel d st pr hreach hfuel
    have hle : name.length ≤ M := by
      by_contra hgt
      rw [hcheck, if_pos (by omega)] at h0
      exact absurd h0 (by decide)
    have hstr : strlen name < M := lt_of_lt_of_le (strlen_lt_of_nul name hmem) hle
    obtain ⟨ppr, lpr, hfind⟩ := linux_find_prison_total st d fuel pr hreach hfuel
    have hjsys : linux_prison_set_jsys ⟨none, some name, none, none⟩ = JAIL_SYS_NEW := by
      simp [linux_prison_set_jsys]
    have hok : ∀ rel, (⟨none, some name, none, none⟩ : vfsoptlist).osrelease = some rel →
        (linux_map_osrel W rel 0).1 = 0 := fun rel hr => absurd hr (by simp)
    have hf := linux_prison_set_fields_ok M W ⟨none, some name, none, none⟩ lpr hok
    have hgiven := (linux_prison_set_fields_given M W ⟨none, some name, none, none⟩ lpr hf).1
      name rfl
    have hset := linux_prison_set_new_eq M W fuel st pr 0 ppr ⟨none, some name, none, none⟩ lpr
      hjsys hfind
    rw [hf] at hset
    by_cases h1 : ppr = pr
    · rw [if_pos h1] at hset
      exact ⟨_, _, hset, own_record_store _ pr _, by rw [hgiven, cstr_strlcpy _ _ _ hstr]⟩
    · rw [if_neg h1, if_pos rfl] at hset
      exact ⟨_, _, hset, own_record_store _ pr _, by rw [hgiven, cstr_strlcpy _ _ _ hstr]⟩

/-- With `LINUX_MAX_UTSNAME` 65, a name of 64 bytes and its NUL passes the check
and is stored whole. -/
theorem linux_prison_check_name_length_witness :
    (List.replicate 64 97 ++ [0]).getLast? = some 0 ∧
    linux_prison_check 65 32 ⟨none, some (List.replicate 64 97 ++ [0]), none, none⟩
      = (if (List.replicate 64 97 ++ [0]).length > 65 then ENAMETOOLONG else 0) ∧
    ((List.replicate 64 97 ++ [0]).length = 65 →
      linux_prison_check 65 32 ⟨none, some (List.replicate 64 97 ++ [0]), none, none⟩ = 0) ∧
    ((List.replicate 64 97 ++ [0]).length = 65 + 1 →
      linux_prison_check 65 32 ⟨none, some (List.replicate 64 97 ++ [0]), none, none⟩
        = ENAMETOOLONG) ∧
    (linux_prison_check 65 32 ⟨none, some (List.replicate 64 97 ++ [0]), none, none⟩ = 0 →
      ∀ fuel d st pr, reaches_root st d pr = true → d < fuel →
        ∃ st2 lpr, linux_prison_set 65 32 fuel st pr
            ⟨none, some (List.replicate 64 97 ++ [0]), none, none⟩ 0 = some (0, st2) ∧
          own_record st2 pr = some lpr ∧
          cstr lpr.pr_osname = cstr (List.replicate 64 97 ++ [0])) :=
  ⟨by decide, linux_prison_check_name_length 65 32 (List.replicate 64 97 ++ [0]) (by decide)⟩

/-- C16: for an option set that `linux_prison_check` accepts and that puts
`linux_prison_set` in case `JAIL_SYS_NEW`, the call succeeds when
`osd_jail_set` does, and after a successful call the record the prison owns has,
for the name, the release string with its number and the OSS version, the
value of the record the resolver returned before the call wherever the option
set does not give the field; `lprison0` (for a prison other than the root) and
the slot of every other prison are unchanged. -/
theorem linux_prison_set_frame (M W fuel : Nat) (st : State) (pr ppr : Nat)
    (opts : vfsoptlist) (lpr : linux_prison)
    (hcheck : linux_prison_check M W opts = 0)
    (hjsys : linux_prison_set_jsys opts = JAIL_SYS_NEW)
    (hfind : linux_find_prison fuel st pr = some (ppr, lpr)) :
    (∃ st2, linux_prison_set M W fuel st pr opts 0 = some (0, st2)) ∧
    ∀ osd_error st2, linux_prison_set M W fuel st pr opts osd_error = some (0, st2) →
      ∃ lpr2, own_record st2 pr = some lpr2 ∧
        (opts.osname = none → lpr2.pr_osname = lpr.pr_osname) ∧
        (opts.osrelease = none →
          lpr2.pr_osrelease = lpr.pr_osrelease ∧ lpr2.pr_osrel = lpr.pr_osrel) ∧
        (opts.oss_version = none → lpr2.pr_oss_version = lpr.pr_oss_version) ∧
        (pr ≠ prison0 → st2.lprison0 = st.lprison0) ∧
        (∀ q, q ≠ pr → st2.osd q = st.osd q) := by
  have hok : ∀ rel, opts.osrelease = some rel → (linux_map_osrel W rel 0).1 = 0 :=
    fun rel hrel => ((linux_prison_check_ok M W opts hcheck).2.2 rel hrel).2.2.2
  have hf := linux_prison_set_fields_ok M W opts lpr hok
  constructor
  · rw [linux_prison_set_new_eq M W fuel st pr 0 ppr opts lpr hjsys hfind, hf]
    by_cases h1 : ppr = pr
    · rw [if_pos h1]
      exact ⟨_, rfl⟩
    · rw [if_neg h1, if_pos rfl]
      exact ⟨_, rfl⟩
  · intro osd_error st2 hset
    obtain ⟨_, st1, rfl, hl, ho, _, _⟩ :=
      linux_prison_set_new_ok M W fuel st st2 pr osd_error ppr opts lpr hjsys hfind hset
    obtain ⟨f1, f2, f3⟩ := linux_prison_set_fields_frame M W opts lpr
    obtain ⟨s1, s2, _, _⟩ := store_record_frame st1 pr (linux_prison_set_fields M W opts lpr).2
    refine ⟨_, own_record_store st1 pr _, f1, f2, f3, ?_, ?_⟩
    · intro hpr
      rw [s1 hpr, hl]
    · intro q hq
      rw [s2 q hq, ho q hq]

/-- A set of the OSS version alone on prison 2 of `st_owned`, which inherits
from prison 1, leaves the name "Foo", the release "3.10.0" and the number
3010000 in the new record of prison 2. -/
theorem linux_prison_set_frame_witness :
    linux_prison_check 65 32 ⟨none, none, none, some 7⟩ = 0 ∧
    linux_prison_set_jsys ⟨none, none, none, some 7⟩ = JAIL_SYS_NEW ∧
    linux_find_prison 3 st_owned 2
      = some (1, ⟨char_array 65 (bytes "Foo"), char_array 65 (bytes "3.10.0"), 5, 3010000⟩) ∧
    (∃ st2, linux_prison_set 65 32 3 st_owned 2 ⟨none, none, none, some 7⟩ 0 = some (0, st2)) ∧
    ∀ osd_error st2,
      linux_prison_set 65 32 3 st_owned 2 ⟨none, none, none, some 7⟩ osd_error = some (0, st2) →
      ∃ lpr2, own_record st2 2 = some lpr2 ∧
        ((⟨none, none, none, some 7⟩ : vfsoptlist).osname = none →
          lpr2.pr_osname = char_array 65 (bytes "Foo")) ∧
        ((⟨none, none, none, some 7⟩ : vfsoptlist).osrelease = none →
          lpr2.pr_osrelease = char_array 65 (bytes "3.10.0") ∧ lpr2.pr_osrel = 3010000) ∧
        ((⟨none, none, none, some 7⟩ : vfsoptlist).oss_version = none →
          lpr2.pr_oss_version = 5) ∧
        (2 ≠ prison0 → st2.lprison0 = st_owned.lprison0) ∧
        (∀ q, q ≠ 2 → st2.osd q = st_owned.osd q) :=
  ⟨by decide, by decide, by decide,
    linux_prison_set_frame 65 32 3 st_owned 2 1 ⟨none, none, none, some 7⟩
      ⟨char_array 65 (bytes "Foo"), char_array 65 (bytes "3.10.0"), 5, 3010000⟩
      (by decide) (by decide) (by decide)⟩

/-! ## The release parser: signs, white space and overflow -/

theorem strtol_sign_cases (s : List Nat) :
    ∃ sg, s = sg ++ (strtol_sign s).2 ∧ (sg = [] ∨ sg = [45] ∨ sg = [43]) := by
  cases s with
  | nil => exact ⟨[], by simp [strtol_sign]⟩
  | cons c t =>
    by_cases h1 : c = 45
    · exact ⟨[c], by simp [strtol_sign, h1]⟩
    · by_cases h2 : c = 43
      · exact ⟨[c], by simp [strtol_sign, h2]⟩
      · exact ⟨[], by simp [strtol_sign, h1, h2]⟩

/-- When the digit loop consumes nothing, it has seen no digit. -/
theorem strtol_loop_nothing (cutoff cutlim : Nat) (s : List Nat) (acc : Nat) (any : Int)
    (h : (strtol_loop cutoff cutlim s acc any).2.2 = s) :
    (strtol_loop cutoff cutlim s acc any).2.1 = any := by
  cases s with
  | nil => simp [strtol_loop]
  | cons c t =>
    by_cases hc : isdigit c = true
    · exfalso
      simp only [strtol_loop, hc, if_true] at h
      split at h
      · obtain ⟨ds, h1, _⟩ := strtol_loop_split cutoff cutlim t acc (-1)
        have hl := congrArg List.length h1
        rw [h] at hl
        simp only [List.length_append, List.length_cons] at hl
        omega
      · obtain ⟨ds, h1, _⟩ := strtol_loop_split cutoff cutlim t (acc * 10 + (c - 48)) 1
        have hl := congrArg List.length h1
        rw [h] at hl
        simp only [List.length_append, List.length_cons] at hl
        omega
    · simp [strtol_loop, hc]

/-- What `strtol` consumes, when it consumes something: white space, at most
one sign and a run of digits that is not empty. -/
theorem strtol_field (LONG_BIT : Nat) (s : List Nat)
    (h : s.length ≠ (strtol LONG_BIT s).2.length) :
    ∃ ws sg ds, s = ws ++ sg ++ ds ++ (strtol LONG_BIT s).2 ∧
      (∀ c ∈ ws, isspace c = true) ∧ (sg = [] ∨ sg = [45] ∨ sg = [43]) ∧ ds ≠ [] ∧
      ∀ c ∈ ds, isdigit c = true := by
  obtain ⟨ws, hws, hsp⟩ := skip_space_split s
  obtain ⟨sg, hsg, hsgc⟩ := strtol_sign_cases (skip_space s)
  obtain ⟨ds, hds, hdig⟩ := strtol_loop_split
    (strtol_cutoff LONG_BIT (strtol_sign (skip_space s)).1 / 10)
    (strtol_cutoff LONG_BIT (strtol_sign (skip_space s)).1 % 10)
    (strtol_sign (skip_space s)).2 0 0
  by_cases hany : (strtol_loop
      (strtol_cutoff LONG_BIT (strtol_sign (skip_space s)).1 / 10)
      (strtol_cutoff LONG_BIT (strtol_sign (skip_space s)).1 % 10)
      (strtol_sign (skip_space s)).2 0 0).2.1 = 0
  · exfalso
    apply h
    simp [strtol, hany]
  · have hend : (strtol LONG_BIT s).2 = (strtol_loop
        (strtol_cutoff LONG_BIT (strtol_sign (skip_space s)).1 / 10)
        (strtol_cutoff LONG_BIT (strtol_sign (skip_space s)).1 % 10)
        (strtol_sign (skip_space s)).2 0 0).2.2 := by
      simp [strtol, hany]
    refine ⟨ws, sg, ds, ?_, hsp, hsgc, ?_, hdig⟩
    · rw [hend, List.append_assoc, List.append_assoc, ← hds, ← hsg]
      exact hws
    · rintro rfl
      rw [List.nil_append] at hds
      exact hany (strtol_loop_nothing _ _ _ 0 0 hds.symm)

/-- An accepted release string is three parts that `strtol` consumes whole,
separated by two dots. -/
theorem linux_map_osrel_fields (LONG_BIT : Nat) (s : List Nat) (osrel : Int)
    (h : linux_map_osrel LONG_BIT s osrel ≠ (EINVAL, osrel)) :
    ∃ f1 f2 f3, cstr s = f1 ++ 46 :: (f2 ++ 46 :: f3) ∧
      (strtol LONG_BIT (f1 ++ 46 :: (f2 ++ 46 :: f3))).2 = 46 :: (f2 ++ 46 :: f3) ∧
      (strtol LONG_BIT (f2 ++ 46 :: f3)).2 = 46 :: f3 ∧
      (strtol LONG_BIT f3).2 = [] ∧ f1 ≠ [] ∧ f2 ≠ [] ∧ f3 ≠ [] := by
  unfold linux_map_osrel at h
  simp only at h
  obtain ⟨x1, hx1, _⟩ := strtol_split LONG_BIT (cstr s)
  by_cases h0 : (cstr s).length = (strtol LONG_BIT (cstr s)).2.length ∨
      (strtol LONG_BIT (cstr s)).2.length ≤ 1 ∨ (strtol LONG_BIT (cstr s)).2.head? ≠ some 46
  · rw [if_pos h0] at h
    exact absurd rfl h
  rw [if_neg h0] at h
  obtain ⟨x2, hx2, _⟩ := strtol_split LONG_BIT (strtol LONG_BIT (cstr s)).2.tail
  by_cases h1 : (strtol LONG_BIT (cstr s)).2.tail.length
        = (strtol LONG_BIT (strtol LONG_BIT (cstr s)).2.tail).2.length ∨
      (strtol LONG_BIT (strtol LONG_BIT (cstr s)).2.tail).2.length ≤ 1 ∨
      (strtol LONG_BIT (strtol LONG_BIT (cstr s)).2.tail).2.head? ≠ some 46
  · rw [if_pos h1] at h
    exact absurd rfl h
  rw [if_neg h1] at h
  obtain ⟨x3, hx3, _⟩ := strtol_split LONG_BIT
    (strtol LONG_BIT (strtol LONG_BIT (cstr s)).2.tail).2.tail
  by_cases h2 : (strtol LONG_BIT (strtol LONG_BIT (cstr s)).2.tail).2.tail.length
        = (strtol LONG_BIT (strtol LONG_BIT (strtol LONG_BIT (cstr s)).2.tail).2.tail).2.length ∨
      (strtol LONG_BIT (strtol LONG_BIT (strtol LONG_BIT (cstr s)).2.tail).2.tail).2.length ≠ 0
  · rw [if_pos h2] at h
    exact absurd rfl h
  push_neg at h0 h1 h2
  have e0 : (strtol LONG_BIT (cstr s)).2 = 46 :: (strtol LONG_BIT (cstr s)).2.tail := by
    cases hsep : (strtol LONG_BIT (cstr s)).2 with
    | nil => simp [hsep] at h0
    | cons c t => simpa [hsep] using h0.2.2
  have e1 : (strtol LONG_BIT (strtol LONG_BIT (cstr s)).2.tail).2
      = 46 :: (strtol LONG_BIT (strtol LONG_BIT (cstr s)).2.tail).2.tail := by
    cases hsep : (strtol LONG_BIT (strtol LONG_BIT (cstr s)).2.tail).2 with
    | nil => simp [hsep] at h1
    | cons c t => simpa [hsep] using h1.2.2
  have e2 : (strtol LONG_BIT (strtol LONG_BIT (strtol LONG_BIT (cstr s)).2.tail).2.tail).2 = [] :=
    List.length_eq_zero.1 h2.2
  have hf3 : (strtol LONG_BIT (strtol LONG_BIT (cstr s)).2.tail).2.tail = x3 := by
    rw [e2, List.append_nil] at hx3
    exact hx3
  have hf2 : (strtol LONG_BIT (cstr s)).2.tail = x2 ++ 46 :: x3 := by
    rw [← hf3]
    rw [e1] at hx2
    exact hx2
  have hf1 : cstr s = x1 ++ 46 :: (x2 ++ 46 :: x3) := by
    rw [← hf2]
    rw [e0] at hx1
    exact hx1
  refine ⟨x1, x2, x3, hf1, ?_, ?_, ?_, ?_, ?_, ?_⟩
  · rw [← hf1, e0, hf2]
  · rw [← hf2, e1, hf3]
  · rw [← hf3]
    exact e2
  · intro hx
    apply h0.1
    rw [hx, List.nil_append] at hx1
    rw [← hx1]
  · intro hx
    apply h1.1
    rw [hx, List.nil_append] at hx2
    rw [← hx2]
  · intro hx
    apply h2.1
    rw [e2, hf3, hx]

/-- C17 (as stated, it fails): the strings " 2.6.16" and "+2.6.16", with a
blank and a sign, are accepted with the number 2006016, and "2.-6.16" is
accepted with the number 1994016, whether `long` has 32 or 64 bits. -/
theorem linux_map_osrel_accepts_sign_and_space :
    linux_map_osrel 32 (bytes " 2.6.16") 0 = (0, 2006016) ∧
    linux_map_osrel 32 (bytes "+2.6.16") 0 = (0, 2006016) ∧
    linux_map_osrel 32 (bytes "2.-6.16") 0 = (0, 1994016) ∧
    linux_map_osrel 64 (bytes " 2.6.16") 0 = (0, 2006016) ∧
    linux_map_osrel 64 (bytes "+2.6.16") 0 = (0, 2006016) ∧
    linux_map_osrel 64 (bytes "2.-6.16") 0 = (0, 1994016) := by
  decide

/-- C17 (amended): `linux_map_osrel` accepts only strings that consist of
exactly three fields separated by single dots, each field being what `strtol`
reads: white space (blank, TAB .. CR), at most one sign `+` or `-`, and a run
of decimal digits that is not empty; a string with any other byte, or with a
byte that is no digit right before a dot or the end, is rejected. -/
theorem linux_map_osrel_accepted_shape (LONG_BIT : Nat) (s : List Nat) (osrel v : Int)
    (hs : ∀ c ∈ s, c ≠ 0) (h : linux_map_osrel LONG_BIT s osrel = (0, v)) :
    ∃ w1 g1 d1 w2 g2 d2 w3 g3 d3,
      s = (w1 ++ g1 ++ d1) ++ 46 :: ((w2 ++ g2 ++ d2) ++ 46 :: (w3 ++ g3 ++ d3)) ∧
      (∀ c ∈ w1 ++ w2 ++ w3, isspace c = true) ∧
      (g1 = [] ∨ g1 = [45] ∨ g1 = [43]) ∧ (g2 = [] ∨ g2 = [45] ∨ g2 = [43]) ∧
      (g3 = [] ∨ g3 = [45] ∨ g3 = [43]) ∧
      d1 ≠ [] ∧ d2 ≠ [] ∧ d3 ≠ [] ∧ (∀ c ∈ d1 ++ d2 ++ d3, isdigit c = true) := by
  have hne : linux_map_osrel LONG_BIT s osrel ≠ (EINVAL, osrel) := by
    rw [h]
    intro he
    simp only [Prod.mk.injEq] at he
    exact absurd he.1 (by decide)
  obtain ⟨f1, f2, f3, hshape, e1, e2, e3, hf1, hf2, hf3⟩ :=
    linux_map_osrel_fields LONG_BIT s osrel hne
  rw [cstr_of_no_nul s hs] at hshape
  obtain ⟨w1, g1, d1, c1, hw1, hg1, hd1, hdig1⟩ :=
    strtol_field LONG_BIT (f1 ++ 46 :: (f2 ++ 46 :: f3)) (by
      rw [e1]
      simp only [List.length_append, List.length_cons]
      have := List.length_pos.2 hf1
      omega)
  obtain ⟨w2, g2, d2, c2, hw2, hg2, hd2, hdig2⟩ :=
    strtol_field LONG_BIT (f2 ++ 46 :: f3) (by
      rw [e2]
      simp only [List.length_append, List.length_cons]
      have := List.length_pos.2 hf2
      omega)
  obtain ⟨w3, g3, d3, c3, hw3, hg3, hd3, hdig3⟩ :=
    strtol_field LONG_BIT f3 (by
      rw [e3]
      have := List.length_pos.2 hf3
      simp only [List.length_nil]
      omega)
  rw [e1] at c1
  rw [e2] at c2
  rw [e3, List.append_nil] at c3
  have k1 : f1 = w1 ++ g1 ++ d1 := List.append_cancel_right c1
  have k2 : f2 = w2 ++ g2 ++ d2 := List.append_cancel_right c2
  refine ⟨w1, g1, d1, w2, g2, d2, w3, g3, d3, ?_, ?_, hg1, hg2, hg3, hd1, hd2, hd3, ?_⟩
  · rw [hshape, k1, k2, c3]
  · intro c hc
    simp only [List.mem_append] at hc
    rcases hc with (hc | hc) | hc
    · exact hw1 c hc
    · exact hw2 c hc
    · exact hw3 c hc
  · intro c hc
    simp only [List.mem_append] at hc
    rcases hc with (hc | hc) | hc
    · exact hdig1 c hc
    · exact hdig2 c hc
    · exact hdig3 c hc

/-- The accepted string " 2.-6.16" is a blank and "2", a dot, a minus and "6",
a dot, and "16". -/
theorem linux_map_osrel_accepted_shape_witness :
    (∀ c ∈ bytes " 2.-6.16", c ≠ 0) ∧
    linux_map_osrel 32 (bytes " 2.-6.16") 0 = (0, 1994016) ∧
    ∃ w1 g1 d1 w2 g2 d2 w3 g3 d3,
      bytes " 2.-6.16"
        = (w1 ++ g1 ++ d1) ++ 46 :: ((w2 ++ g2 ++ d2) ++ 46 :: (w3 ++ g3 ++ d3)) ∧
      (∀ c ∈ w1 ++ w2 ++ w3, isspace c = true) ∧
      (g1 = [] ∨ g1 = [45] ∨ g1 = [43]) ∧ (g2 = [] ∨ g2 = [45] ∨ g2 = [43]) ∧
      (g3 = [] ∨ g3 = [45] ∨ g3 = [43]) ∧
      d1 ≠ [] ∧ d2 ≠ [] ∧ d3 ≠ [] ∧ (∀ c ∈ d1 ++ d2 ++ d3, isdigit c = true) :=
  ⟨by decide, by decide,
    linux_map_osrel_accepted_shape 32 (bytes " 2.-6.16") 0 1994016 (by decide) (by decide)⟩

/-- On three digit fields whose values are in the range of `long`, the number
is the sum of the three `int`s, taken modulo 2^32. -/
theorem linux_map_osrel_digits_wrap (LONG_BIT : Nat) (A B C : List Nat) (osrel : Int)
    (hA : A ≠ []) (hB : B ≠ []) (hC : C ≠ [])
    (hdA : ∀ c ∈ A, isdigit c = true) (hdB : ∀ c ∈ B, isdigit c = true)
    (hdC : ∀ c ∈ C, isdigit c = true)
    (hfA : decimal A ≤ 2 ^ (LONG_BIT - 1) - 1) (hfB : decimal B ≤ 2 ^ (LONG_BIT - 1) - 1)
    (hfC : decimal C ≤ 2 ^ (LONG_BIT - 1) - 1) :
    linux_map_osrel LONG_BIT (A ++ 46 :: (B ++ 46 :: C)) osrel =
      if wrap32 (wrap32 (decimal A) * 1000000 + wrap32 (decimal B) * 1000 + wrap32 (decimal C))
          < 1000000 then (EINVAL, osrel)
      else (0, wrap32 (wrap32 (decimal A) * 1000000 + wrap32 (decimal B) * 1000
        + wrap32 (decimal C))) := by
  have hdot : ∀ t : List Nat, ∀ c, (46 :: t).head? = some c → isdigit c = false := by
    intro t c hc
    simp only [List.head?_cons, Option.some.injEq] at hc
    subst hc
    rfl
  have hnil : ∀ c, ([] : List Nat).head? = some c → isdigit c = false := by
    intro c hc
    simp at hc
  have hcs : cstr (A ++ 46 :: (B ++ 46 :: C)) = A ++ 46 :: (B ++ 46 :: C) := by
    apply cstr_of_no_nul
    intro c hc
    simp only [List.mem_append, List.mem_cons] at hc
    rcases hc with h | h | h | h | h
    · exact isdigit_ne_nul c (hdA c h)
    · omega
    · exact isdigit_ne_nul c (hdB c h)
    · omega
    · exact isdigit_ne_nul c (hdC c h)
  have r0 := strtol_digits_rest LONG_BIT A (46 :: (B ++ 46 :: C)) hA hdA (hdot _)
  have v0 := strtol_digits_value LONG_BIT A (46 :: (B ++ 46 :: C)) hA hdA (hdot _) hfA
  have r1 := strtol_digits_rest LONG_BIT B (46 :: C) hB hdB (hdot _)
  have v1 := strtol_digits_value LONG_BIT B (46 :: C) hB hdB (hdot _) hfB
  have r2 := strtol_digits_rest LONG_BIT C [] hC hdC hnil
  have v2 := strtol_digits_value LONG_BIT C [] hC hdC hnil hfC
  rw [List.append_nil] at r2 v2
  have lA : 0 < A.length := List.length_pos.2 hA
  have lB : 0 < B.length := List.length_pos.2 hB
  have lC : 0 < C.length := List.length_pos.2 hC
  have c0 : ¬ ((A ++ 46 :: (B ++ 46 :: C)).length = (46 :: (B ++ 46 :: C)).length ∨
      (46 :: (B ++ 46 :: C)).length ≤ 1 ∨ (46 :: (B ++ 46 :: C)).head? ≠ some 46) := by
    simp only [List.length_append, List.length_cons, List.head?_cons, ne_eq, not_true_eq_false,
      or_false]
    omega
  have c1 : ¬ ((B ++ 46 :: C).length = (46 :: C).length ∨
      (46 :: C).length ≤ 1 ∨ (46 :: C).head? ≠ some 46) := by
    simp only [List.length_append, List.length_cons, List.head?_cons, ne_eq, not_true_eq_false,
      or_false]
    omega
  have c2 : ¬ (C.length = ([] : List Nat).length ∨ ([] : List Nat).length ≠ 0) := by
    simp only [List.length_nil, ne_eq, not_true_eq_false, or_false]
    omega
  unfold linux_map_osrel
  simp only [hcs, r0, v0, if_neg c0, List.tail_cons, r1, v1, if_neg c1, r2, v2, if_neg c2]

/-- The number a successful `linux_map_osrel` stores is an `int` that is at
least 1000000. -/
theorem linux_map_osrel_range (LONG_BIT : Nat) (s : List Nat) (osrel v : Int)
    (h : linux_map_osrel LONG_BIT s osrel = (0, v)) : 1000000 ≤ v ∧ v < 2147483648 := by
  have hE : ((EINVAL, osrel) : Nat × Int) ≠ (0, v) := by
    intro he
    simp only [Prod.mk.injEq] at he
    exact absurd he.1 (by decide)
  unfold linux_map_osrel at h
  simp only at h
  split at h
  · exact absurd h hE
  · split at h
    · exact absurd h hE
    · split at h
      · exact absurd h hE
      · split at h
        · exact absurd h hE
        · rename_i hv
          simp only [Prod.mk.injEq, true_and] at h
          rw [← h]
          refine ⟨by omega, ?_⟩
          unfold wrap32
          omega

/-- C18 (as stated, it fails): the string "5000.0.0", 8 bytes long, is made of
three digit fields with the exact number 5000000000; `linux_map_osrel` accepts
it and stores 705032704, which is 5000000000 modulo 2^32, whether `long` has 32
or 64 bits. -/
theorem linux_map_osrel_wraps :
    (bytes "5000.0.0").length < 65 ∧
    decimal (bytes "5000") * 1000000 + decimal (bytes "0") * 1000 + decimal (bytes "0")
      = 5000000000 ∧
    linux_map_osrel 32 (bytes "5000.0.0") 0 = (0, 705032704) ∧
    linux_map_osrel 64 (bytes "5000.0.0") 0 = (0, 705032704) ∧
    (5000000000 : Int) % 4294967296 = 705032704 := by
  decide

/-- C18 (amended): for a string of three digit fields with values `a`, `b`,
`c` that `linux_map_osrel` accepts, `long` having 32 bits or more, the number
stored is a 32-bit `int`, and it is the exact integer
`a * 1000000 + b * 1000 + c` exactly when that integer is at most 2147483647:
there is no wrap-around up to that bound, and no guard against it above. -/
theorem linux_map_osrel_exact_iff (LONG_BIT : Nat) (A B C : List Nat) (osrel v : Int)
    (hW : 32 ≤ LONG_BIT) (hA : A ≠ []) (hB : B ≠ []) (hC : C ≠ [])
    (hdA : ∀ c ∈ A, isdigit c = true) (hdB : ∀ c ∈ B, isdigit c = true)
    (hdC : ∀ c ∈ C, isdigit c = true)
    (h : linux_map_osrel LONG_BIT (A ++ 46 :: (B ++ 46 :: C)) osrel = (0, v)) :
    v < 2147483648 ∧
    (v = ((decimal A * 1000000 + decimal B * 1000 + decimal C : Nat) : Int) ↔
      decimal A * 1000000 + decimal B * 1000 + decimal C ≤ 2147483647) := by
  have hr := linux_map_osrel_range LONG_BIT _ osrel v h
  refine ⟨hr.2, ?_, ?_⟩
  · intro hv
    have := hr.2
    rw [hv] at this
    omega
  · intro hfit
    have hpow : 2147483648 ≤ 2 ^ (LONG_BIT - 1) := by
      have : 2 ^ 31 ≤ 2 ^ (LONG_BIT - 1) := Nat.pow_le_pow_right (by norm_num) (by omega)
      simpa using this
    have hw := linux_map_osrel_digits_wrap LONG_BIT A B C osrel hA hB hC hdA hdB hdC
      (by omega) (by omega) (by omega)
    rw [wrap32_of_range (decimal A : Int) (by omega) (by omega),
      wrap32_of_range (decimal B : Int) (by omega) (by omega),
      wrap32_of_range (decimal C : Int) (by omega) (by omega),
      wrap32_of_range _ (by omega) (by omega)] at hw
    rw [hw] at h
    split at h
    · simp only [Prod.mk.injEq] at h
      exact absurd h.1 (by decide)
    · simp only [Prod.mk.injEq, true_and] at h
      rw [← h]
      push_cast
      rfl

/-- The accepted string "2147.483.647" has the exact number 2147483647, the
largest `int`, which is stored as it is. -/
theorem linux_map_osrel_exact_iff_witness :
    32 ≤ 32 ∧ bytes "2147" ≠ [] ∧ bytes "483" ≠ [] ∧ bytes "647" ≠ [] ∧
    (∀ c ∈ bytes "2147", isdigit c = true) ∧ (∀ c ∈ bytes "483", isdigit c = true) ∧
    (∀ c ∈ bytes "647", isdigit c = true) ∧
    linux_map_osrel 32 (bytes "2147" ++ 46 :: (bytes "483" ++ 46 :: bytes "647")) 0
      = (0, 2147483647) ∧
    (2147483647 : Int) < 2147483648 ∧
    ((2147483647 : Int) = ((decimal (bytes "2147") * 1000000 + decimal (bytes "483") * 1000
        + decimal (bytes "647") : Nat) : Int) ↔
      decimal (bytes "2147") * 1000000 + decimal (bytes "483") * 1000 + decimal (bytes "647")
        ≤ 2147483647) :=
  ⟨by decide, by decide, by decide, by decide, by decide, by decide, by decide, by decide,
    linux_map_osrel_exact_iff 32 (bytes "2147") (bytes "483") (bytes "647") 0 2147483647
      (by decide) (by decide) (by decide) (by decide) (by decide) (by decide) (by decide)
      (by decide)⟩

/-! ## The hierarchy is left alone: reachable states and termination -/

theorem linux_alloc_prison_parent (fuel : Nat) (st st2 : State) (pr osd_error error : Nat)
    (lprp : Option linux_prison)
    (h : linux_alloc_prison fuel st pr osd_error = some (error, st2, lprp)) :
    st2.pr_parent = st.pr_parent := by
  cases hfind : linux_find_prison fuel st pr with
  | none => simp [linux_alloc_prison, hfind] at h
  | some r =>
    obtain ⟨ppr, lpr⟩ := r
    rw [linux_alloc_prison_eq fuel st pr osd_error ppr lpr hfind] at h
    split at h
    · simp only [Option.some.injEq, Prod.mk.injEq] at h
      rw [← h.2.1]
    · split at h
      · simp only [Option.some.injEq, Prod.mk.injEq] at h
        rw [← h.2.1]
      · simp only [Option.some.injEq, Prod.mk.injEq] at h
        rw [← h.2.1]

theorem linux_prison_create_parent (fuel : Nat) (st st2 : State) (pr osd_error error : Nat)
    (opts : vfsoptlist) (h : linux_prison_create fuel st pr opts osd_error = some (error, st2)) :
    st2.pr_parent = st.pr_parent := by
  unfold linux_prison_create at h
  split at h
  · simp only [Option.some.injEq, Prod.mk.injEq] at h
    rw [← h.2]
  · cases ha : linux_alloc_prison fuel st pr osd_error with
    | none => simp [ha] at h
    | some r =>
      obtain ⟨e, st3, l⟩ := r
      simp only [ha, Option.some.injEq, Prod.mk.injEq] at h
      rw [← h.2]
      exact linux_alloc_prison_parent fuel st st3 pr osd_error e l ha

theorem linux_prison_set_parent (M W fuel : Nat) (st st2 : State) (pr osd_error error : Nat)
    (opts : vfsoptlist)
    (h : linux_prison_set M W fuel st pr opts osd_error = some (error, st2)) :
    st2.pr_parent = st.pr_parent := by
  by_cases hi : linux_prison_set_jsys opts = JAIL_SYS_INHERIT
  · rw [linux_prison_set_inherit_eq M W fuel st pr osd_error opts hi] at h
    simp only [Option.some.injEq, Prod.mk.injEq] at h
    rw [← h.2]
    rfl
  · by_cases hn : linux_prison_set_jsys opts = JAIL_SYS_NEW
    · obtain ⟨ppr, lpr, hfind⟩ :=
        linux_prison_set_new_find M W fuel st pr osd_error opts _ hn h
      rw [linux_prison_set_new_eq M W fuel st pr osd_error ppr opts lpr hn hfind] at h
      split at h
      · simp only [Option.some.injEq, Prod.mk.injEq] at h
        rw [← h.2, (store_record_frame _ pr _).2.2.1]
      · split at h
        · simp only [Option.some.injEq, Prod.mk.injEq] at h
          rw [← h.2, (store_record_frame _ pr _).2.2.1]
        · simp only [Option.some.injEq, Prod.mk.injEq] at h
          rw [← h.2]
    · rw [linux_prison_set_other_eq M W fuel st pr osd_error opts hi hn] at h
      simp only [Option.some.injEq, Prod.mk.injEq] at h
      rw [← h.2]

theorem register_sweep_parent (fuel : Nat) (osd_error : Nat → Nat) (l : List Nat)
    (st st2 : State) (h : register_sweep fuel osd_error l st = some st2) :
    st2.pr_parent = st.pr_parent := by
  induction l generalizing st with
  | nil =>
    simp only [register_sweep, Option.some.injEq] at h
    rw [← h]
  | cons pr rest ih =>
    cases ha : linux_alloc_prison fuel st pr (osd_error pr) with
    | none => simp [register_sweep, ha] at h
    | some r =>
      obtain ⟨e, st3, lp⟩ := r
      simp only [register_sweep, ha] at h
      rw [ih st3 h]
      exact linux_alloc_prison_parent fuel st st3 pr (osd_error pr) e lp ha

theorem linux_osd_jail_register_parent (fuel : Nat) (st st2 : State) (slot : Nat)
    (osd_error : Nat → Nat) (h : linux_osd_jail_register fuel st slot osd_error = some st2) :
    st2.pr_parent = st.pr_parent := by
  unfold linux_osd_jail_register at h
  simp only at h
  split at h
  · exact register_sweep_parent fuel osd_error _ { st with linux_osd_jail_slot := slot } st2 h
  · simp only [Option.some.injEq] at h
    rw [← h]

/-- No call changes the parent links. -/
theorem Step_parent (M W : Nat) (st st2 : State) (h : Step M W st st2) :
    st2.pr_parent = st.pr_parent := by
  cases h with
  | create fuel _ pr opts osd_error error _ hc =>
    exact linux_prison_create_parent fuel st st2 pr osd_error error opts hc
  | set fuel _ pr opts osd_error error _ hs =>
    exact linux_prison_set_parent M W fuel st st2 pr osd_error error opts hs
  | alloc fuel _ pr osd_error error _ lprp ha =>
    exact linux_alloc_prison_parent fuel st st2 pr osd_error error lprp ha
  | register fuel _ slot osd_error _ hr =>
    exact linux_osd_jail_register_parent fuel st st2 slot osd_error hr
  | set_osname fuel _ cr_prison osname error _ hs =>
    unfold linux_set_osname at hs
    cases hfind : linux_find_prison fuel st cr_prison with
    | none => simp [hfind] at hs
    | some r =>
      simp only [hfind, Option.some.injEq, Prod.mk.injEq] at hs
      rw [← hs.2, (store_record_frame _ _ _).2.2.1]
  | set_osrelease fuel _ cr_prison osrelease error _ hs =>
    unfold linux_set_osrelease at hs
    cases hfind : linux_find_prison fuel st cr_prison with
    | none => simp [hfind] at hs
    | some r =>
      simp only [hfind] at hs
      split at hs
      · simp only [Option.some.injEq, Prod.mk.injEq] at hs
        rw [← hs.2, (store_record_frame _ _ _).2.2.1]
      · simp only [Option.some.injEq, Prod.mk.injEq] at hs
        rw [← hs.2, (store_record_frame _ _ _).2.2.1]
  | set_oss_version fuel _ cr_prison oss_version error _ hs =>
    unfold linux_set_oss_version at hs
    cases hfind : linux_find_prison fuel st cr_prison with
    | none => simp [hfind] at hs
    | some r =>
      simp only [hfind, Option.some.injEq, Prod.mk.injEq] at hs
      rw [← hs.2, (store_record_frame _ _ _).2.2.1]

theorem Reachable_parent (M W : Nat) (st0 st : State) (h : Reachable M W st0 st) :
    st.pr_parent = st0.pr_parent := by
  induction h with
  | start => rfl
  | step st1 st2 _ hstep ih => rw [Step_parent M W st1 st2 hstep, ih]

/-- The prison the resolver returns owns the record it returns. -/
theorem linux_find_prison_own (fuel : Nat) (st : State) (pr q : Nat) (lpr : linux_prison)
    (h : linux_find_prison fuel st pr = some (q, lpr)) : own_record st q = some lpr := by
  rcases linux_find_prison_owner fuel st pr q lpr h with ⟨h1, h2⟩ | ⟨h1, h2⟩
  · simp [own_record, h1, h2]
  · simp [own_record, h1, h2]

/-- C19: the root always owns a record. In every state reached from a state
`st0` by calls of create, set (mode inherit on the root among them), the
allocator, the registration and the setters of a thread, resolving the root
returns the root with the built-in record `lprison0`, and resolving any prison
whose parent chain ends at the root returns a prison that owns the record
returned: the root or a prison with a record in its slot. -/
theorem root_always_owned (M W : Nat) (st0 st : State) (h : Reachable M W st0 st) :
    (∀ fuel, linux_find_prison (fuel + 1) st prison0 = some (prison0, st.lprison0)) ∧
    own_record st prison0 = some st.lprison0 ∧
    (∀ pr d fuel, reaches_root st0 d pr = true → d < fuel →
      ∃ q lpr, linux_find_prison fuel st pr = some (q, lpr) ∧ own_record st q = some lpr) := by
  refine ⟨?_, by simp [own_record], ?_⟩
  · intro fuel
    unfold linux_find_prison
    rw [ite_self, find_loop_root]
  · intro pr d fuel hreach hfuel
    have hp := Reachable_parent M W st0 st h
    have hreach2 : reaches_root st d pr = true := by
      rw [reaches_root_congr st0 st hp]
      exact hreach
    obtain ⟨q, lpr, hfind⟩ := linux_find_prison_total st d fuel pr hreach2 hfuel
    exact ⟨q, lpr, hfind, linux_find_prison_own fuel st pr q lpr hfind⟩

/-- From `st_boot` the module is registered in slot 1, which gives every prison
a record, and a set with mode inherit is applied to the root: the root still
resolves to itself and `lprison0`. -/
theorem root_always_owned_witness :
    Reachable 65 32 st_boot
      (osd_jail_del
        { st_boot with
          linux_osd_jail_slot := 1
          osd := Function.update (Function.update (Function.update st_boot.osd 1
            (some (lprison0 65))) 2 (some (lprison0 65))) 3 (some (lprison0 65)) } prison0) ∧
    (∀ fuel, linux_find_prison (fuel + 1)
        (osd_jail_del
          { st_boot with
            linux_osd_jail_slot := 1
            osd := Function.update (Function.update (Function.update st_boot.osd 1
              (some (lprison0 65))) 2 (some (lprison0 65))) 3 (some (lprison0 65)) } prison0)
        prison0 = some (prison0, lprison0 65)) :=
  ⟨Reachable.step _ _
      (Reachable.step _ _ Reachable.start (Step.register 4 st_boot 1 (fun _ => 0) _ rfl))
      (Step.set 1 _ prison0 ⟨some JAIL_SYS_INHERIT, none, none, none⟩ 0 0 _ rfl),
    (root_always_owned 65 32 st_boot _
      (Reachable.step _ _
        (Reachable.step _ _ Reachable.start (Step.register 4 st_boot 1 (fun _ => 0) _ rfl))
        (Step.set 1 _ prison0 ⟨some JAIL_SYS_INHERIT, none, none, none⟩ 0 0 _ rfl))).1⟩

/-- The loop does not read the parent link of the root. -/
theorem find_loop_root_parent (st : State) (p0 : Option Nat) (fuel pr : Nat) :
    find_loop { st with pr_parent := Function.update st.pr_parent prison0 p0 } fuel pr
      = find_loop st fuel pr := by
  induction fuel generalizing pr with
  | zero => rfl
  | succ f ih =>
    by_cases hpr : pr = prison0
    · subst hpr
      rw [find_loop_root, find_loop_root]
    · cases ho : st.osd pr with
      | some l =>
        rw [find_loop_owned st f pr l hpr ho,
          find_loop_owned { st with pr_parent := Function.update st.pr_parent prison0 p0 }
            f pr l hpr ho]
      | none =>
        rw [find_loop_empty st f pr hpr ho,
          find_loop_empty { st with pr_parent := Function.update st.pr_parent prison0 p0 }
            f pr hpr ho]
        simp only [Function.update_noteq hpr]
        cases st.pr_parent pr with
        | none => rfl
        | some ppr => exact ih ppr

/-- C20: in a hierarchy where the parent chain of the starting prison ends at
the root after `d` links, `linux_find_prison` returns within `d + 1`
iterations of its loop (one unit of fuel each), and what it returns does not
depend on the parent link of the root, which it never follows: the result is
the same whatever that link is, `NULL` included. -/
theorem linux_find_prison_terminates (st : State) (d spr : Nat)
    (hreach : reaches_root st d spr = true) :
    (∃ q lpr, linux_find_prison (d + 1) st spr = some (q, lpr)) ∧
    ∀ p0 fuel, linux_find_prison fuel
        { st with pr_parent := Function.update st.pr_parent prison0 p0 } spr
      = linux_find_prison fuel st spr := by
  constructor
  · exact linux_find_prison_total st d (d + 1) spr hreach (Nat.lt_succ_self d)
  · intro p0 fuel
    unfold linux_find_prison
    exact find_loop_root_parent st p0 fuel _

/-- Prison 3 of `st_example` is three links from the root: the resolver returns
within four iterations. -/
theorem linux_find_prison_terminates_witness :
    reaches_root st_example 3 3 = true ∧
    (∃ q lpr, linux_find_prison (3 + 1) st_example 3 = some (q, lpr)) ∧
    ∀ p0 fuel, linux_find_prison fuel
        { st_example with pr_parent := Function.update st_example.pr_parent prison0 p0 } 3
      = linux_find_prison fuel st_example 3 :=
  ⟨by decide, linux_find_prison_terminates st_example 3 3 (by decide)⟩

/-! ## The allocator is idempotent -/

/-- With the module registered, a prison that is the root or has a record in
its slot resolves to itself. -/
theorem linux_find_prison_self (fuel : Nat) (st : State) (pr : Nat) (lpr : linux_prison)
    (hslot : st.linux_osd_jail_slot ≠ 0) (hfuel : 0 < fuel)
    (hown : own_record st pr = some lpr) :
    linux_find_prison fuel st pr = some (pr, lpr) := by
  obtain ⟨f, rfl⟩ : ∃ f, fuel = f + 1 := ⟨fuel - 1, by omega⟩
  unfold linux_find_prison
  rw [if_neg hslot]
  by_cases hpr : pr = prison0
  · subst hpr
    simp only [own_record, if_true, Option.some.injEq] at hown
    rw [find_loop_root, hown]
  · simp only [own_record, if_neg hpr] at hown
    exact find_loop_owned st f pr lpr hpr hown

/-- C21: `linux_alloc_prison` is idempotent. With the module registered,
applied to the root or to a prison that has a record in its slot it returns 0
and that record and leaves the state as it is; and after a call that returned
0 on any prison, a second call on the same prison, whatever `osd_jail_set`
would do, returns 0 and the same record and leaves the state of the first
call; a call that returns an error leaves the state as it was, so that a second
call then starts from the same state. -/
theorem linux_alloc_prison_idempotent (fuel : Nat) (st : State) (pr : Nat)
    (hslot : st.linux_osd_jail_slot ≠ 0) (hfuel : 0 < fuel) :
    (∀ lpr osd_error, own_record st pr = some lpr →
      linux_alloc_prison fuel st pr osd_error = some (0, st, some lpr)) ∧
    (∀ osd_error osd_error2 st2 lprp,
      linux_alloc_prison fuel st pr osd_error = some (0, st2, lprp) →
      linux_alloc_prison fuel st2 pr osd_error2 = some (0, st2, lprp) ∧
      own_record st2 pr = lprp) ∧
    (∀ osd_error error st2 lprp,
      linux_alloc_prison fuel st pr osd_error = some (error, st2, lprp) →
      error ≠ 0 → st2 = st) := by
  refine ⟨?_, ?_, ?_⟩
  · intro lpr osd_error hown
    rw [linux_alloc_prison_eq fuel st pr osd_error pr lpr
      (linux_find_prison_self fuel st pr lpr hslot hfuel hown), if_pos rfl]
  · intro osd_error osd_error2 st2 lprp h
    cases hfind : linux_find_prison fuel st pr with
    | none => simp [linux_alloc_prison, hfind] at h
    | some r =>
      obtain ⟨ppr, lpr⟩ := r
      rw [linux_alloc_prison_eq fuel st pr osd_error ppr lpr hfind] at h
      have key : ∀ st3 : State, st3.linux_osd_jail_slot ≠ 0 → own_record st3 pr = some lpr →
          linux_alloc_prison fuel st3 pr osd_error2 = some (0, st3, some lpr) := by
        intro st3 hs3 ho3
        rw [linux_alloc_prison_eq fuel st3 pr osd_error2 pr lpr
          (linux_find_prison_self fuel st3 pr lpr hs3 hfuel ho3), if_pos rfl]
      by_cases h1 : ppr = pr
      · rw [if_pos h1] at h
        simp only [Option.some.injEq, Prod.mk.injEq, true_and] at h
        obtain ⟨rfl, rfl⟩ := h
        subst h1
        have hown := linux_find_prison_own fuel st ppr ppr lpr hfind
        exact ⟨key st hslot hown, hown⟩
      · rw [if_neg h1] at h
        by_cases h2 : osd_error = 0
        · rw [if_pos h2] at h
          simp only [Option.some.injEq, Prod.mk.injEq, true_and] at h
          obtain ⟨rfl, rfl⟩ := h
          have hpr : pr ≠ prison0 := by
            intro h0
            subst h0
            exact h1 (linux_find_prison_root fuel st ppr lpr hfind)
          have hown : own_record
              ({ st with osd := Function.update st.osd pr (some lpr) } : State) pr
              = some lpr := by
            simp [own_record, hpr]
          exact ⟨key _ hslot hown, hown⟩
        · rw [if_neg h2] at h
          simp only [Option.some.injEq, Prod.mk.injEq] at h
          exact absurd h.1 h2
  · intro osd_error error st2 lprp h herr
    cases hfind : linux_find_prison fuel st pr with
    | none => simp [linux_alloc_prison, hfind] at h
    | some r =>
      obtain ⟨ppr, lpr⟩ := r
      rw [linux_alloc_prison_eq fuel st pr osd_error ppr lpr hfind] at h
      by_cases h1 : ppr = pr
      · rw [if_pos h1] at h
        simp only [Option.some.injEq, Prod.mk.injEq] at h
        exact absurd h.1.symm herr
      · rw [if_neg h1] at h
        by_cases h2 : osd_error = 0
        · rw [if_pos h2] at h
          simp only [Option.some.injEq, Prod.mk.injEq] at h
          exact absurd h.1.symm herr
        · rw [if_neg h2] at h
          simp only [Option.some.injEq, Prod.mk.injEq] at h
          exact h.2.1.symm

/-- In `st_owned` prison 1 has a record: the allocator returns it and changes
nothing; prison 2 gets a copy of it by a first call, and a second call changes
nothing more. -/
theorem linux_alloc_prison_idempotent_witness :
    st_owned.linux_osd_jail_slot ≠ 0 ∧ 0 < 3 ∧
    own_record st_owned 1 = some foo_record ∧
    linux_alloc_prison 3 st_owned 1 12 = some (0, st_owned, some foo_record) ∧
    linux_alloc_prison 3 st_owned 2 0 = some (0, st_owned_copy, some foo_record) ∧
    linux_alloc_prison 3 st_owned_copy 2 12 = some (0, st_owned_copy, some foo_record) ∧
    own_record st_owned_copy 2 = some foo_record :=
  ⟨by decide, by decide, rfl,
    (linux_alloc_prison_idempotent 3 st_owned 1 (by decide) (by decide)).1 _ 12 rfl,
    rfl,
    (linux_alloc_prison_idempotent 3 st_owned 2 (by decide) (by decide)).2.1 0 12 _ _ rfl⟩

/-! ## The mutexes held by the resolver -/

/-- Started with no mutex held, the tracked loop returns what the loop returns,
holds the mutex of the returned prison alone at return and never held more
than one mutex. -/
theorem find_loop_mtx_spec (st : State) (fuel pr q : Nat) (lpr : linux_prison)
    (h : find_loop st fuel pr = some (q, lpr)) :
    ∃ tr, find_loop_mtx st fuel pr [] = some (q, lpr, [q], tr) ∧
      ∀ held ∈ tr, List.length held ≤ 1 := by
  induction fuel generalizing pr with
  | zero => simp [find_loop] at h
  | succ f ih =>
    by_cases hpr : pr = prison0
    · subst hpr
      rw [find_loop_root] at h
      simp only [Option.some.injEq, Prod.mk.injEq] at h
      obtain ⟨rfl, rfl⟩ := h
      exact ⟨[[prison0]], by simp [find_loop_mtx, mtx_lock], by simp⟩
    · cases ho : st.osd pr with
      | some l =>
        rw [find_loop_owned st f pr l hpr ho] at h
        simp only [Option.some.injEq, Prod.mk.injEq] at h
        obtain ⟨rfl, rfl⟩ := h
        exact ⟨[[pr]], by simp [find_loop_mtx, mtx_lock, hpr, osd_jail_get, ho], by simp⟩
      | none =>
        rw [find_loop_empty st f pr hpr ho] at h
        cases hp : st.pr_parent pr with
        | none => simp [hp] at h
        | some ppr =>
          simp only [hp] at h
          obtain ⟨tr, htr, hlen⟩ := ih ppr h
          refine ⟨[pr] :: [] :: tr, ?_, ?_⟩
          · simp [find_loop_mtx, mtx_lock, mtx_unlock, hpr, osd_jail_get, ho, hp, htr]
          · intro held hh
            rcases List.mem_cons.1 hh with rfl | hh
            · simp
            · rcases List.mem_cons.1 hh with rfl | hh
              · simp
              · exact hlen held hh

/-- C23: with the mutexes a thread holds tracked as state, and none held at the
call, `linux_find_prison` on a prison whose parent chain ends at the root
returns, as without tracking, a prison and its record; after every `mtx_lock`
and `mtx_unlock` of the walk at most one mutex is held, and at return exactly
one is held, that of the returned prison. -/
theorem linux_find_prison_mtx_one (st : State) (d fuel spr : Nat)
    (hreach : reaches_root st d spr = true) (hfuel : d < fuel) :
    ∃ q lpr tr, linux_find_prison fuel st spr = some (q, lpr) ∧
      linux_find_prison_mtx fuel st spr [] = some (q, lpr, [q], tr) ∧
      ∀ held ∈ tr, List.length held ≤ 1 := by
  obtain ⟨q, lpr, hfind⟩ := linux_find_prison_total st d fuel spr hreach hfuel
  obtain ⟨tr, htr, hlen⟩ := find_loop_mtx_spec st fuel _ q lpr hfind
  exact ⟨q, lpr, tr, hfind, htr, hlen⟩

/-- From prison 3 of `st_owned` the walk locks and unlocks prison 3, then
prison 2, and returns with the mutex of prison 1 held. -/
theorem linux_find_prison_mtx_one_witness :
    reaches_root st_owned 3 3 = true ∧ 3 < 4 ∧
    linux_find_prison_mtx 4 st_owned 3 []
      = some (1, foo_record, [1], [[3], [], [2], [], [1]]) ∧
    ∃ q lpr tr, linux_find_prison 4 st_owned 3 = some (q, lpr) ∧
      linux_find_prison_mtx 4 st_owned 3 [] = some (q, lpr, [q], tr) ∧
      ∀ held ∈ tr, List.length held ≤ 1 :=
  ⟨by decide, by decide, by decide,
    linux_find_prison_mtx_one st_owned 3 4 3 (by decide) (by decide)⟩

/-! ## The debug map -/

theorem isset_set_other (a : List Nat) (i j v : Nat) (h : j / NBBY ≠ i / NBBY) :
    isset (a.set (i / NBBY) v) j = isset a j := by
  unfold isset
  rw [List.getD_eq_getElem?_getD, List.getD_eq_getElem?_getD,
    List.getElem?_set_ne (fun e => h e.symm)]

theorem isset_set_same (a : List Nat) (i j v : Nat) (h : j / NBBY = i / NBBY)
    (hi : i / NBBY < a.length) :
    isset (a.set (i / NBBY) v) j = v.testBit (j % NBBY) := by
  unfold isset
  rw [h, List.getD_eq_getElem?_getD, List.getElem?_set_self hi]
  rfl

/-- The bits of the array after `setbit`. -/
theorem isset_setbit (a : List Nat) (i j : Nat) (hi : i / NBBY < a.length) :
    isset (setbit a i) j = (decide (j = i) || isset a j) := by
  unfold setbit
  by_cases h : j / NBBY = i / NBBY
  · rw [isset_set_same a i j _ h hi, Nat.testBit_lor, Nat.one_shiftLeft, Nat.testBit_two_pow]
    have hb : isset a j = (a.getD (i / NBBY) 0).testBit (j % NBBY) := by
      unfold isset
      rw [h]
    rw [hb, Bool.or_comm]
    congr 1
    have hm := Nat.div_add_mod j NBBY
    have hm2 := Nat.div_add_mod i NBBY
    by_cases hji : j = i
    · subst hji
      simp
    · have : i % NBBY ≠ j % NBBY := by
        intro e
        apply hji
        rw [← hm, ← hm2, h, e]
      simp [hji, this]
  · rw [isset_set_other a i j _ h]
    have hji : j ≠ i := by
      rintro rfl
      exact h rfl
    simp [hji]

/-- The bits of the array after `clrbit`. -/
theorem isset_clrbit (a : List Nat) (i j : Nat) (hi : i / NBBY < a.length) :
    isset (clrbit a i) j = (!decide (j = i) && isset a j) := by
  unfold clrbit
  by_cases h : j / NBBY = i / NBBY
  · rw [isset_set_same a i j _ h hi, Nat.testBit_land, Nat.testBit_xor, Nat.one_shiftLeft,
      Nat.testBit_two_pow]
    have hb : isset a j = (a.getD (i / NBBY) 0).testBit (j % NBBY) := by
      unfold isset
      rw [h]
    have h255 : Nat.testBit 255 (j % NBBY) = true := by
      have hlt : j % NBBY < 8 := Nat.mod_lt j (by decide)
      have : (255 : Nat) = 2 ^ 8 - 1 := by norm_num
      rw [this, Nat.testBit_two_pow_sub_one]
      simpa using hlt
    rw [hb, h255, Bool.and_comm]
    congr 1
    have hm := Nat.div_add_mod j NBBY
    have hm2 := Nat.div_add_mod i NBBY
    by_cases hji : j = i
    · subst hji
      simp
    · have : i % NBBY ≠ j % NBBY := by
        intro e
        apply hji
        rw [← hm, ← hm2, h, e]
      simp [hji, this]
  · rw [isset_set_other a i j _ h]
    have hji : j ≠ i := by
      rintro rfl
      exact h rfl
    simp [hji]

/-- C24: for a request that is not global, `linux_debug` returns `EINVAL`
exactly when the identifier is negative or not below `LINUX_SYS_MAXSYSCALL`,
and the map is then unchanged; for an identifier in range it returns 0, every
other bit of the map keeps its value, and the bit of the identifier is clear
when the toggle is not zero and set when it is zero. -/
theorem linux_debug_range (N : Nat) (map : List Nat) (syscall toggle : Int)
    (hlen : map.length = N) :
    ((linux_debug N map syscall toggle 0).1 = EINVAL ↔ (syscall < 0 ∨ syscall ≥ (N : Int))) ∧
    ((syscall < 0 ∨ syscall ≥ (N : Int)) → linux_debug N map syscall toggle 0 = (EINVAL, map)) ∧
    (0 ≤ syscall → syscall < (N : Int) →
      (linux_debug N map syscall toggle 0).1 = 0 ∧
      (∀ j, j ≠ syscall.toNat →
        isset (linux_debug N map syscall toggle 0).2 j = isset map j) ∧
      isset (linux_debug N map syscall toggle 0).2 syscall.toNat = decide (toggle = 0)) := by
  have hg : ¬ ((0 : Int) ≠ 0) := by simp
  refine ⟨?_, ?_, ?_⟩
  · unfold linux_debug
    rw [if_neg hg]
    by_cases hr : syscall < 0 ∨ syscall ≥ (N : Int)
    · simp [hr]
    · rw [if_neg hr]
      constructor
      · intro he
        split at he <;> simp [EINVAL] at he
      · intro h
        exact absurd h hr
  · intro hr
    unfold linux_debug
    rw [if_neg hg, if_pos hr]
  · intro h0 hN
    have hr : ¬ (syscall < 0 ∨ syscall ≥ (N : Int)) := by omega
    have hi : syscall.toNat / NBBY < map.length := by
      have : syscall.toNat < N := by omega
      have hd : syscall.toNat / NBBY ≤ syscall.toNat := Nat.div_le_self _ _
      omega
    unfold linux_debug
    rw [if_neg hg, if_neg hr]
    by_cases ht : toggle ≠ 0
    · rw [if_pos ht]
      refine ⟨rfl, ?_, ?_⟩
      · intro j hj
        simp only
        rw [isset_clrbit map _ j hi]
        simp [hj]
      · simp only
        rw [isset_clrbit map _ _ hi]
        simp [ht]
    · rw [if_neg ht]
      have ht0 : toggle = 0 := by
        by_contra hc
        exact ht hc
      refine ⟨rfl, ?_, ?_⟩
      · intro j hj
        simp only
        rw [isset_setbit map _ j hi]
        simp [hj]
      · simp only
        rw [isset_setbit map _ _ hi]
        simp [ht0]

/-- On a map of 16 bytes, the identifier 16 is rejected and the identifier 11
with toggle 0 sets bit 11, the fourth bit of the second byte. -/
theorem linux_debug_range_witness :
    (List.replicate 16 0).length = 16 ∧
    linux_debug 16 (List.replicate 16 0) 16 0 0 = (EINVAL, List.replicate 16 0) ∧
    linux_debug 16 (List.replicate 16 0) 11 0 0 = (0, 0 :: 8 :: List.replicate 14 0) ∧
    ((linux_debug 16 (List.replicate 16 0) 11 0 0).1 = EINVAL ↔
      ((11 : Int) < 0 ∨ (11 : Int) ≥ ((16 : Nat) : Int))) ∧
    (((11 : Int) < 0 ∨ (11 : Int) ≥ ((16 : Nat) : Int)) →
      linux_debug 16 (List.replicate 16 0) 11 0 0 = (EINVAL, List.replicate 16 0)) ∧
    ((0 : Int) ≤ 11 → (11 : Int) < ((16 : Nat) : Int) →
      (linux_debug 16 (List.replicate 16 0) 11 0 0).1 = 0 ∧
      (∀ j, j ≠ (11 : Int).toNat →
        isset (linux_debug 16 (List.replicate 16 0) 11 0 0).2 j
          = isset (List.replicate 16 0) j) ∧
      isset (linux_debug 16 (List.replicate 16 0) 11 0 0).2 (11 : Int).toNat
        = decide ((0 : Int) = 0)) :=
  ⟨by decide, by decide, by decide,
    linux_debug_range 16 (List.replicate 16 0) 11 0 (by decide)⟩

/-! ## Effective records -/

/-- A prison that gets a copy of the record it resolves to: every prison
resolves to the same record as before. -/
theorem find_loop_copy (st : State) (F pr ppr : Nat) (lpr : linux_prison)
    (hpr : pr ≠ prison0) (hF : find_loop st F pr = some (ppr, lpr))
    (fuel q o : Nat) (l : linux_prison) (h : find_loop st fuel q = some (o, l)) :
    ∃ o2, find_loop { st with osd := Function.update st.osd pr (some lpr) } fuel q
      = some (o2, l) := by
  induction fuel generalizing q with
  | zero => simp [find_loop] at h
  | succ f ih =>
    by_cases hq0 : q = prison0
    · subst hq0
      rw [find_loop_root] at h
      simp only [Option.some.injEq, Prod.mk.injEq] at h
      exact ⟨prison0, by rw [find_loop_root, ← h.2]⟩
    · by_cases hqp : q = pr
      · subst hqp
        have e1 := find_loop_mono st (f + 1) (max (f + 1) F) q (o, l) h (le_max_left _ _)
        have e2 := find_loop_mono st F (max (f + 1) F) q (ppr, lpr) hF (le_max_right _ _)
        rw [e1] at e2
        simp only [Option.some.injEq, Prod.mk.injEq] at e2
        refine ⟨q, ?_⟩
        rw [find_loop_owned _ f q lpr hq0 (by simp), e2.2]
      · have hosd : ({ st with osd := Function.update st.osd pr (some lpr) } : State).osd q
            = st.osd q := by
          simp [Function.update, hqp]
        cases ho : st.osd q with
        | some l2 =>
          rw [find_loop_owned st f q l2 hq0 ho] at h
          simp only [Option.some.injEq, Prod.mk.injEq] at h
          exact ⟨q, by rw [find_loop_owned _ f q l2 hq0 (by rw [hosd, ho]), h.2]⟩
        | none =>
          rw [find_loop_empty st f q hq0 ho] at h
          rw [find_loop_empty _ f q hq0 (by rw [hosd, ho])]
          cases hp : st.pr_parent q with
          | none => simp [hp] at h
          | some qq =>
            simp only [hp] at h ⊢
            exact ih qq h

/-- C25: a successful `linux_alloc_prison` on a prison leaves the effective
record of every prison as it was: whatever record the resolver returned for a
prison before the call, it returns a record with the same four fields for that
prison, with the same fuel, after the call. -/
theorem linux_alloc_prison_effective (fuel : Nat) (st st2 : State) (pr osd_error : Nat)
    (lprp : Option linux_prison)
    (h : linux_alloc_prison fuel st pr osd_error = some (0, st2, lprp)) :
    ∀ fuel2 q o l, linux_find_prison fuel2 st q = some (o, l) →
      ∃ o2, linux_find_prison fuel2 st2 q = some (o2, l) := by
  intro fuel2 q o l hq
  cases hfind : linux_find_prison fuel st pr with
  | none => simp [linux_alloc_prison, hfind] at h
  | some r =>
    obtain ⟨ppr, lpr⟩ := r
    rw [linux_alloc_prison_eq fuel st pr osd_error ppr lpr hfind] at h
    by_cases h1 : ppr = pr
    · rw [if_pos h1] at h
      simp only [Option.some.injEq, Prod.mk.injEq, true_and] at h
      rw [← h.1]
      exact ⟨o, hq⟩
    · rw [if_neg h1] at h
      by_cases h2 : osd_error = 0
      · rw [if_pos h2] at h
        simp only [Option.some.injEq, Prod.mk.injEq, true_and] at h
        rw [← h.1]
        have hpr : pr ≠ prison0 := by
          intro h0
          subst h0
          exact h1 (linux_find_prison_root fuel st ppr lpr hfind)
        unfold linux_find_prison at hq hfind ⊢
        by_cases hslot : st.linux_osd_jail_slot = 0
        · simp only [hslot, if_true] at hq ⊢
          cases fuel2 with
          | zero => simp [find_loop] at hq
          | succ f =>
            rw [find_loop_root] at hq ⊢
            exact ⟨o, hq⟩
        · simp only [hslot, if_false] at hq hfind ⊢
          exact find_loop_copy st fuel pr ppr lpr hpr hfind fuel2 q o l hq
      · rw [if_neg h2] at h
        simp only [Option.some.injEq, Prod.mk.injEq] at h
        exact absurd h.1 h2

/-- In `st_owned` prison 2 is given a record by the allocator: prison 3, which
resolved to prison 1, now resolves to prison 2, with the same record. -/
theorem linux_alloc_prison_effective_witness :
    linux_alloc_prison 3 st_owned 2 0 = some (0, st_owned_copy, some foo_record) ∧
    linux_find_prison 4 st_owned 3 = some (1, foo_record) ∧
    linux_find_prison 4 st_owned_copy 3 = some (2, foo_record) ∧
    ∀ fuel2 q o l, linux_find_prison fuel2 st_owned q = some (o, l) →
      ∃ o2, linux_find_prison fuel2 st_owned_copy q = some (o2, l) :=
  ⟨rfl, by decide, by decide,
    linux_alloc_prison_effective 3 st_owned st_owned_copy 2 0 (some foo_record) rfl⟩

/-- A write to the record a prison owns: every prison resolves to the same
prison as before, and to the new record if that prison is the one written. -/
theorem find_loop_store (st : State) (pr : Nat) (old new : linux_prison)
    (hown : own_record st pr = some old)
    (fuel q o : Nat) (l : linux_prison) (h : find_loop st fuel q = some (o, l)) :
    find_loop (store_record st pr new) fuel q = some (o, if o = pr then new else l) := by
  induction fuel generalizing q with
  | zero => simp [find_loop] at h
  | succ f ih =>
    by_cases hq0 : q = prison0
    · subst hq0
      rw [find_loop_root] at h ⊢
      simp only [Option.some.injEq, Prod.mk.injEq] at h
      obtain ⟨rfl, rfl⟩ := h
      by_cases hp : prison0 = pr
      · subst hp
        simp [store_record]
      · have hp2 : pr ≠ prison0 := fun e => hp e.symm
        simp [store_record, hp, hp2]
    · by_cases hqp : q = pr
      · subst hqp
        simp only [own_record, if_neg hq0] at hown
        rw [find_loop_owned st f q old hq0 hown] at h
        simp only [Option.some.injEq, Prod.mk.injEq] at h
        obtain ⟨rfl, rfl⟩ := h
        rw [find_loop_owned _ f q new hq0 (by simp [store_record, hq0])]
        simp
      · have hosd : (store_record st pr new).osd q = st.osd q :=
          (store_record_frame st pr new).2.1 q hqp
        have hpar : (store_record st pr new).pr_parent = st.pr_parent :=
          (store_record_frame st pr new).2.2.1
        cases ho : st.osd q with
        | some l2 =>
          rw [find_loop_owned st f q l2 hq0 ho] at h
          simp only [Option.some.injEq, Prod.mk.injEq] at h
          obtain ⟨rfl, rfl⟩ := h
          rw [find_loop_owned _ f q l2 hq0 (by rw [hosd, ho])]
          simp [hqp]
        | none =>
          rw [find_loop_empty st f q hq0 ho] at h
          rw [find_loop_empty _ f q hq0 (by rw [hosd, ho]), hpar]
          cases hp : st.pr_parent q with
          | none => simp [hp] at h
          | some qq =>
            simp only [hp] at h ⊢
            exact ih qq h

theorem linux_find_prison_written (st : State) (pr : Nat) (old new : linux_prison)
    (hown : own_record st pr = some old)
    (fuel q o : Nat) (l : linux_prison) (h : linux_find_prison fuel st q = some (o, l)) :
    linux_find_prison fuel (store_record st pr new) q
      = some (o, if o = pr then new else l) := by
  unfold linux_find_prison at h ⊢
  rw [(store_record_frame st pr new).2.2.2]
  exact find_loop_store st pr old new hown fuel _ o l h

/-- A write to the record a prison owns leaves every slot empty or filled as it
was, and the records of the other prisons as they were. -/
theorem store_record_slots (st : State) (pr : Nat) (old new : linux_prison)
    (hown : own_record st pr = some old) :
    (∀ q, ((store_record st pr new).osd q).isSome = (st.osd q).isSome) ∧
    (∀ q, q ≠ pr → own_record (store_record st pr new) q = own_record st q) := by
  by_cases hp : pr = prison0
  · subst hp
    constructor
    · intro q
      simp [store_record]
    · intro q hq
      simp [own_record, store_record, hq]
  · simp only [own_record, if_neg hp] at hown
    constructor
    · intro q
      by_cases hq : q = pr
      · subst hq
        simp [store_record, hp, hown]
      · simp [store_record, hp, Function.update, hq]
    · intro q hq
      by_cases hq0 : q = prison0
      · simp [own_record, store_record, hp, hq0]
      · simp [own_record, store_record, hp, hq0, Function.update, hq]

/-- C26: the setters of a thread write through the resolver. When the prison of
the thread resolves to the prison `pr` with the record `lpr`,
`linux_set_osname`, `linux_set_oss_version` and, for a release string that the
parser accepts, `linux_set_osrelease` return 0 and write the field (with the
number, for the release) into that record of `pr`; `linux_set_osrelease` with
a release string that the parser rejects returns `EINVAL` and leaves the state
as it was. Such a write leaves every slot empty or filled as it was and the
records of the other prisons as they were, and every prison that resolved to
`pr` resolves to `pr` with the new record, the others resolving as before.
With the module registered, `pr` is the first prison on the parent chain of
the prison of the thread, itself included, that is the root or has a record in
its slot. -/
theorem linux_setters_write_through (M W fuel : Nat) (st : State) (cr_prison pr : Nat)
    (lpr : linux_prison) (hfind : linux_find_prison fuel st cr_prison = some (pr, lpr)) :
    (∀ osname, linux_set_osname M fuel st cr_prison osname
      = some (0, store_record st pr { lpr with pr_osname := strlcpy lpr.pr_osname osname M })) ∧
    (∀ v, linux_set_oss_version fuel st cr_prison v
      = some (0, store_record st pr { lpr with pr_oss_version := v })) ∧
    (∀ osrelease n, linux_map_osrel W osrelease 0 = (0, n) →
      linux_set_osrelease M W fuel st cr_prison osrelease
        = some (0, store_record st pr { lpr with
            pr_osrel := n
            pr_osrelease := strlcpy lpr.pr_osrelease osrelease M })) ∧
    (∀ osrelease, (linux_map_osrel W osrelease 0).1 ≠ 0 →
      linux_set_osrelease M W fuel st cr_prison osrelease = some (EINVAL, st)) ∧
    (∀ new : linux_prison,
      own_record (store_record st pr new) pr = some new ∧
      (∀ q, ((store_record st pr new).osd q).isSome = (st.osd q).isSome) ∧
      (∀ q, q ≠ pr → own_record (store_record st pr new) q = own_record st q) ∧
      (∀ fuel2 q o l, linux_find_prison fuel2 st q = some (o, l) →
        linux_find_prison fuel2 (store_record st pr new) q
          = some (o, if o = pr then new else l))) ∧
    (st.linux_osd_jail_slot ≠ 0 → ∀ d, reaches_root st d cr_prison = true → d < fuel →
      ∃ k, k ≤ d ∧ ancestor st k cr_prison = some pr ∧ own_record st pr = some lpr ∧
        ∀ j, j < k → ∃ a, ancestor st j cr_prison = some a ∧ a ≠ prison0 ∧ st.osd a = none) := by
  have hown := linux_find_prison_own fuel st cr_prison pr lpr hfind
  refine ⟨?_, ?_, ?_, ?_, ?_, ?_⟩
  · intro osname
    simp [linux_set_osname, hfind]
  · intro v
    simp [linux_set_oss_version, hfind]
  · intro osrelease n hn
    have h1 : linux_map_osrel W osrelease lpr.pr_osrel = (0, n) := by
      rw [linux_map_osrel_ok_indep W osrelease 0 lpr.pr_osrel (by rw [hn]), hn]
    simp [linux_set_osrelease, hfind, h1]
  · intro osrelease hbad
    have hb : (linux_map_osrel W osrelease lpr.pr_osrel).1 ≠ 0 := by
      rw [linux_map_osrel_error_indep W osrelease lpr.pr_osrel 0]
      exact hbad
    have he := linux_map_osrel_error W osrelease lpr.pr_osrel hb
    have hs : store_record st pr lpr = st :=
      store_record_self st pr lpr (linux_find_prison_owner fuel st cr_prison pr lpr hfind)
    simp [linux_set_osrelease, hfind, he, EINVAL, hs]
  · intro new
    exact ⟨own_record_store st pr new, (store_record_slots st pr lpr new hown).1,
      (store_record_slots st pr lpr new hown).2,
      fun fuel2 q o l hq => linux_find_prison_written st pr lpr new hown fuel2 q o l hq⟩
  · intro hslot d hreach hfuel
    obtain ⟨k, q, l, hk, hanc, hq, _, hbefore⟩ := find_loop_spec st d fuel cr_prison hreach hfuel
    unfold linux_find_prison at hfind
    rw [if_neg hslot, hq] at hfind
    simp only [Option.some.injEq, Prod.mk.injEq] at hfind
    obtain ⟨rfl, rfl⟩ := hfind
    exact ⟨k, hk, hanc, hown, hbefore⟩

/-- A thread of prison 3 of `st_owned`, whose slot is empty, sets the OSS
version 9: the record of prison 1 is written, and prison 2, which resolves to
prison 1, sees the version 9. -/
theorem linux_setters_write_through_witness :
    linux_find_prison 4 st_owned 3 = some (1, foo_record) ∧
    linux_set_oss_version 4 st_owned 3 9
      = some (0, store_record st_owned 1 { foo_record with pr_oss_version := 9 }) ∧
    linux_set_osrelease 65 32 4 st_owned 3 (bytes "2.6") = some (EINVAL, st_owned) ∧
    linux_find_prison 4 (store_record st_owned 1 { foo_record with pr_oss_version := 9 }) 2
      = some (1, { foo_record with pr_oss_version := 9 }) :=
  ⟨by decide,
    (linux_setters_write_through 65 32 4 st_owned 3 1 foo_record (by decide)).2.1 9,
    (linux_setters_write_through 65 32 4 st_owned 3 1 foo_record (by decide)).2.2.2.1
      (bytes "2.6") (by decide),
    by decide⟩

/-! ## Fields and the mode -/

/-- C27 (as stated, it fails): prison 1 of `st_owned` owns the record "Foo".
A `linux_prison_set` with the mode `JAIL_SYS_INHERIT`, the name "Bar" and the
release string "2.6", which the parser rejects, returns `EINVAL` and the name
of prison 1 is still "Foo": the name of the option set is not applied. And on
prison 2, whose slot is empty, a set of the OSS version 7 during which
`osd_jail_set` fails with the error 12 returns 12 and leaves the slot of
prison 2 empty. -/
theorem linux_prison_set_field_not_applied :
    (linux_prison_set 65 32 3 st_owned 1
        ⟨some JAIL_SYS_INHERIT, some (bytes "Bar\x00"), some (bytes "2.6\x00"), none⟩ 0).map
      (fun r => (r.1, (own_record r.2 1).map (fun lpr => cstr lpr.pr_osname)))
      = some (EINVAL, some (bytes "Foo")) ∧
    (linux_prison_set 65 32 3 st_owned 2 ⟨some JAIL_SYS_INHERIT, none, none, some 7⟩ 12).map
      (fun r => (r.1, own_record r.2 2)) = some (12, none) := by
  decide

/-- C27 (amended): in `linux_prison_set` a field overrides the mode. For an
option set with a name, a release string or an OSS version, on a prison that
the resolver resolves, with the module registered: the call is in case
`JAIL_SYS_NEW` whatever the option `linux`, and its outcome is the same for
every value of the option `linux`, `JAIL_SYS_INHERIT` included; when the
release string, if there is one, is accepted by the parser and the prison has
a record or `osd_jail_set` succeeds, the call returns 0; after a call that
returned 0 the prison owns a record, in which the fields of the option set are
written over the record the resolver returned before the call; a prison that
owned a record before the call owns one after it, whatever the call returns,
with the fields that the option set does not give as they were. An option set
with no mode and no field changes nothing and returns 0. -/
theorem linux_prison_set_field_overrides_mode (M W fuel : Nat) (st : State)
    (pr ppr osd_error : Nat) (opts : vfsoptlist) (lpr : linux_prison)
    (hslot : st.linux_osd_jail_slot ≠ 0)
    (hfield : opts.osname ≠ none ∨ opts.osrelease ≠ none ∨ opts.oss_version ≠ none)
    (hfind : linux_find_prison fuel st pr = some (ppr, lpr)) :
    linux_prison_set_jsys opts = JAIL_SYS_NEW ∧
    (∀ mode, linux_prison_set M W fuel st pr { opts with linux := mode } osd_error
      = linux_prison_set M W fuel st pr opts osd_error) ∧
    ((∀ rel, opts.osrelease = some rel → (linux_map_osrel W rel 0).1 = 0) →
      (ppr = pr ∨ osd_error = 0) →
      ∃ st2, linux_prison_set M W fuel st pr opts osd_error = some (0, st2)) ∧
    (∀ st2, linux_prison_set M W fuel st pr opts osd_error = some (0, st2) →
      ∃ lpr2, own_record st2 pr = some lpr2 ∧
        (∀ name, opts.osname = some name →
          lpr2.pr_osname = strlcpy lpr.pr_osname name M) ∧
        (∀ rel, opts.osrelease = some rel →
          (linux_map_osrel W rel 0).1 = 0 ∧
          lpr2.pr_osrelease = strlcpy lpr.pr_osrelease rel M ∧
          lpr2.pr_osrel = (linux_map_osrel W rel 0).2) ∧
        (∀ v, opts.oss_version = some v → lpr2.pr_oss_version = v)) ∧
    (∀ old e st2, own_record st pr = some old →
      linux_prison_set M W fuel st pr opts osd_error = some (e, st2) →
      ∃ new, own_record st2 pr = some new ∧
        (opts.osname = none → new.pr_osname = old.pr_osname) ∧
        (opts.osrelease = none →
          new.pr_osrelease = old.pr_osrelease ∧ new.pr_osrel = old.pr_osrel) ∧
        (opts.oss_version = none → new.pr_oss_version = old.pr_oss_version)) ∧
    linux_prison_set M W fuel st pr ⟨none, none, none, none⟩ osd_error = some (0, st) := by
  have hjsys := linux_prison_set_jsys_field opts hfield
  refine ⟨hjsys, ?_, ?_, ?_, ?_, ?_⟩
  · intro mode
    have hj2 : linux_prison_set_jsys { opts with linux := mode } = JAIL_SYS_NEW :=
      linux_prison_set_jsys_field _ hfield
    rw [linux_prison_set_new_eq M W fuel st pr osd_error ppr _ lpr hj2 hfind,
      linux_prison_set_new_eq M W fuel st pr osd_error ppr opts lpr hjsys hfind]
    rfl
  · intro hok hinst
    have hf := linux_prison_set_fields_ok M W opts lpr hok
    rw [linux_prison_set_new_eq M W fuel st pr osd_error ppr opts lpr hjsys hfind, hf]
    by_cases h1 : ppr = pr
    · rw [if_pos h1]
      exact ⟨_, rfl⟩
    · rcases hinst with h2 | h2
      · exact absurd h2 h1
      · rw [if_neg h1, if_pos h2]
        exact ⟨_, rfl⟩
  · intro st2 hset
    obtain ⟨hf, st1, rfl, _, _, _, _⟩ :=
      linux_prison_set_new_ok M W fuel st st2 pr osd_error ppr opts lpr hjsys hfind hset
    obtain ⟨g1, g2, g3⟩ := linux_prison_set_fields_given M W opts lpr hf
    refine ⟨_, own_record_store st1 pr _, g1, ?_, g3⟩
    intro rel hrel
    obtain ⟨m1, m2, m3⟩ := g2 rel hrel
    have hi : (linux_map_osrel W rel 0).1 = 0 := by
      rw [linux_map_osrel_error_indep W rel 0 lpr.pr_osrel]
      exact m1
    refine ⟨hi, m2, ?_⟩
    rw [m3, linux_map_osrel_ok_indep W rel 0 lpr.pr_osrel hi]
  · intro old e st2 hown hset
    have hself := linux_find_prison_self fuel st pr old hslot
      (linux_find_prison_fuel_pos fuel st pr _ hfind) hown
    rw [hfind] at hself
    simp only [Option.some.injEq, Prod.mk.injEq] at hself
    obtain ⟨h1, h2⟩ := hself
    subst h2
    rw [linux_prison_set_new_eq M W fuel st pr osd_error ppr opts lpr hjsys hfind,
      if_pos h1] at hset
    simp only [Option.some.injEq, Prod.mk.injEq] at hset
    obtain ⟨f1, f2, f3⟩ := linux_prison_set_fields_frame M W opts lpr
    rw [← hset.2]
    exact ⟨_, own_record_store st pr _, f1, f2, f3⟩
  · exact linux_prison_set_other_eq M W fuel st pr osd_error _ (by decide) (by decide)

/-- On prison 1 of `st_owned`, which owns the record "Foo", the option set
with the mode `JAIL_SYS_INHERIT` and the OSS version 7 is in case
`JAIL_SYS_NEW`: the call returns 0, prison 1 still owns a record, with the
version 7 and the name "Foo". -/
theorem linux_prison_set_field_overrides_mode_witness :
    st_owned.linux_osd_jail_slot ≠ 0 ∧
    linux_find_prison 3 st_owned 1 = some (1, foo_record) ∧
    linux_prison_set_jsys ⟨some JAIL_SYS_INHERIT, none, none, some 7⟩ = JAIL_SYS_NEW ∧
    (∃ st2, linux_prison_set 65 32 3 st_owned 1 ⟨some JAIL_SYS_INHERIT, none, none, some 7⟩ 0
      = some (0, st2)) ∧
    (∀ st2, linux_prison_set 65 32 3 st_owned 1 ⟨some JAIL_SYS_INHERIT, none, none, some 7⟩ 0
        = some (0, st2) →
      ∃ lpr2, own_record st2 1 = some lpr2 ∧ lpr2.pr_oss_version = 7) ∧
    (∀ e st2, linux_prison_set 65 32 3 st_owned 1 ⟨some JAIL_SYS_INHERIT, none, none, some 7⟩ 0
        = some (e, st2) →
      ∃ new, own_record st2 1 = some new ∧ new.pr_osname = foo_record.pr_osname) :=
  ⟨by decide, by decide,
    (linux_prison_set_field_overrides_mode 65 32 3 st_owned 1 1 0
      ⟨some JAIL_SYS_INHERIT, none, none, some 7⟩ foo_record (by decide)
      (Or.inr (Or.inr (by decide))) (by decide)).1,
    (linux_prison_set_field_overrides_mode 65 32 3 st_owned 1 1 0
      ⟨some JAIL_SYS_INHERIT, none, none, some 7⟩ foo_record (by decide)
      (Or.inr (Or.inr (by decide))) (by decide)).2.2.1
      (fun rel hrel => by cases hrel) (Or.inl rfl),
    fun st2 hset =>
      (fun ⟨lpr2, h1, _, _, h4⟩ => ⟨lpr2, h1, h4 7 rfl⟩)
        ((linux_prison_set_field_overrides_mode 65 32 3 st_owned 1 1 0
          ⟨some JAIL_SYS_INHERIT, none, none, some 7⟩ foo_record (by decide)
          (Or.inr (Or.inr (by decide))) (by decide)).2.2.2.1 st2 hset),
    fun e st2 hset =>
      (fun ⟨new, h1, h2, _, _⟩ => ⟨new, h1, h2 rfl⟩)
        ((linux_prison_set_field_overrides_mode 65 32 3 st_owned 1 1 0
          ⟨some JAIL_SYS_INHERIT, none, none, some 7⟩ foo_record (by decide)
          (Or.inr (Or.inr (by decide))) (by decide)).2.2.2.2.1 foo_record e st2
          (by decide) hset)⟩

end LinuxMib

namespace Libdisk

/-! ## The rules of libdisk -/

/-- The loop of `Rule_000` counts the chunks of the chain whose type is not
`unused`. -/
theorem Rule_000_loop_eq (c : chunk) (i : Int) :
    Rule_000_loop c i
      = i + (((chain c).filter (fun c1 => c1.type? ≠ some chunk_e.unused)).length : Int) := by
  induction c generalizing i with
  | null => simp [Rule_000_loop, chain]
  | mk type name offset c_end part next _ ihn =>
    simp only [Rule_000_loop, chain]
    rw [ihn]
    by_cases h : type = chunk_e.unused
    · simp [h, chunk.type?]
    · simp [h, chunk.type?]
      omega

/-- The loop of `Rule_001` appends to the text, and appends nothing exactly
when every chunk of the chain is aligned or of type `reserved` or `unused`. -/
theorem Rule_001_loop_eq (Aligned : Int → Bool) (c : chunk) (msg : List message) :
    ∃ e, Rule_001_loop Aligned c msg = msg ++ e ∧
      (e = [] ↔ (chain c).all (child_aligned Aligned) = true) := by
  induction c generalizing msg with
  | null => exact ⟨[], by simp [Rule_001_loop, chain]⟩
  | mk type name offset c_end part next _ ihn =>
    simp only [Rule_001_loop, chain, List.all_cons, child_aligned]
    by_cases h1 : type = chunk_e.reserved
    · obtain ⟨e, he, hi⟩ := ihn msg
      exact ⟨e, by simp [h1, he], by simp [h1, hi]⟩
    · by_cases h2 : type = chunk_e.unused
      · obtain ⟨e, he, hi⟩ := ihn msg
        exact ⟨e, by simp [h2, he], by simp [h2, hi]⟩
      · cases ha : Aligned offset <;> cases hb : Aligned (c_end + 1)
        · obtain ⟨e, he, _⟩ := ihn
            (msg ++ [message.bad_start name offset c_end, message.bad_end name offset c_end])
          exact ⟨message.bad_start name offset c_end :: message.bad_end name offset c_end :: e,
            by simp [h1, h2, he], by simp [h1, h2]⟩
        · obtain ⟨e, he, _⟩ := ihn (msg ++ [message.bad_start name offset c_end])
          exact ⟨message.bad_start name offset c_end :: e,
            by simp [h1, h2, he], by simp [h1, h2]⟩
        · obtain ⟨e, he, _⟩ := ihn (msg ++ [message.bad_end name offset c_end])
          exact ⟨message.bad_end name offset c_end :: e,
            by simp [h1, h2, he], by simp [h1, h2]⟩
        · obtain ⟨e, he, hi⟩ := ihn msg
          exact ⟨e, by simp [h1, h2, he], by simp [h1, h2, hi]⟩

/-- The two rules on one chunk append to the text, and append nothing exactly
when the chunk is as the rules ask. -/
theorem Rules_eq (NDOSPART : Int) (Aligned : Int → Bool) (type : chunk_e) (name : List Nat)
    (offset c_end : Int) (part next : chunk) (msg : List message) :
    ∃ e, (match Rule_000 NDOSPART (chunk.mk type name offset c_end part next) msg with
          | none => none
          | some msg => Rule_001 Aligned (chunk.mk type name offset c_end part next) msg)
        = some (msg ++ e) ∧
      (e = [] ↔ rules_ok NDOSPART Aligned (chunk.mk type name offset c_end part next) = true) := by
  by_cases hw : type = chunk_e.whole
  · subst hw
    have hr0 : Rule_000 NDOSPART (chunk.mk chunk_e.whole name offset c_end part next) msg
        = if (((chain part).filter (fun c1 => c1.type? ≠ some chunk_e.unused)).length : Int)
            ≤ NDOSPART then some msg
          else some (msg ++ [message.too_many
            (((chain part).filter (fun c1 => c1.type? ≠ some chunk_e.unused)).length : Int)
            NDOSPART]) := by
      simp [Rule_000, Rule_000_loop_eq]
    have hr1 : ∀ m, Rule_001 Aligned (chunk.mk chunk_e.whole name offset c_end part next) m
        = some (Rule_001_loop Aligned part m) := by
      intro m
      simp [Rule_001]
    have hok : rules_ok NDOSPART Aligned (chunk.mk chunk_e.whole name offset c_end part next)
        = (decide ((((chain part).filter
            (fun c1 => c1.type? ≠ some chunk_e.unused)).length : Int) ≤ NDOSPART) &&
          (chain part).all (child_aligned Aligned)) := rfl
    rw [hr0, hok]
    generalize (((chain part).filter
      (fun c1 => c1.type? ≠ some chunk_e.unused)).length : Int) = cnt
    by_cases hn : cnt ≤ NDOSPART
    · obtain ⟨e, he, hi⟩ := Rule_001_loop_eq Aligned part msg
      rw [if_pos hn]
      refine ⟨e, by simp only [hr1, he], ?_⟩
      rw [hi]
      simp [hn]
    · obtain ⟨e2, he2, _⟩ := Rule_001_loop_eq Aligned part
        (msg ++ [message.too_many cnt NDOSPART])
      rw [if_neg hn]
      refine ⟨message.too_many cnt NDOSPART :: e2, ?_, by simp [hn]⟩
      simp only [hr1, he2]
      simp
  · exact ⟨[], by simp [Rule_000, Rule_001, hw], by simp [rules_ok, chunk.type?, hw]⟩

/-- A chunk that is reachable is not `NULL`. -/
theorem reachable_ne_null (c : chunk) : chunk.null ∉ reachable c := by
  induction c with
  | null => simp [reachable]
  | mk type name offset c_end part next ihp ihn => simp [reachable, ihp, ihn]

/-- On a chunk that is not `NULL`, `Check_Chunk` returns, appends to the text,
and appends nothing exactly when every chunk reachable from the chunk is as
the rules ask. -/
theorem Check_Chunk_eq (NDOSPART : Int) (Aligned : Int → Bool) (c : chunk)
    (msg : List message) (h : c ≠ chunk.null) :
    ∃ e, Check_Chunk NDOSPART Aligned c msg = some (msg ++ e) ∧
      (e = [] ↔ ∀ c1 ∈ reachable c, rules_ok NDOSPART Aligned c1 = true) := by
  induction c generalizing msg with
  | null => exact absurd rfl h
  | mk type name offset c_end part next ihp ihn =>
    obtain ⟨e0, he0, hi0⟩ := Rules_eq NDOSPART Aligned type name offset c_end part next msg
    have hp : ∀ m : List message, ∃ e,
        (if part ≠ chunk.null then Check_Chunk NDOSPART Aligned part m else some m)
          = some (m ++ e) ∧
        (e = [] ↔ ∀ c1 ∈ reachable part, rules_ok NDOSPART Aligned c1 = true) := by
      intro m
      by_cases hp0 : part = chunk.null
      · exact ⟨[], by simp [hp0], by simp [hp0, reachable]⟩
      · rw [if_pos hp0]
        exact ihp m hp0
    have hn : ∀ m : List message, ∃ e,
        (if next ≠ chunk.null then Check_Chunk NDOSPART Aligned next m else some m)
          = some (m ++ e) ∧
        (e = [] ↔ ∀ c1 ∈ reachable next, rules_ok NDOSPART Aligned c1 = true) := by
      intro m
      by_cases hn0 : next = chunk.null
      · exact ⟨[], by simp [hn0], by simp [hn0, reachable]⟩
      · rw [if_pos hn0]
        exact ihn m hn0
    obtain ⟨e1, he1, hi1⟩ := hp (msg ++ e0)
    obtain ⟨e2, he2, hi2⟩ := hn (msg ++ e0 ++ e1)
    refine ⟨e0 ++ e1 ++ e2, ?_, ?_⟩
    · unfold Check_Chunk
      cases h0 : Rule_000 NDOSPART (chunk.mk type name offset c_end part next) msg with
      | none => simp [h0] at he0
      | some m0 =>
        simp only [h0] at he0 ⊢
        rw [he0]
        simp only [he1, he2]
        simp
    · simp only [reachable, List.mem_cons, List.mem_append, List.append_eq_nil, hi0, hi1, hi2]
      constructor
      · rintro ⟨⟨a, b⟩, c⟩ c1 (rfl | h1 | h1)
        · exact a
        · exact b c1 h1
        · exact c c1 h1
      · intro hall
        exact ⟨⟨hall _ (Or.inl rfl), fun c1 h1 => hall c1 (Or.inr (Or.inl h1))⟩,
          fun c1 h1 => hall c1 (Or.inr (Or.inr h1))⟩

/-- C28: `CheckRules` on a disk whose `chunks` is not `NULL`, the chunks being
a finite tree through `part` and `next`: the function returns; it returns
`NULL` if and only if every chunk reachable from `chunks` is as the rules ask,
that is, if its type is `whole`, it has at most `NDOSPART` children of a type
other than `unused` and each child of a type other than `reserved` and
`unused` has its offset and its end plus one accepted by `Aligned`; and on a
chunk of another type the two rules leave the text as it is. -/
theorem CheckRules_null_iff (NDOSPART : Int) (Aligned : Int → Bool) (chunks : chunk)
    (h : chunks ≠ chunk.null) :
    (∃ r, CheckRules NDOSPART Aligned chunks = some r) ∧
    (CheckRules NDOSPART Aligned chunks = some none ↔
      ∀ c ∈ reachable chunks, rules_ok NDOSPART Aligned c = true) ∧
    (∀ c ∈ reachable chunks, c.type? ≠ some chunk_e.whole →
      ∀ msg, Rule_000 NDOSPART c msg = some msg ∧ Rule_001 Aligned c msg = some msg) := by
  obtain ⟨e, he, hi⟩ := Check_Chunk_eq NDOSPART Aligned chunks [] h
  simp only [List.nil_append] at he
  refine ⟨?_, ?_, ?_⟩
  · unfold CheckRules
    rw [he]
    by_cases h0 : e = []
    · exact ⟨none, by simp [h0]⟩
    · exact ⟨some e, by simp [h0]⟩
  · rw [← hi]
    unfold CheckRules
    rw [he]
    by_cases h0 : e = []
    · simp [h0]
    · simp [h0]
  · intro c hc hw msg
    cases c with
    | null => exact absurd hc (reachable_ne_null chunks)
    | mk type name offset c_end part next =>
      have hw2 : type ≠ chunk_e.whole := by
        intro e
        exact hw (by simp [chunk.type?, e])
      simp [Rule_000, Rule_001, hw2]

/-- The disk `disk_good` passes, the disk `disk_bad`, whose first child ends
off a track boundary, does not. -/
theorem CheckRules_null_iff_witness :
    disk_good ≠ chunk.null ∧
    CheckRules 4 (fun o => o % 63 == 0) disk_good = some none ∧
    (∀ c ∈ reachable disk_good, rules_ok 4 (fun o => o % 63 == 0) c = true) ∧
    CheckRules 4 (fun o => o % 63 == 0) disk_bad
      = some (some [message.bad_end [97] 63 130]) ∧
    rules_ok 4 (fun o => o % 63 == 0) disk_bad = false :=
  ⟨by decide, by decide,
    (CheckRules_null_iff 4 (fun o => o % 63 == 0) disk_good (by decide)).2.1.mp (by decide),
    by decide, by decide⟩

end Libdisk
